import Mathlib

/-!
YASK: the tile scan over dimensions 1 and 2 and the expression nodes.

Shallow embedding of the generated scan
`build/kernel/yask_kernel.jacobi2d.avx/gen/yask_region_loops.hpp` and of the
expression classes of `src/compiler/lib/Expr.hpp`.

`idx_t` is a signed 64-bit integer in the kernel. Signed overflow is undefined
in C++, so the embedding computes over `Int`: it describes the runs in which no
intermediate value leaves the 64-bit range.  C++ `/` and `%` on `idx_t`
truncate toward zero and are embedded as `Int.tdiv` and `Int.tmod`.
-/

namespace Yask

/-- Index type of the kernel (a signed 64-bit integer, embedded as `Int`). -/
abbrev idx_t := Int

/-- Modelled from the spec: the type `Indices` is declared outside the sources
at hand. It holds one `idx_t` per dimension; the embedding is the total map
from a dimension number to its value. -/
abbrev Indices := Nat → idx_t

/-- Assignment `a[d] = v` on an `Indices` value. -/
def Indices.set (a : Indices) (d : Nat) (v : idx_t) : Indices :=
  fun k => if k = d then v else a k

/-- Modelled from the spec: the type `ScanIndices` is declared outside the
sources at hand. Per dimension it holds `begin`, `end` (half-open), `stride`,
`align`, `align_ofs` (the spec's alignOffset), and the scheduler-maintained
outputs `start`, `stop`, `index`, `num_indices`, plus the flattened
`linear_indices` / `linear_index` pair. The field `end` is spelled `end_`. -/
structure ScanIndices where
  begin : Indices
  end_ : Indices
  stride : Indices
  align : Indices
  align_ofs : Indices
  start : Indices
  stop : Indices
  index : Indices
  num_indices : Indices
  linear_indices : idx_t
  linear_index : idx_t

/-- Modelled from the spec: `yask::round_down_flr` is declared outside the
sources at hand. The spec calls it floor_round: the greatest multiple of
`mult` that is at most `dividend`, rounding toward minus infinity. -/
def round_down_flr (dividend mult : idx_t) : idx_t :=
  Int.fdiv dividend mult * mult

/-- Modelled from the spec: `yask::ceil_idiv_flr` is declared outside the
sources at hand. The spec calls it ceil: the quotient `numer / denom` rounded
toward plus infinity. -/
def ceil_idiv_flr (numer denom : idx_t) : idx_t :=
  -(Int.fdiv (-numer) denom)

/-! ## The scan over dimensions 1, 2 (lines 20-99) -/

/-- Line 23: alignment capped to the stride, dimension 1. -/
def adj_align_1 (region_idxs : ScanIndices) : idx_t :=
  min (region_idxs.align 1) (region_idxs.stride 1)

/-- Line 28: aligned beginning point, dimension 1. -/
def aligned_begin_1 (region_idxs : ScanIndices) : idx_t :=
  round_down_flr (region_idxs.begin 1 - region_idxs.align_ofs 1)
    (adj_align_1 region_idxs) + region_idxs.align_ofs 1

/-- Line 36: number of iterations, dimension 1. -/
def num_iters_1 (region_idxs : ScanIndices) : idx_t :=
  ceil_idiv_flr (region_idxs.end_ 1 - aligned_begin_1 region_idxs)
    (region_idxs.stride 1)

/-- Line 41: alignment capped to the stride, dimension 2. -/
def adj_align_2 (region_idxs : ScanIndices) : idx_t :=
  min (region_idxs.align 2) (region_idxs.stride 2)

/-- Line 46: aligned beginning point, dimension 2. -/
def aligned_begin_2 (region_idxs : ScanIndices) : idx_t :=
  round_down_flr (region_idxs.begin 2 - region_idxs.align_ofs 2)
    (adj_align_2 region_idxs) + region_idxs.align_ofs 2

/-- Line 54: number of iterations, dimension 2. -/
def num_iters_2 (region_idxs : ScanIndices) : idx_t :=
  ceil_idiv_flr (region_idxs.end_ 2 - aligned_begin_2 region_idxs)
    (region_idxs.stride 2)

/-- Line 59: number of iterations in dimensions 1, 2. -/
def num_iters_1_2 (region_idxs : ScanIndices) : idx_t :=
  num_iters_1 region_idxs * num_iters_2 region_idxs

/-- Line 69: zero-based, unit-stride index for dimension 1. -/
def index_1 (region_idxs : ScanIndices) (loop_index_1_2 : idx_t) : idx_t :=
  Int.tdiv loop_index_1_2 (num_iters_2 region_idxs)

/-- Line 72: zero-based, unit-stride index for dimension 2. -/
def index_2 (region_idxs : ScanIndices) (loop_index_1_2 : idx_t) : idx_t :=
  Int.tmod loop_index_1_2 (num_iters_2 region_idxs)

/-- Line 76: first point covered by tile `index_1` of dimension 1. -/
def start_1 (region_idxs : ScanIndices) (index_1 : idx_t) : idx_t :=
  max (aligned_begin_1 region_idxs + index_1 * region_idxs.stride 1)
    (region_idxs.begin 1)

/-- Line 77: end (exclusive) of tile `index_1` of dimension 1. -/
def stop_1 (region_idxs : ScanIndices) (index_1 : idx_t) : idx_t :=
  min (aligned_begin_1 region_idxs + (index_1 + 1) * region_idxs.stride 1)
    (region_idxs.end_ 1)

/-- Line 81: first point covered by tile `index_2` of dimension 2. -/
def start_2 (region_idxs : ScanIndices) (index_2 : idx_t) : idx_t :=
  max (aligned_begin_2 region_idxs + index_2 * region_idxs.stride 2)
    (region_idxs.begin 2)

/-- Line 82: end (exclusive) of tile `index_2` of dimension 2. -/
def stop_2 (region_idxs : ScanIndices) (index_2 : idx_t) : idx_t :=
  min (aligned_begin_2 region_idxs + (index_2 + 1) * region_idxs.stride 2)
    (region_idxs.end_ 2)

/-- Lines 85-95: the local copy of the indices handed to `calc_block` in the
iteration `loop_index_1_2` of the flattened loop. -/
def local_indices (region_idxs : ScanIndices) (loop_index_1_2 : idx_t) : ScanIndices :=
  { region_idxs with
    start := (region_idxs.start.set 1
        (start_1 region_idxs (index_1 region_idxs loop_index_1_2))).set 2
        (start_2 region_idxs (index_2 region_idxs loop_index_1_2))
    stop := (region_idxs.stop.set 1
        (stop_1 region_idxs (index_1 region_idxs loop_index_1_2))).set 2
        (stop_2 region_idxs (index_2 region_idxs loop_index_1_2))
    index := (region_idxs.index.set 1 (index_1 region_idxs loop_index_1_2)).set 2
        (index_2 region_idxs loop_index_1_2)
    num_indices := (region_idxs.num_indices.set 1 (num_iters_1 region_idxs)).set 2
        (num_iters_2 region_idxs)
    linear_indices := num_iters_1_2 region_idxs
    linear_index := loop_index_1_2 }

/-- Lines 66-99: the flattened loop. The result lists the argument of every
`calc_block` call, one per `loop_index_1_2` in `0 .. num_iters_1_2 - 1`; the
loop body is not entered when `num_iters_1_2 <= 0`. -/
def region_loops (region_idxs : ScanIndices) : List ScanIndices :=
  (List.range (num_iters_1_2 region_idxs).toNat).map
    (fun (k : Nat) => local_indices region_idxs (Int.ofNat k))

/-- A descriptor that is constant outside dimensions 1 and 2: dimension 1 has
`(b1, e1, s1, a1, o1)` as begin, end, stride, align, align_ofs, dimension 2 has
`(b2, e2, s2, a2, o2)`, every other entry is 0 (stride and align 1). -/
def mkScan (b1 e1 s1 a1 o1 b2 e2 s2 a2 o2 : idx_t) : ScanIndices where
  begin := fun d => if d = 1 then b1 else if d = 2 then b2 else 0
  end_ := fun d => if d = 1 then e1 else if d = 2 then e2 else 0
  stride := fun d => if d = 1 then s1 else if d = 2 then s2 else 1
  align := fun d => if d = 1 then a1 else if d = 2 then a2 else 1
  align_ofs := fun d => if d = 1 then o1 else if d = 2 then o2 else 0
  start := fun _ => 0
  stop := fun _ => 0
  index := fun _ => 0
  num_indices := fun _ => 0
  linear_indices := 0
  linear_index := 0


/-- The row-major formula as the spec words it,
`idx_d = (linear / Π_{d'>d} numTiles[d']) mod numTiles[d]`: `inner` lists the
tile counts of the scanned dimensions after `d`, and `/` and `mod` are read as
the integer operators of the kernel's language. -/
def idx_row_major (linear : idx_t) (inner : List idx_t) (numTiles : idx_t) : idx_t :=
  Int.tmod (Int.tdiv linear inner.prod) numTiles

/-- The point `(x, y)` of dimensions 1 and 2 lies in the rectangle
`[start_1, stop_1) x [start_2, stop_2)` of a resolved descriptor. -/
def inTile (t : ScanIndices) (x y : idx_t) : Prop :=
  (t.start 1 ≤ x ∧ x < t.stop 1) ∧ (t.start 2 ≤ y ∧ y < t.stop 2)

/-! ## Expression nodes (`src/compiler/lib/Expr.hpp`)

Nodes are embedded as trees: an operand pointer is the operand itself, so every
operand is present (no null pointer) and object identity is not represented.
`double` is embedded as `ℚ`: rounding, infinities and NaN are not modelled, and
division by zero has Lean's value 0; the section on the values of `double`
adds what the claims about NaN and about rounding need.  A thrown exception is
an `Except.error` carrying the kind of the error and the node whose rendering
the message quotes; the unchecked integer modulo by zero is an `Except.error`
of its own kind. -/

/-- Var index types (lines 222-228). -/
inductive IndexType where
  | STEP_INDEX
  | DOMAIN_INDEX
  | MISC_INDEX
  | FIRST_INDEX
  | LAST_INDEX
deriving DecidableEq, Repr

/-- The classes made by `BIN_NUM_EXPR` (lines 523-530). -/
inductive BinNumType where
  | SubExpr
  | DivExpr
  | ModExpr
deriving DecidableEq, Repr

/-- The classes made by `COMM_EXPR` (lines 709-710). -/
inductive CommType where
  | MultExpr
  | AddExpr
deriving DecidableEq, Repr

/-- The classes made by `BIN_NUM2BOOL_EXPR` (lines 559-564). -/
inductive Num2BoolType where
  | IsEqualExpr
  | NotEqualExpr
  | IsLessExpr
  | NotLessExpr
  | IsGreaterExpr
  | NotGreaterExpr
deriving DecidableEq, Repr

/-- The classes made by `BIN_BOOL_EXPR` (lines 593-594). -/
inductive BinBoolType where
  | AndExpr
  | OrExpr
deriving DecidableEq, Repr

/-- Numeric nodes, the concrete classes under `NumExpr`.  A `VarPoint` keeps
the name of its var, its index expressions `args` and the cached rendering
`defStr` (`_defStr`, written by `_updateStr`). -/
inductive NumExpr where
  | ConstExpr (f : ℚ)
  | IndexExpr (dimName : String) (type : IndexType)
  | CodeExpr (code : String)
  | NegExpr (rhs : NumExpr)
  | BIN_NUM_EXPR (type : BinNumType) (lhs rhs : NumExpr)
  | COMM_EXPR (type : CommType) (ops : List NumExpr)
  | FuncExpr (opStr : String) (ops : List NumExpr)
  | VarPoint (var : String) (args : List NumExpr) (defStr : String)

/-- Boolean nodes, the concrete classes under `BoolExpr`. -/
inductive BoolExpr where
  | NotExpr (rhs : BoolExpr)
  | BIN_NUM2BOOL_EXPR (type : Num2BoolType) (lhs rhs : NumExpr)
  | BIN_BOOL_EXPR (type : BinBoolType) (lhs rhs : BoolExpr)

/-- An expression node of either category, the argument type of `isSame`. -/
inductive Expr where
  | num (e : NumExpr)
  | bool (e : BoolExpr)

/-- The ways an evaluation function ends without a value.  Two are the
exceptions thrown: "cannot evaluate ... for a known numerical value"
(line 189) and "does not evaluate to an integer" (line 199), each with the
node it reports.  The third, `undefined_modulo`, is no exception: it marks the
integer modulo by zero of a `ModExpr` node, which the code does not check
(line 529, "TODO: add check for mod-by-0") and C++ leaves undefined, so that
the run has no result. -/
inductive YaskError where
  | cannot_evaluate (e : NumExpr)
  | not_an_integer (e : NumExpr)
  | undefined_modulo (e : NumExpr)

/-- `NegExpr::opStr()` (line 411). -/
def NegExpr.opStr : String := "-"

/-- `NotExpr::opStr()` (line 438). -/
def NotExpr.opStr : String := "!"

/-- The `opstr` argument of `BIN_NUM_EXPR` (lines 523-530). -/
def BinNumType.opStr : BinNumType → String
  | .SubExpr => "-"
  | .DivExpr => "/"
  | .ModExpr => "%"

/-- The `opstr` argument of `COMM_EXPR` (lines 709-710). -/
def CommType.opStr : CommType → String
  | .MultExpr => "*"
  | .AddExpr => "+"

/-- The `opstr` argument of `BIN_NUM2BOOL_EXPR` (lines 559-564). -/
def Num2BoolType.opStr : Num2BoolType → String
  | .IsEqualExpr => "=="
  | .NotEqualExpr => "!="
  | .IsLessExpr => "<"
  | .NotLessExpr => ">="
  | .IsGreaterExpr => ">"
  | .NotGreaterExpr => "<="

/-- The `opstr` argument of `BIN_BOOL_EXPR` (lines 593-594). -/
def BinBoolType.opStr : BinBoolType → String
  | .AndExpr => "&&"
  | .OrExpr => "||"

/-- The conversions `idx_t(x)` and `int(x)` of a `double`: truncation toward
zero.  Converting a value outside the target range is undefined in C++; the
embedding is the mathematical truncation. -/
def trunc_double (x : ℚ) : Int :=
  Int.tdiv x.num x.den

/-- Modelled from the spec: `imod_flr` is declared in `idiv.hpp`, outside the
sources at hand. It is the flooring modulo of two integers (the result has the
sign of the divisor).  An integer modulo by zero is undefined in C++: there
is no value, `none`, for the divisor 0. -/
def imod_flr (a b : idx_t) : Option idx_t :=
  if b = 0 then none else some (Int.fmod a b)

/-- The `oper` argument of `BIN_NUM_EXPR` (lines 523-530), on the operand
values `lhs` and `rhs`; `none` when the modulo has no value.  The division is
that of the rationals: for `rhs = 0` the C++ `double` is an infinity or NaN,
which the embedding does not have, and the value given here, 0, stands for
nothing in the code (see `BinNumType.defined`). -/
def BinNumType.oper : BinNumType → ℚ → ℚ → Option ℚ
  | .SubExpr, lhs, rhs => some (lhs - rhs)
  | .DivExpr, lhs, rhs => some (lhs / rhs)
  | .ModExpr, lhs, rhs =>
    (imod_flr (trunc_double lhs) (trunc_double rhs)).map (fun (i : Int) => (i : ℚ))

/-- The operand values on which the operator of a `BIN_NUM_EXPR` class is
computed as the embedding says: a division needs a divisor other than 0, and
a modulo needs both truncated operands within the range of `int` (so that the
conversions `idx_t(lhs)` and `idx_t(rhs)` and the conversion of the result
back to `double` are exact) and a truncated divisor other than 0. -/
def BinNumType.defined : BinNumType → ℚ → ℚ → Bool
  | .SubExpr, _, _ => true
  | .DivExpr, _, rhs => decide (rhs ≠ 0)
  | .ModExpr, lhs, rhs =>
    decide (-2 ^ 31 ≤ trunc_double lhs ∧ trunc_double lhs < 2 ^ 31 ∧
      -2 ^ 31 ≤ trunc_double rhs ∧ trunc_double rhs < 2 ^ 31 ∧ trunc_double rhs ≠ 0)

/-- The `baseVal` argument of `COMM_EXPR` (lines 709-710). -/
def CommType.baseVal : CommType → ℚ
  | .MultExpr => 1
  | .AddExpr => 0

/-- The `oper` argument of `COMM_EXPR` (lines 709-710). -/
def CommType.oper : CommType → ℚ → ℚ → ℚ
  | .MultExpr, lhs, rhs => lhs * rhs
  | .AddExpr, lhs, rhs => lhs + rhs

/-- The cast `dynamic_cast<const UnaryNumExpr*>(other)`: it succeeds on the
classes derived from `UnaryNumExpr`, which are `NegExpr` and, through
`BinaryNumExpr = BinaryExpr<UnaryNumExpr, ...>` (lines 491-492), the three
`BIN_NUM_EXPR` classes; the result is the `_opStr` and `_rhs` of the node. -/
def NumExpr.asUnaryNumExpr : NumExpr → Option (String × NumExpr)
  | .NegExpr rhs => some (NegExpr.opStr, rhs)
  | .BIN_NUM_EXPR type _ rhs => some (type.opStr, rhs)
  | _ => none

/-- The cast `dynamic_cast<const BinaryNumExpr*>(other)`: it succeeds on the
three `BIN_NUM_EXPR` classes; the result is `_opStr`, `_lhs` and `_rhs`. -/
def NumExpr.asBinaryNumExpr : NumExpr → Option (String × NumExpr × NumExpr)
  | .BIN_NUM_EXPR type lhs rhs => some (type.opStr, lhs, rhs)
  | _ => none

mutual
/-- `isSame` on numeric nodes: `ConstExpr` (line 323), `IndexExpr` (line 264),
`CodeExpr` (line 356), `UnaryExpr` (line 390, used by `NegExpr`), `BinaryExpr`
(line 474) and `VarPoint` (lines 876, 887) follow the source.  The cases of
`COMM_EXPR` and `FuncExpr`, whose `isSame` is only declared (lines 657, 746),
are modelled from the spec through `isSameOps`: the identical variant, the
identical operator or name, and operands that are the same position by
position.  A `ConstExpr` of the tree embedding holds a number, on which `==`
is equality; for a `_f` that is NaN see `ConstExpr.isSame`. -/
def NumExpr.isSame : NumExpr → NumExpr → Bool
  | .ConstExpr f, other =>
    match other with
    | .ConstExpr g => f == g
    | _ => false
  | .IndexExpr dimName type, other =>
    match other with
    | .IndexExpr dimName2 type2 => dimName == dimName2 && type == type2
    | _ => false
  | .CodeExpr code, other =>
    match other with
    | .CodeExpr code2 => code == code2
    | _ => false
  | .NegExpr rhs, other =>
    match other.asUnaryNumExpr with
    | some (opStr2, rhs2) => NegExpr.opStr == opStr2 && rhs.isSame rhs2
    | none => false
  | .BIN_NUM_EXPR type lhs rhs, other =>
    match other.asBinaryNumExpr with
    | some (opStr2, lhs2, rhs2) => type.opStr == opStr2 && lhs.isSame lhs2 && rhs.isSame rhs2
    | none => false
  | .COMM_EXPR type ops, other =>
    match other with
    | .COMM_EXPR type2 ops2 => type.opStr == type2.opStr && NumExpr.isSameOps ops ops2
    | _ => false
  | .FuncExpr opStr ops, other =>
    match other with
    | .FuncExpr opStr2 ops2 => opStr == opStr2 && NumExpr.isSameOps ops ops2
    | _ => false
  | .VarPoint _ _ defStr, other =>
    match other with
    | .VarPoint _ _ defStr2 => defStr == defStr2
    | _ => false
termination_by structural x => x
/-- Modelled from the spec: the bodies of `CommutativeExpr::isSame` and
`FuncExpr::isSame` are outside the sources at hand. The spec asks for
recursively identical operands in the same order: the lists have the same
length and the operands are `isSame` position by position. -/
def NumExpr.isSameOps : List NumExpr → List NumExpr → Bool
  | [], others =>
    match others with
    | [] => true
    | _ => false
  | op :: ops, others =>
    match others with
    | op2 :: ops2 => op.isSame op2 && NumExpr.isSameOps ops ops2
    | [] => false
termination_by structural x => x
end

/-- The cast `dynamic_cast<const UnaryBoolExpr*>(other)`: it succeeds on
`NotExpr` and, through `BinaryBoolExpr = BinaryExpr<UnaryBoolExpr, ...>`
(lines 493-494), on the two `BIN_BOOL_EXPR` classes. -/
def BoolExpr.asUnaryBoolExpr : BoolExpr → Option (String × BoolExpr)
  | .NotExpr rhs => some (NotExpr.opStr, rhs)
  | .BIN_BOOL_EXPR type _ rhs => some (type.opStr, rhs)
  | _ => none

/-- `isSame` on boolean nodes: `UnaryExpr::isSame` (line 390) for `NotExpr`,
`BinaryExpr::isSame` (line 474) for the comparison and the and/or classes,
whose casts succeed on the classes of the same `BinaryExpr` instance only. -/
def BoolExpr.isSame : BoolExpr → BoolExpr → Bool
  | .NotExpr rhs, other =>
    match other.asUnaryBoolExpr with
    | some (opStr2, rhs2) => NotExpr.opStr == opStr2 && rhs.isSame rhs2
    | none => false
  | .BIN_NUM2BOOL_EXPR type lhs rhs, other =>
    match other with
    | .BIN_NUM2BOOL_EXPR type2 lhs2 rhs2 =>
      type.opStr == type2.opStr && lhs.isSame lhs2 && rhs.isSame rhs2
    | _ => false
  | .BIN_BOOL_EXPR type lhs rhs, other =>
    match other with
    | .BIN_BOOL_EXPR type2 lhs2 rhs2 =>
      type.opStr == type2.opStr && lhs.isSame lhs2 && rhs.isSame rhs2
    | _ => false

/-- `isSame(const Expr* other)` on a node of either category: every cast to a
class of the other category fails. -/
def Expr.isSame : Expr → Expr → Bool
  | .num a, .num b => a.isSame b
  | .bool a, .bool b => a.isSame b
  | _, _ => false

mutual
/-- `isConstVal`: `NumExpr` (line 182) for the classes without an override,
`ConstExpr` (line 317), `NegExpr` (line 412), `BIN_NUM_EXPR` (line 510),
`CommutativeExpr` (line 659) and `FuncExpr` (line 751). -/
def NumExpr.isConstVal : NumExpr → Bool
  | .ConstExpr _ => true
  | .IndexExpr _ _ => false
  | .CodeExpr _ => false
  | .NegExpr rhs => rhs.isConstVal
  | .BIN_NUM_EXPR _ lhs rhs => lhs.isConstVal && rhs.isConstVal
  | .COMM_EXPR _ ops => NumExpr.isConstValOps ops
  | .FuncExpr _ ops => NumExpr.isConstValOps ops
  | .VarPoint _ _ _ => false
termination_by structural x => x
/-- The loop `for (auto op : _ops) if (!op->isConstVal()) return false;`
followed by `return true` (lines 660-664, 752-756). -/
def NumExpr.isConstValOps : List NumExpr → Bool
  | [] => true
  | op :: ops => if !op.isConstVal then false else NumExpr.isConstValOps ops
termination_by structural x => x
end

mutual
/-- `getNumVal`: `NumExpr` (line 188) throws for the classes without an
override (`IndexExpr`, `CodeExpr`, `FuncExpr`, `VarPoint`); `ConstExpr`
(line 318), `NegExpr` (line 415), `BIN_NUM_EXPR` (line 514, the left operand
first) and `COMM_EXPR` (line 698) compute a value.  A `ModExpr` whose divisor
truncates to 0 has no value (`undefined_modulo`). -/
def NumExpr.getNumVal : NumExpr → Except YaskError ℚ
  | .ConstExpr f => .ok f
  | .IndexExpr dimName type => .error (.cannot_evaluate (.IndexExpr dimName type))
  | .CodeExpr code => .error (.cannot_evaluate (.CodeExpr code))
  | .NegExpr rhs =>
    match rhs.getNumVal with
    | .error err => .error err
    | .ok rhs => .ok (-rhs)
  | .BIN_NUM_EXPR type lhs rhs =>
    match lhs.getNumVal with
    | .error err => .error err
    | .ok lhsVal =>
      match rhs.getNumVal with
      | .error err => .error err
      | .ok rhsVal =>
        match type.oper lhsVal rhsVal with
        | some val => .ok val
        | none => .error (.undefined_modulo (.BIN_NUM_EXPR type lhs rhs))
  | .COMM_EXPR type ops => NumExpr.getNumValOps type type.baseVal ops
  | .FuncExpr opStr ops => .error (.cannot_evaluate (.FuncExpr opStr ops))
  | .VarPoint var args defStr => .error (.cannot_evaluate (.VarPoint var args defStr))
termination_by structural x => x
/-- The loop of `COMM_EXPR::getNumVal` (lines 700-704) from the running value
`val` over the operands still to visit. -/
def NumExpr.getNumValOps (type : CommType) (val : ℚ) : List NumExpr → Except YaskError ℚ
  | [] => .ok val
  | op :: ops =>
    match op.getNumVal with
    | .error err => .error err
    | .ok rhs => NumExpr.getNumValOps type (type.oper val rhs) ops
termination_by structural x => x
end

/-- `NumExpr::getIntVal` (lines 195-203). -/
def NumExpr.getIntVal (e : NumExpr) : Except YaskError Int :=
  match e.getNumVal with
  | .error err => .error err
  | .ok val =>
    let ival := trunc_double val
    if val ≠ (ival : ℚ) then .error (.not_an_integer e) else .ok ival

mutual
/-- `clone` on numeric nodes, through the copy constructors: `ConstExpr`
(line 314), `IndexExpr` and `VarPoint` (implicit member-wise copy), `CodeExpr`
(line 345), `UnaryExpr` (line 379), `BinaryExpr` (line 465), `CommutativeExpr`
(line 615) and `FuncExpr` (line 730). -/
def NumExpr.clone : NumExpr → NumExpr
  | .ConstExpr f => .ConstExpr f
  | .IndexExpr dimName type => .IndexExpr dimName type
  | .CodeExpr code => .CodeExpr code
  | .NegExpr rhs => .NegExpr rhs.clone
  | .BIN_NUM_EXPR type lhs rhs => .BIN_NUM_EXPR type lhs.clone rhs.clone
  | .COMM_EXPR type ops => .COMM_EXPR type (NumExpr.cloneOps ops)
  | .FuncExpr opStr ops => .FuncExpr opStr (NumExpr.cloneOps ops)
  | .VarPoint var args defStr => .VarPoint var args defStr
termination_by structural x => x
/-- The loop `for (auto op : src._ops) _ops.push_back(op->clone());`. -/
def NumExpr.cloneOps : List NumExpr → List NumExpr
  | [] => []
  | op :: ops => op.clone :: NumExpr.cloneOps ops
termination_by structural x => x
end

/-- `clone` on boolean nodes, through the copy constructors of `UnaryExpr`
(line 379) and `BinaryExpr` (line 465). -/
def BoolExpr.clone : BoolExpr → BoolExpr
  | .NotExpr rhs => .NotExpr rhs.clone
  | .BIN_NUM2BOOL_EXPR type lhs rhs => .BIN_NUM2BOOL_EXPR type lhs.clone rhs.clone
  | .BIN_BOOL_EXPR type lhs rhs => .BIN_BOOL_EXPR type lhs.clone rhs.clone

/-- `clone` on a node of either category. -/
def Expr.clone : Expr → Expr
  | .num e => .num e.clone
  | .bool e => .bool e.clone

mutual
/-- The leaves under a numeric node: the nodes of the four leaf classes
`ConstExpr`, `IndexExpr`, `CodeExpr` and `VarPoint` reached through operands. -/
def NumExpr.leaves : NumExpr → List NumExpr
  | .ConstExpr f => [.ConstExpr f]
  | .IndexExpr dimName type => [.IndexExpr dimName type]
  | .CodeExpr code => [.CodeExpr code]
  | .NegExpr rhs => rhs.leaves
  | .BIN_NUM_EXPR _ lhs rhs => lhs.leaves ++ rhs.leaves
  | .COMM_EXPR _ ops => NumExpr.leavesOps ops
  | .FuncExpr _ ops => NumExpr.leavesOps ops
  | .VarPoint var args defStr => [.VarPoint var args defStr]
termination_by structural x => x
/-- The leaves under the nodes of an operand list. -/
def NumExpr.leavesOps : List NumExpr → List NumExpr
  | [] => []
  | op :: ops => op.leaves ++ NumExpr.leavesOps ops
termination_by structural x => x
end

/-- The node is a `ConstExpr`. -/
def NumExpr.isConstExpr : NumExpr → Bool
  | .ConstExpr _ => true
  | _ => false

mutual
/-- A `FuncExpr` node occurs at or under the node (through operands). -/
def NumExpr.hasFuncExpr : NumExpr → Bool
  | .ConstExpr _ => false
  | .IndexExpr _ _ => false
  | .CodeExpr _ => false
  | .NegExpr rhs => rhs.hasFuncExpr
  | .BIN_NUM_EXPR _ lhs rhs => lhs.hasFuncExpr || rhs.hasFuncExpr
  | .COMM_EXPR _ ops => NumExpr.hasFuncExprOps ops
  | .FuncExpr _ _ => true
  | .VarPoint _ _ _ => false
termination_by structural x => x
/-- A `FuncExpr` node occurs at or under a node of the operand list. -/
def NumExpr.hasFuncExprOps : List NumExpr → Bool
  | [] => false
  | op :: ops => op.hasFuncExpr || NumExpr.hasFuncExprOps ops
termination_by structural x => x
end

/-- The numeric trees built from `ConstExpr`, `IndexExpr`, `CodeExpr`,
`NegExpr` and the `BIN_NUM_EXPR` classes only. -/
def NumExpr.basic : NumExpr → Bool
  | .ConstExpr _ => true
  | .IndexExpr _ _ => true
  | .CodeExpr _ => true
  | .NegExpr rhs => rhs.basic
  | .BIN_NUM_EXPR _ lhs rhs => lhs.basic && rhs.basic
  | _ => false

/-- The boolean trees built from `NotExpr`, the comparison classes and the
and/or classes over basic numeric trees. -/
def BoolExpr.basic : BoolExpr → Bool
  | .NotExpr rhs => rhs.basic
  | .BIN_NUM2BOOL_EXPR _ lhs rhs => lhs.basic && rhs.basic
  | .BIN_BOOL_EXPR _ lhs rhs => lhs.basic && rhs.basic

/-- The trees of either category built from the basic classes. -/
def Expr.basic : Expr → Bool
  | .num e => e.basic
  | .bool e => e.basic

/-! ## Equations, merging and objects with identity

The trees above do not say which object a node is.  Where a claim is about
sharing or about links between objects, an object is named by its address in a
store, and a pointer member is the address it holds. -/

/-- An equation node (`EqualsExpr`, lines 945-957): the `VarPoint` on the left,
the right-hand side, and the two optional conditions (a null pointer is
`none`). -/
structure EqualsExpr where
  lhs : NumExpr
  rhs : NumExpr
  cond : Option BoolExpr
  step_cond : Option BoolExpr

/-- The copy constructor of `EqualsExpr` (lines 958-969), used by its
`clone` (line 1000). -/
def EqualsExpr.clone (src : EqualsExpr) : EqualsExpr where
  lhs := src.lhs.clone
  rhs := src.rhs.clone
  cond :=
    match src.cond with
    | some c => some c.clone
    | none => none
  step_cond :=
    match src.step_cond with
    | some c => some c.clone
    | none => none

/-- The cast `dynamic_pointer_cast<CommutativeExpr>(op)` (line 639): it
succeeds on the two `COMM_EXPR` classes; the result is `_opStr` and `_ops`. -/
def NumExpr.asCommutativeExpr : NumExpr → Option (String × List NumExpr)
  | .COMM_EXPR type ops => some (type.opStr, ops)
  | _ => none

/-- `CommutativeExpr::appendOp` (lines 628-630) on the operand list `_ops`. -/
def CommutativeExpr.appendOp (ops : List NumExpr) (op : NumExpr) : List NumExpr :=
  ops ++ [op.clone]

/-- `CommutativeExpr::mergeExpr` (lines 638-646) on a node of class `type`
with operand list `ops`: the new operand list.  The argument `op` is another
object than the node itself (merging a node into itself appends to the vector
being iterated). -/
def CommutativeExpr.mergeExpr (type : CommType) (ops : List NumExpr) (op : NumExpr) :
    List NumExpr :=
  match op.asCommutativeExpr with
  | some (opStr2, ops2) =>
    if opStr2 == type.opStr then ops2.foldl CommutativeExpr.appendOp ops
    else CommutativeExpr.appendOp ops op
  | none => CommutativeExpr.appendOp ops op

/-- An object address, the value of a `shared_ptr` or of a raw pointer. -/
abbrev Ptr := Nat

/-- `VarPoint::VecType` (lines 783-787). -/
inductive VecType where
  | VEC_UNSET
  | VEC_FULL
  | VEC_PARTIAL
  | VEC_NONE
deriving DecidableEq, Repr

/-- `VarPoint::LoopType` (lines 791-795). -/
inductive LoopType where
  | LOOP_UNSET
  | LOOP_INVARIANT
  | LOOP_OFFSET
  | LOOP_OTHER
deriving DecidableEq, Repr

/-- A `VarPoint` object (lines 797-820): the name of its var, the shared
pointers `_args` to its index-expression nodes, the cached rendering and the
two analysis tags.  The tuples `_offsets` and `_consts` are left out. -/
structure VarPointObj where
  var : String
  args : List Ptr
  defStr : String
  vecType : VecType
  loopType : LoopType
deriving DecidableEq, Repr

/-- A newly constructed `VarPoint`: the tags take their default member
initialisers (lines 816-817). -/
def VarPointObj.new (var : String) (args : List Ptr) (defStr : String) : VarPointObj where
  var := var
  args := args
  defStr := defStr
  vecType := .VEC_UNSET
  loopType := .LOOP_UNSET

/-- `VarPoint::clone` (line 934): `make_shared<VarPoint>(*this)` runs the
implicit copy constructor, which copies every member as it is; the vector
`_args` is copied pointer by pointer. -/
def VarPointObj.clone (src : VarPointObj) : VarPointObj where
  var := src.var
  args := src.args
  defStr := src.defStr
  vecType := src.vecType
  loopType := src.loopType

/-- `VarPoint::getVecType` (lines 845-848); `none` is the failed assertion. -/
def VarPointObj.getVecType (p : VarPointObj) : Option VecType :=
  if p.vecType ≠ .VEC_UNSET then some p.vecType else none

/-- `VarPoint::setVecType` (lines 849-851). -/
def VarPointObj.setVecType (p : VarPointObj) (vt : VecType) : VarPointObj :=
  { p with vecType := vt }

/-- `VarPoint::getLoopType` (lines 852-855); `none` is the failed assertion. -/
def VarPointObj.getLoopType (p : VarPointObj) : Option LoopType :=
  if p.loopType ≠ .LOOP_UNSET then some p.loopType else none

/-- `VarPoint::setLoopType` (lines 856-858). -/
def VarPointObj.setLoopType (p : VarPointObj) (vt : LoopType) : VarPointObj :=
  { p with loopType := vt }

/-- The store of the index-expression nodes a `VarPoint` points to: the node
at each address. -/
abbrev NodeStore := List NumExpr

/-- `ConstExpr::set_value` (line 332) on the node at address `a`. -/
def NodeStore.set_value (s : NodeStore) (a : Ptr) (val : ℚ) : NodeStore :=
  match s[a]? with
  | some (.ConstExpr _) => s.set a (.ConstExpr val)
  | _ => s

/-- The index expressions of a `VarPoint` (`getArgs`, line 842), read through
its pointers. -/
def VarPointObj.getArgs (p : VarPointObj) (s : NodeStore) : List (Option NumExpr) :=
  p.args.map (fun a => s[a]?)

/-- A `FuncExpr` object (lines 716-722): the name, the arguments and the raw
pointer `_paired` to its counterpart (`none` is `nullptr`). -/
structure FuncObj where
  opStr : String
  ops : List NumExpr
  paired : Option Ptr

/-- The `FuncExpr` objects in memory, by address. -/
abbrev FuncHeap := List FuncObj

/-- `FuncExpr::getPair` (line 749) on the object at address `x`. -/
def FuncHeap.getPair (h : FuncHeap) (x : Ptr) : Option Ptr :=
  match h[x]? with
  | some f => f.paired
  | none => none

/-- The copy constructor of `FuncExpr` (lines 730-736): the name and deep
copies of the arguments; `_paired` keeps its initialiser `nullptr`
(line 722). -/
def FuncObj.copy (src : FuncObj) : FuncObj where
  opStr := src.opStr
  ops := NumExpr.cloneOps src.ops
  paired := none

/-- `FuncExpr::clone` (lines 758-760) on the object at address `f`:
`make_shared` places the copy at a new address; `none` when `f` holds no
object. -/
def FuncHeap.clone (h : FuncHeap) (f : Ptr) : Option (FuncHeap × Ptr) :=
  match h[f]? with
  | some src => some (h ++ [src.copy], h.length)
  | none => none

/-- The value of a node that evaluates (0 for a node whose `getNumVal`
throws). -/
def NumExpr.numValD (e : NumExpr) : ℚ :=
  match e.getNumVal with
  | .ok v => v
  | .error _ => 0

/-! ## Offsets, renderings and pairing

The bodies of `isOffsetFrom` in the derived classes, of `Expr::makeStr` and
of `FuncExpr::makePair` are in a source file that is not at hand; only their
declarations are in the header. -/

/-- Modelled from the spec: `IndexExpr::isOffsetFrom` is only declared
(line 261). The spec: a node that is exactly DimensionRef(dim) is an offset
of 0 from dim, any other node is none.  The result is the returned flag and
the value of the reference `offset` after the call. -/
def IndexExpr.isOffsetFrom (dimName : String) (dim : String) (offset : Int) : Bool × Int :=
  if dimName == dim then (true, 0) else (false, offset)

/-- Modelled from the spec: the `isOffsetFrom` of the `BIN_NUM_EXPR` classes
is only declared (line 509). The spec: a two-operand subtract with
DimensionRef(dim) on one side and a Constant on the other has offset minus
that constant, in the form `dim - const` that the header names (line 206);
any other shape returns false.  The Constant becomes an `int` through
`getIntVal`, whose failure is the spec's integer-conversion error. -/
def BinNumType.isOffsetFrom (type : BinNumType) (lhs rhs : NumExpr) (dim : String)
    (offset : Int) : Except YaskError (Bool × Int) :=
  match type, lhs, rhs with
  | .SubExpr, .IndexExpr dimName _, .ConstExpr c =>
    if dimName == dim then
      match (NumExpr.ConstExpr c).getIntVal with
      | .ok i => .ok (true, -i)
      | .error err => .error err
    else .ok (false, offset)
  | _, _, _ => .ok (false, offset)

/-- Modelled from the spec: the `isOffsetFrom` of the `COMM_EXPR` classes is
only declared (line 697). The spec: a two-operand add with DimensionRef(dim)
on one side and a Constant on the other has that constant as offset; any
other shape, a multiply included, returns false.  The Constant becomes an
`int` through `getIntVal`. -/
def CommType.isOffsetFrom (type : CommType) (ops : List NumExpr) (dim : String)
    (offset : Int) : Except YaskError (Bool × Int) :=
  match type, ops with
  | .AddExpr, [.IndexExpr dimName _, .ConstExpr c] =>
    if dimName == dim then
      match (NumExpr.ConstExpr c).getIntVal with
      | .ok i => .ok (true, i)
      | .error err => .error err
    else .ok (false, offset)
  | .AddExpr, [.ConstExpr c, .IndexExpr dimName _] =>
    if dimName == dim then
      match (NumExpr.ConstExpr c).getIntVal with
      | .ok i => .ok (true, i)
      | .error err => .error err
    else .ok (false, offset)
  | _, _ => .ok (false, offset)

/-- `isOffsetFrom(dim, offset)` by class: the returned flag and the value of
the reference `offset` after the call.  `NumExpr::isOffsetFrom` (lines
208-210) returns false and does not touch `offset`; it is what `ConstExpr`,
`CodeExpr`, `NegExpr`, `FuncExpr` and `VarPoint`, which declare no override,
run.  `IndexExpr`, the `BIN_NUM_EXPR` classes and the `COMM_EXPR` classes run
their own. -/
def NumExpr.isOffsetFrom (e : NumExpr) (dim : String) (offset : Int) :
    Except YaskError (Bool × Int) :=
  match e with
  | .IndexExpr dimName _ => .ok (IndexExpr.isOffsetFrom dimName dim offset)
  | .BIN_NUM_EXPR type lhs rhs => type.isOffsetFrom lhs rhs dim offset
  | .COMM_EXPR type ops => type.isOffsetFrom ops dim offset
  | _ => .ok (false, offset)

/-- `IndexExpr::format` with no substitution map (lines 245-257). -/
def IndexExpr.format (dimName : String) (type : IndexType) : String :=
  match type with
  | .FIRST_INDEX => "FIRST_INDEX(" ++ dimName ++ ")"
  | .LAST_INDEX => "LAST_INDEX(" ++ dimName ++ ")"
  | _ => dimName

mutual
/-- Modelled from the spec: `Expr::makeStr` is only declared (line 121). The
spec asks for a canonical text rendering of every node: a Constant is written
by the number format `fmt`, a DimensionRef by `format`, an OpaqueCode by its
code, a negation as its operator before its operand, a binary node as
`(lhs op rhs)`, a commutative node as its operands joined by the operator in
parentheses and a call as `name(args)`.  A `VarPoint` returns its cached
rendering, as `VarPoint::makeStr` with no map does (lines 901-905). -/
def NumExpr.makeStr (fmt : ℚ → String) : NumExpr → String
  | .ConstExpr f => fmt f
  | .IndexExpr dimName type => IndexExpr.format dimName type
  | .CodeExpr code => code
  | .NegExpr rhs => NegExpr.opStr ++ rhs.makeStr fmt
  | .BIN_NUM_EXPR type lhs rhs =>
    "(" ++ lhs.makeStr fmt ++ " " ++ type.opStr ++ " " ++ rhs.makeStr fmt ++ ")"
  | .COMM_EXPR type ops => "(" ++ NumExpr.makeStrOps fmt (" " ++ type.opStr ++ " ") ops ++ ")"
  | .FuncExpr opStr ops => opStr ++ "(" ++ NumExpr.makeStrOps fmt ", " ops ++ ")"
  | .VarPoint _ _ defStr => defStr
termination_by structural x => x
/-- Modelled from the spec: the renderings of an operand list joined by the
separator `sep`, part of the canonical rendering of `makeStr`. -/
def NumExpr.makeStrOps (fmt : ℚ → String) (sep : String) : List NumExpr → String
  | [] => ""
  | op :: ops =>
    op.makeStr fmt ++
      (match ops with
      | [] => ""
      | _ :: _ => sep) ++ NumExpr.makeStrOps fmt sep ops
termination_by structural x => x
end

/-- `std::hash<VarPoint>` (lines 1038-1042): the string hash `hashString` of
the rendering of the point. -/
def VarPoint.hash (hashString : String → Nat) (fmt : ℚ → String) (k : NumExpr) : Nat :=
  hashString (k.makeStr fmt)

/-- The node is a `CommutativeExpr` whose operator string is that of the
class `type`. -/
def CommutativeExpr.sameOp (type : CommType) (o : NumExpr) : Bool :=
  match o.asCommutativeExpr with
  | some (opStr2, _) => opStr2 == type.opStr
  | none => false

/-- A commutative node of class `type` with operand list `ops` is flat: none
of its direct operands is a `CommutativeExpr` with the same operator string. -/
def CommutativeExpr.flat (type : CommType) (ops : List NumExpr) : Bool :=
  ops.all (fun o => !CommutativeExpr.sameOp type o)

/-- The `oper` argument of `BIN_NUM2BOOL_EXPR` (lines 559-564), on the operand
values `lhs` and `rhs`. -/
def Num2BoolType.oper : Num2BoolType → ℚ → ℚ → Bool
  | .IsEqualExpr, lhs, rhs => decide (lhs = rhs)
  | .NotEqualExpr, lhs, rhs => decide (lhs ≠ rhs)
  | .IsLessExpr, lhs, rhs => decide (lhs < rhs)
  | .NotLessExpr, lhs, rhs => decide (lhs ≥ rhs)
  | .IsGreaterExpr, lhs, rhs => decide (lhs > rhs)
  | .NotGreaterExpr, lhs, rhs => decide (lhs ≤ rhs)

/-- The `oper` argument of `BIN_BOOL_EXPR` (lines 593-594), on the operand
values `lhs` and `rhs`, both already computed. -/
def BinBoolType.oper : BinBoolType → Bool → Bool → Bool
  | .AndExpr, lhs, rhs => lhs && rhs
  | .OrExpr, lhs, rhs => lhs || rhs

/-- `getBoolVal`: `NotExpr` (line 439), `BIN_NUM2BOOL_EXPR` (line 544) and
`BIN_BOOL_EXPR` (line 578); each evaluates the left operand, then the right
operand, then applies the operator.  Every boolean class overrides
`BoolExpr::getBoolVal` (line 285), so the only exceptions are those of the
numeric operands. -/
def BoolExpr.getBoolVal : BoolExpr → Except YaskError Bool
  | .NotExpr rhs =>
    match rhs.getBoolVal with
    | .error err => .error err
    | .ok rhs => .ok (!rhs)
  | .BIN_NUM2BOOL_EXPR type lhs rhs =>
    match lhs.getNumVal with
    | .error err => .error err
    | .ok lhs =>
      match rhs.getNumVal with
      | .error err => .error err
      | .ok rhs => .ok (type.oper lhs rhs)
  | .BIN_BOOL_EXPR type lhs rhs =>
    match lhs.getBoolVal with
    | .error err => .error err
    | .ok lhs =>
      match rhs.getBoolVal with
      | .error err => .error err
      | .ok rhs => .ok (type.oper lhs rhs)

/-! ## Generic vars (`src/kernel/lib/generic_var.cpp`)

The element type `T` (`real_t`) is embedded as `ℚ`, like `double`. -/

/-- The storage members of a `GenericVarTyped<T>`: `num_elems` is what
`get_num_elems()` returns, and `elems` is the pointer `_elems`: `none` when
storage is not allocated, else the memory it points to, read as the element
at each offset. -/
structure GenericVarTyped where
  num_elems : Nat
  elems : Option (Nat → ℚ)

/-- Modelled from the spec: `yask_parallel_for` is declared outside the
sources at hand. With stride 1 it calls `body start (start + 1)` once for
every `start` from `begin` up to, not including, `begin + count`; the calls
here write different elements, so they are embedded in index order, acting on
the memory `mem`. -/
def yask_parallel_for (begin count : Nat) (body : idx_t → idx_t → (Nat → ℚ) → (Nat → ℚ))
    (mem : Nat → ℚ) : Nat → ℚ :=
  (List.range count).foldl
    (fun m k => body (Int.ofNat (begin + k)) (Int.ofNat (begin + k) + 1) m) mem

/-- The assignment `((T*)_elems)[start] = val` for an index `start >= 0`. -/
def store_elem (mem : Nat → ℚ) (start : idx_t) (val : ℚ) : Nat → ℚ :=
  fun k => if k = start.toNat then val else mem k

/-- `GenericVarTyped<T>::set_elems_same` (lines 121-128). -/
def GenericVarTyped.set_elems_same (v : GenericVarTyped) (val : ℚ) : GenericVarTyped :=
  match v.elems with
  | some mem =>
    { v with elems := some (yask_parallel_for 0 v.num_elems
        (fun start _ m => store_elem m start val) mem) }
  | none => v

/-- `GenericVarTyped<T>::set_elems_in_seq` (lines 131-139), with
`wrap = 71`. -/
def GenericVarTyped.set_elems_in_seq (v : GenericVarTyped) (seed : ℚ) : GenericVarTyped :=
  match v.elems with
  | some mem =>
    { v with elems := some (yask_parallel_for 0 v.num_elems
        (fun start _ m => store_elem m start (seed * ((Int.tmod start 71 + 1 : Int) : ℚ))) mem) }
  | none => v

/-! ## Values of `double`

Elsewhere the embedding takes a `double` to be the rational it stands for.
The definitions here are the two places where that is not enough: a
`ConstExpr` may hold NaN, and the result of an operation is rounded. -/

/-- The values of a C++ `double`, up to the sign of zero: a number (taken as
the rational it stands for), an infinity, or NaN. -/
inductive double where
  | num (q : ℚ)
  | inf (negative : Bool)
  | nan

/-- `operator==` on two `double`s (IEEE 754): NaN compares unequal to
everything, itself included. -/
def double.eq : double → double → Bool
  | .num p, .num q => p == q
  | .inf s, .inf t => s == t
  | _, _ => false

/-- The class `ConstExpr` (lines 302-333) with its member `_f`, here `f`, as
a `double`: the constructor `ConstExpr(double f)` (line 307) takes every
`double`, NaN and the infinities included.  The node `NumExpr.ConstExpr q` of
the tree embedding is this object at `f = double.num q`. -/
structure ConstExpr where
  f : double

/-- `ConstExpr::isSame` (lines 323-326) on an `other` that is a `ConstExpr`
too (the cast succeeds): `_f == p->_f`. -/
def ConstExpr.isSame (c other : ConstExpr) : Bool :=
  double.eq c.f other.f

/-- `ConstExpr::clone` (line 329) through the copy constructor (line 314). -/
def ConstExpr.clone (c : ConstExpr) : ConstExpr where
  f := c.f

/-- The rounding of the exact result of an operation to a `double` (IEEE 754
round-to-nearest, ties to the even significand): the nearest number with a
significand of 53 bits.  The exponent is not bounded here: no overflow to an
infinity and no subnormal numbers. -/
def round_double (x : ℚ) : ℚ :=
  if x = 0 then 0
  else
    let e : Int := Int.log 2 |x| - 52
    let y : ℚ := x / 2 ^ e
    let f : Int := ⌊y⌋
    let n : Int :=
      if y - f < 1 / 2 then f
      else if 1 / 2 < y - f then f + 1
      else if f % 2 = 0 then f else f + 1
    n * 2 ^ e

mutual
/-- `getNumVal` (lines 188, 318, 415, 514, 698) with the rounding of the
results made explicit: `rnd` is applied to the result of every subtraction,
division, modulo, addition and multiplication; a negation is exact.  With
`rnd` the identity this is `NumExpr.getNumVal`; with `round_double` it is the
evaluation in `double` arithmetic. -/
def NumExpr.getNumValRnd (rnd : ℚ → ℚ) : NumExpr → Except YaskError ℚ
  | .ConstExpr f => .ok f
  | .IndexExpr dimName type => .error (.cannot_evaluate (.IndexExpr dimName type))
  | .CodeExpr code => .error (.cannot_evaluate (.CodeExpr code))
  | .NegExpr rhs =>
    match rhs.getNumValRnd rnd with
    | .error err => .error err
    | .ok rhs => .ok (-rhs)
  | .BIN_NUM_EXPR type lhs rhs =>
    match lhs.getNumValRnd rnd with
    | .error err => .error err
    | .ok lhsVal =>
      match rhs.getNumValRnd rnd with
      | .error err => .error err
      | .ok rhsVal =>
        match type.oper lhsVal rhsVal with
        | some val => .ok (rnd val)
        | none => .error (.undefined_modulo (.BIN_NUM_EXPR type lhs rhs))
  | .COMM_EXPR type ops => NumExpr.getNumValOpsRnd rnd type type.baseVal ops
  | .FuncExpr opStr ops => .error (.cannot_evaluate (.FuncExpr opStr ops))
  | .VarPoint var args defStr => .error (.cannot_evaluate (.VarPoint var args defStr))
termination_by structural x => x
/-- The loop of `COMM_EXPR::getNumVal` (lines 700-704) with the result of each
`oper` rounded by `rnd`. -/
def NumExpr.getNumValOpsRnd (rnd : ℚ → ℚ) (type : CommType) (val : ℚ) :
    List NumExpr → Except YaskError ℚ
  | [] => .ok val
  | op :: ops =>
    match op.getNumValRnd rnd with
    | .error err => .error err
    | .ok rhs => NumExpr.getNumValOpsRnd rnd type (rnd (type.oper val rhs)) ops
termination_by structural x => x
end

mutual
/-- Every operator that the evaluation of the tree with the rounding `rnd`
applies is applied where `BinNumType.defined` holds: no division by zero, and
no modulo with an operand outside the range of `int` or with a divisor that
truncates to 0.  The arguments of a `FuncExpr` and of a `VarPoint` are never
evaluated. -/
def NumExpr.operDefined (rnd : ℚ → ℚ) : NumExpr → Bool
  | .ConstExpr _ => true
  | .IndexExpr _ _ => true
  | .CodeExpr _ => true
  | .NegExpr rhs => rhs.operDefined rnd
  | .BIN_NUM_EXPR type lhs rhs =>
    lhs.operDefined rnd && rhs.operDefined rnd &&
      (match lhs.getNumValRnd rnd, rhs.getNumValRnd rnd with
      | .ok lhsVal, .ok rhsVal => type.defined lhsVal rhsVal
      | _, _ => true)
  | .COMM_EXPR _ ops => NumExpr.operDefinedOps rnd ops
  | .FuncExpr _ _ => true
  | .VarPoint _ _ _ => true
termination_by structural x => x
/-- The operands of a commutative node are all `operDefined`. -/
def NumExpr.operDefinedOps (rnd : ℚ → ℚ) : List NumExpr → Bool
  | [] => true
  | op :: ops => op.operDefined rnd && NumExpr.operDefinedOps rnd ops
termination_by structural x => x
end

/-! ## Arithmetic of the two rounding helpers -/

theorem round_down_flr_le (a m : Int) (hm : 1 ≤ m) : round_down_flr a m ≤ a := by
  unfold round_down_flr
  rw [Int.fdiv_eq_ediv a (by omega)]
  have h1 := Int.ediv_add_emod' a m
  have h2 := Int.emod_nonneg a (show m ≠ 0 by omega)
  linarith

theorem lt_round_down_flr_add (a m : Int) (hm : 1 ≤ m) : a < round_down_flr a m + m := by
  unfold round_down_flr
  rw [Int.fdiv_eq_ediv a (by omega)]
  have h1 := Int.ediv_add_emod' a m
  have h2 := Int.emod_lt_of_pos a (show 0 < m by omega)
  linarith

theorem dvd_round_down_flr (a m : Int) : m ∣ round_down_flr a m :=
  Dvd.intro_left _ rfl

theorem ceil_idiv_flr_lower (n d : Int) (hd : 1 ≤ d) : (ceil_idiv_flr n d - 1) * d < n := by
  unfold ceil_idiv_flr
  rw [Int.fdiv_eq_ediv (-n) (by omega)]
  have h1 := Int.ediv_add_emod' (-n) d
  have h2 := Int.emod_lt_of_pos (-n) (show 0 < d by omega)
  nlinarith

theorem ceil_idiv_flr_upper (n d : Int) (hd : 1 ≤ d) : n ≤ ceil_idiv_flr n d * d := by
  unfold ceil_idiv_flr
  rw [Int.fdiv_eq_ediv (-n) (by omega)]
  have h1 := Int.ediv_add_emod' (-n) d
  have h2 := Int.emod_nonneg (-n) (show d ≠ 0 by omega)
  nlinarith

/-- Two integers that both bracket `n` between consecutive multiples of `d`
are equal. -/
theorem bracket_unique (n d p q : Int) (hd : 1 ≤ d)
    (hp1 : (p - 1) * d < n) (hp2 : n ≤ p * d)
    (hq1 : (q - 1) * d < n) (hq2 : n ≤ q * d) : p = q := by
  rcases lt_trichotomy p q with h | h | h
  · exfalso
    have : p * d ≤ (q - 1) * d := mul_le_mul_of_nonneg_right (by omega) (by omega)
    linarith
  · exact h
  · exfalso
    have : q * d ≤ (p - 1) * d := mul_le_mul_of_nonneg_right (by omega) (by omega)
    linarith

theorem ceil_idiv_flr_eq (n d q : Int) (hd : 1 ≤ d)
    (h1 : (q - 1) * d < n) (h2 : n ≤ q * d) : ceil_idiv_flr n d = q :=
  bracket_unique n d _ _ hd (ceil_idiv_flr_lower n d hd) (ceil_idiv_flr_upper n d hd) h1 h2

theorem ceil_idiv_flr_eq_ceil (n d : Int) (hd : 1 ≤ d) :
    ceil_idiv_flr n d = Int.ceil ((n : ℚ) / (d : ℚ)) := by
  have hdq : (0 : ℚ) < (d : ℚ) := by exact_mod_cast (show (0 : Int) < d by omega)
  symm
  rw [Int.ceil_eq_iff]
  have h1 := ceil_idiv_flr_lower n d hd
  have h2 := ceil_idiv_flr_upper n d hd
  constructor
  · rw [lt_div_iff₀ hdq]
    exact_mod_cast h1
  · rw [div_le_iff₀ hdq]
    exact_mod_cast h2

/-! ## One scanned dimension, on plain integers

`ab` is the aligned begin, `s` the stride, `b` and `e` the domain bounds, `n`
the tile count and `i` a tile index. -/

theorem tile_mem_iff (ab s b e i x : Int) :
    (max (ab + i * s) b ≤ x ∧ x < min (ab + (i + 1) * s) e) ↔
      ((b ≤ x ∧ x < e) ∧ ab + i * s ≤ x ∧ x < ab + (i + 1) * s) := by
  rw [max_le_iff, lt_min_iff]
  tauto

theorem slot_unique (ab s i j x : Int) (hs : 1 ≤ s)
    (hi : ab + i * s ≤ x) (hi' : x < ab + (i + 1) * s)
    (hj : ab + j * s ≤ x) (hj' : x < ab + (j + 1) * s) : i = j := by
  have h := bracket_unique (x - ab + 1) s (i + 1) (j + 1) hs
    (by linarith) (by linarith) (by linarith) (by linarith)
  omega

theorem slot_exists (ab s n b e x : Int) (hs : 1 ≤ s) (hab : ab ≤ b)
    (hn : e - ab ≤ n * s) (hx : b ≤ x) (hx' : x < e) :
    0 ≤ (x - ab) / s ∧ (x - ab) / s < n ∧
      ab + (x - ab) / s * s ≤ x ∧ x < ab + ((x - ab) / s + 1) * s := by
  have hpos : (0 : Int) < s := by omega
  have h1 := Int.ediv_add_emod' (x - ab) s
  have h2 := Int.emod_nonneg (x - ab) (show s ≠ 0 by omega)
  have h3 := Int.emod_lt_of_pos (x - ab) hpos
  refine ⟨Int.ediv_nonneg (by omega) (by omega), ?_, by linarith, by linarith⟩
  apply Int.ediv_lt_of_lt_mul hpos
  linarith

theorem tile_first (ab s b : Int) (hab : ab ≤ b) : max (ab + 0 * s) b = b := by
  rw [zero_mul, add_zero]
  exact max_eq_right hab

theorem tile_last (ab s e n : Int) (hn : e - ab ≤ n * s) :
    min (ab + (n - 1 + 1) * s) e = e := by
  rw [sub_add_cancel]
  exact min_eq_right (by linarith)

theorem tile_chain (ab s b e n i : Int) (hs : 1 ≤ s) (hb : b < ab + s)
    (hn : (n - 1) * s < e - ab) (hi0 : 0 ≤ i) (hi : i < n - 1) :
    min (ab + (i + 1) * s) e = max (ab + (i + 1) * s) b := by
  have h1 : (i + 1) * s ≤ (n - 1) * s := mul_le_mul_of_nonneg_right (by omega) (by omega)
  have h2 : 1 * s ≤ (i + 1) * s := mul_le_mul_of_nonneg_right (by omega) (by omega)
  rw [min_eq_left (by linarith), max_eq_left (by linarith)]

/-! ## Facts about the quantities of the scan -/

theorem adj_align_1_pos (r : ScanIndices) (hs : 1 ≤ r.stride 1) (ha : 1 ≤ r.align 1) :
    1 ≤ adj_align_1 r ∧ adj_align_1 r ≤ r.stride 1 := by
  unfold adj_align_1
  exact ⟨le_min ha hs, min_le_right _ _⟩

theorem adj_align_2_pos (r : ScanIndices) (hs : 1 ≤ r.stride 2) (ha : 1 ≤ r.align 2) :
    1 ≤ adj_align_2 r ∧ adj_align_2 r ≤ r.stride 2 := by
  unfold adj_align_2
  exact ⟨le_min ha hs, min_le_right _ _⟩

theorem aligned_begin_1_bounds (r : ScanIndices) (hs : 1 ≤ r.stride 1) (ha : 1 ≤ r.align 1) :
    aligned_begin_1 r ≤ r.begin 1 ∧ r.begin 1 < aligned_begin_1 r + adj_align_1 r := by
  have hm := (adj_align_1_pos r hs ha).1
  have h1 := round_down_flr_le (r.begin 1 - r.align_ofs 1) (adj_align_1 r) hm
  have h2 := lt_round_down_flr_add (r.begin 1 - r.align_ofs 1) (adj_align_1 r) hm
  unfold aligned_begin_1
  constructor <;> linarith

theorem aligned_begin_2_bounds (r : ScanIndices) (hs : 1 ≤ r.stride 2) (ha : 1 ≤ r.align 2) :
    aligned_begin_2 r ≤ r.begin 2 ∧ r.begin 2 < aligned_begin_2 r + adj_align_2 r := by
  have hm := (adj_align_2_pos r hs ha).1
  have h1 := round_down_flr_le (r.begin 2 - r.align_ofs 2) (adj_align_2 r) hm
  have h2 := lt_round_down_flr_add (r.begin 2 - r.align_ofs 2) (adj_align_2 r) hm
  unfold aligned_begin_2
  constructor <;> linarith

theorem num_iters_1_bracket (r : ScanIndices) (hs : 1 ≤ r.stride 1) :
    (num_iters_1 r - 1) * r.stride 1 < r.end_ 1 - aligned_begin_1 r ∧
      r.end_ 1 - aligned_begin_1 r ≤ num_iters_1 r * r.stride 1 :=
  ⟨ceil_idiv_flr_lower _ _ hs, ceil_idiv_flr_upper _ _ hs⟩

theorem num_iters_2_bracket (r : ScanIndices) (hs : 1 ≤ r.stride 2) :
    (num_iters_2 r - 1) * r.stride 2 < r.end_ 2 - aligned_begin_2 r ∧
      r.end_ 2 - aligned_begin_2 r ≤ num_iters_2 r * r.stride 2 :=
  ⟨ceil_idiv_flr_lower _ _ hs, ceil_idiv_flr_upper _ _ hs⟩

/-- A positive span needs at least one tile. -/
theorem one_le_of_bracket (n s d : Int) (hs : 1 ≤ s) (hd : 0 < d) (h : d ≤ n * s) : 1 ≤ n := by
  by_contra hc
  have : n * s ≤ 0 * s := mul_le_mul_of_nonneg_right (by omega) (by omega)
  linarith

theorem num_iters_1_pos (r : ScanIndices) (hb : r.begin 1 < r.end_ 1) (hs : 1 ≤ r.stride 1)
    (ha : 1 ≤ r.align 1) : 1 ≤ num_iters_1 r :=
  one_le_of_bracket _ _ _ hs (by have := (aligned_begin_1_bounds r hs ha).1; linarith)
    (num_iters_1_bracket r hs).2

theorem num_iters_2_pos (r : ScanIndices) (hb : r.begin 2 < r.end_ 2) (hs : 1 ≤ r.stride 2)
    (ha : 1 ≤ r.align 2) : 1 ≤ num_iters_2 r :=
  one_le_of_bracket _ _ _ hs (by have := (aligned_begin_2_bounds r hs ha).1; linarith)
    (num_iters_2_bracket r hs).2

/-! ## The linear index on plain integers -/

theorem decompose_pos (n1 n2 L : Int) (h2 : 1 ≤ n2) (h0 : 0 ≤ L) (hL : L < n1 * n2) :
    (0 ≤ Int.tdiv L n2 ∧ Int.tdiv L n2 < n1) ∧ (0 ≤ Int.tmod L n2 ∧ Int.tmod L n2 < n2) ∧
      Int.tdiv L n2 * n2 + Int.tmod L n2 = L := by
  rw [Int.tdiv_eq_ediv h0 (by omega), Int.tmod_eq_emod h0 (by omega)]
  exact ⟨⟨Int.ediv_nonneg h0 (by omega), Int.ediv_lt_of_lt_mul (by omega) hL⟩,
    ⟨Int.emod_nonneg L (by omega), Int.emod_lt_of_pos L (by omega)⟩, Int.ediv_add_emod' L n2⟩

theorem compose_pos (n2 i1 i2 : Int) (h1 : 0 ≤ i1) (h2 : 0 ≤ i2) (h2' : i2 < n2) :
    Int.tdiv (i1 * n2 + i2) n2 = i1 ∧ Int.tmod (i1 * n2 + i2) n2 = i2 := by
  have hm : 0 ≤ i1 * n2 := mul_nonneg h1 (by omega)
  have hL : 0 ≤ i1 * n2 + i2 := by omega
  rw [Int.tdiv_eq_ediv hL (by omega), Int.tmod_eq_emod hL (by omega)]
  constructor
  · rw [Int.add_comm, Int.add_mul_ediv_right _ _ (by omega), Int.ediv_eq_zero_of_lt h2 h2']
    simp
  · rw [Int.add_comm, Int.add_mul_emod_self, Int.emod_eq_of_lt h2 h2']

theorem neg_tmod_eq (a b : Int) : Int.tmod (-a) b = -(Int.tmod a b) := by
  rw [Int.tmod_def, Int.tmod_def, Int.neg_tdiv]
  ring

/-- With a negative inner count the truncated quotient of a loop index is the
negated quotient by the absolute count. -/
theorem decompose_neg (n1 n2 L : Int) (h2 : n2 ≤ -1) (h0 : 0 ≤ L) (hL : L < n1 * n2) :
    Int.tdiv L n2 = -(Int.tdiv L (-n2)) ∧ 0 ≤ Int.tdiv L (-n2) ∧ Int.tdiv L (-n2) < -n1 := by
  have h := decompose_pos (-n1) (-n2) L (by omega) h0 (by linarith [neg_mul_neg n1 n2])
  refine ⟨?_, h.1.1, h.1.2⟩
  rw [← Int.tdiv_neg, neg_neg]

/-! ## Fields of the descriptor handed to the callback -/

theorem local_indices_start_1 (r : ScanIndices) (L : Int) :
    (local_indices r L).start 1 = start_1 r (index_1 r L) := rfl

theorem local_indices_stop_1 (r : ScanIndices) (L : Int) :
    (local_indices r L).stop 1 = stop_1 r (index_1 r L) := rfl

theorem local_indices_start_2 (r : ScanIndices) (L : Int) :
    (local_indices r L).start 2 = start_2 r (index_2 r L) := rfl

theorem local_indices_stop_2 (r : ScanIndices) (L : Int) :
    (local_indices r L).stop 2 = stop_2 r (index_2 r L) := rfl

theorem local_indices_index_1 (r : ScanIndices) (L : Int) :
    (local_indices r L).index 1 = index_1 r L := rfl

theorem local_indices_index_2 (r : ScanIndices) (L : Int) :
    (local_indices r L).index 2 = index_2 r L := rfl

theorem mem_region_loops (r t : ScanIndices) :
    t ∈ region_loops r ↔ ∃ L : Int, 0 ≤ L ∧ L < num_iters_1_2 r ∧ t = local_indices r L := by
  unfold region_loops
  rw [List.mem_map]
  constructor
  · rintro ⟨k, hk, rfl⟩
    rw [List.mem_range] at hk
    exact ⟨Int.ofNat k, by simp, by simp; omega, rfl⟩
  · rintro ⟨L, h0, hL, rfl⟩
    refine ⟨L.toNat, ?_, ?_⟩
    · rw [List.mem_range]
      omega
    · show local_indices r (L.toNat : Int) = local_indices r L
      rw [Int.toNat_of_nonneg h0]

theorem length_region_loops (r : ScanIndices) :
    (region_loops r).length = (num_iters_1_2 r).toNat := by
  unfold region_loops
  rw [List.length_map, List.length_range]

/-! ## Claims about the aligned begin and the tile count -/

/-- C3: in each scanned dimension with stride >= 1 and align >= 1, writing
adj_align for min(align, stride), aligned_begin - align_ofs is a multiple of
adj_align, aligned_begin <= begin < aligned_begin + adj_align, and so
begin - stride < aligned_begin <= begin; this holds for all integers begin and
align_ofs, negative differences included. -/
theorem aligned_begin_floor (r : ScanIndices) :
    (1 ≤ r.stride 1 → 1 ≤ r.align 1 →
      adj_align_1 r = min (r.align 1) (r.stride 1) ∧
      adj_align_1 r ∣ aligned_begin_1 r - r.align_ofs 1 ∧
      aligned_begin_1 r ≤ r.begin 1 ∧ r.begin 1 < aligned_begin_1 r + adj_align_1 r ∧
      r.begin 1 - r.stride 1 < aligned_begin_1 r) ∧
    (1 ≤ r.stride 2 → 1 ≤ r.align 2 →
      adj_align_2 r = min (r.align 2) (r.stride 2) ∧
      adj_align_2 r ∣ aligned_begin_2 r - r.align_ofs 2 ∧
      aligned_begin_2 r ≤ r.begin 2 ∧ r.begin 2 < aligned_begin_2 r + adj_align_2 r ∧
      r.begin 2 - r.stride 2 < aligned_begin_2 r) := by
  constructor
  · intro hs ha
    have hb := aligned_begin_1_bounds r hs ha
    have hadj := adj_align_1_pos r hs ha
    refine ⟨rfl, ?_, hb.1, hb.2, by linarith⟩
    unfold aligned_begin_1
    rw [add_sub_cancel_right]
    exact dvd_round_down_flr _ _
  · intro hs ha
    have hb := aligned_begin_2_bounds r hs ha
    have hadj := adj_align_2_pos r hs ha
    refine ⟨rfl, ?_, hb.1, hb.2, by linarith⟩
    unfold aligned_begin_2
    rw [add_sub_cancel_right]
    exact dvd_round_down_flr _ _

/-- Witness of C3 at begin = -5, align = stride = 4, align_ofs = 0 in dimension 1
(aligned_begin = -8) and begin = 5, align = 4, stride = 3, align_ofs = 1 in
dimension 2. -/
theorem aligned_begin_floor_witness :
    aligned_begin_1 (mkScan (-5) 7 4 4 0 5 20 3 4 1) = -8 ∧
    ((4 : Int) ∣ aligned_begin_1 (mkScan (-5) 7 4 4 0 5 20 3 4 1) - 0) ∧
    aligned_begin_2 (mkScan (-5) 7 4 4 0 5 20 3 4 1) ≤ 5 :=
  ⟨by decide,
    ((aligned_begin_floor (mkScan (-5) 7 4 4 0 5 20 3 4 1)).1 (by decide) (by decide)).2.1,
    ((aligned_begin_floor (mkScan (-5) 7 4 4 0 5 20 3 4 1)).2 (by decide) (by decide)).2.2.1⟩

/-- The least count of strides reaching a span, on plain integers. -/
theorem bracket_least (n s d m : Int) (hs : 1 ≤ s) (h : (n - 1) * s < d) (hm : d ≤ m * s) :
    n ≤ m := by
  by_contra hc
  have : m * s ≤ (n - 1) * s := mul_le_mul_of_nonneg_right (by omega) (by omega)
  linarith

/-- C4: in each scanned dimension with stride >= 1, num_iters is the ceiling
of (end - aligned_begin) / stride; when end > aligned_begin it is at least 1,
it satisfies (n-1)*stride < end - aligned_begin <= n*stride, and it is the
least n >= 1 with aligned_begin + n*stride >= end. -/
theorem num_iters_ceil (r : ScanIndices) :
    (1 ≤ r.stride 1 →
      num_iters_1 r = Int.ceil (((r.end_ 1 - aligned_begin_1 r : Int) : ℚ) / (r.stride 1 : ℚ)) ∧
      (aligned_begin_1 r < r.end_ 1 →
        1 ≤ num_iters_1 r ∧
        (num_iters_1 r - 1) * r.stride 1 < r.end_ 1 - aligned_begin_1 r ∧
        r.end_ 1 - aligned_begin_1 r ≤ num_iters_1 r * r.stride 1 ∧
        r.end_ 1 ≤ aligned_begin_1 r + num_iters_1 r * r.stride 1 ∧
        ∀ m : Int, 1 ≤ m → r.end_ 1 ≤ aligned_begin_1 r + m * r.stride 1 → num_iters_1 r ≤ m)) ∧
    (1 ≤ r.stride 2 →
      num_iters_2 r = Int.ceil (((r.end_ 2 - aligned_begin_2 r : Int) : ℚ) / (r.stride 2 : ℚ)) ∧
      (aligned_begin_2 r < r.end_ 2 →
        1 ≤ num_iters_2 r ∧
        (num_iters_2 r - 1) * r.stride 2 < r.end_ 2 - aligned_begin_2 r ∧
        r.end_ 2 - aligned_begin_2 r ≤ num_iters_2 r * r.stride 2 ∧
        r.end_ 2 ≤ aligned_begin_2 r + num_iters_2 r * r.stride 2 ∧
        ∀ m : Int, 1 ≤ m → r.end_ 2 ≤ aligned_begin_2 r + m * r.stride 2 → num_iters_2 r ≤ m)) := by
  constructor
  · intro hs
    have hb := num_iters_1_bracket r hs
    refine ⟨ceil_idiv_flr_eq_ceil _ _ hs, fun hlt => ⟨?_, hb.1, hb.2, by linarith, ?_⟩⟩
    · exact one_le_of_bracket _ _ _ hs (by linarith) hb.2
    · intro m _ hm
      exact bracket_least _ _ _ m hs hb.1 (by linarith)
  · intro hs
    have hb := num_iters_2_bracket r hs
    refine ⟨ceil_idiv_flr_eq_ceil _ _ hs, fun hlt => ⟨?_, hb.1, hb.2, by linarith, ?_⟩⟩
    · exact one_le_of_bracket _ _ _ hs (by linarith) hb.2
    · intro m _ hm
      exact bracket_least _ _ _ m hs hb.1 (by linarith)

/-- Witness of C4 at begin = 0, end = 10, stride = 3 (4 tiles) in dimension 1
and begin = 5, end = 20, stride = 4, align = 4 (4 tiles from 4) in dimension 2. -/
theorem num_iters_ceil_witness :
    num_iters_1 (mkScan 0 10 3 1 0 5 20 4 4 0) = 4 ∧
    num_iters_2 (mkScan 0 10 3 1 0 5 20 4 4 0) = 4 ∧
    1 ≤ num_iters_1 (mkScan 0 10 3 1 0 5 20 4 4 0) ∧
    1 ≤ num_iters_2 (mkScan 0 10 3 1 0 5 20 4 4 0) :=
  ⟨by decide, by decide,
    (((num_iters_ceil (mkScan 0 10 3 1 0 5 20 4 4 0)).1 (by decide)).2 (by decide)).1,
    (((num_iters_ceil (mkScan 0 10 3 1 0 5 20 4 4 0)).2 (by decide)).2 (by decide)).1⟩

/-! ## Claims about the linear index -/

theorem num_iters_mkScan_unit (n1 n2 : Int) :
    num_iters_1 (mkScan 0 n1 1 1 0 0 n2 1 1 0) = n1 ∧
      num_iters_2 (mkScan 0 n1 1 1 0 0 n2 1 1 0) = n2 := by
  constructor
  · unfold num_iters_1
    apply ceil_idiv_flr_eq _ _ _ (le_refl (1 : Int)) <;>
      simp [aligned_begin_1, adj_align_1, round_down_flr, mkScan]
  · unfold num_iters_2
    apply ceil_idiv_flr_eq _ _ _ (le_refl (1 : Int)) <;>
      simp [aligned_begin_2, adj_align_2, round_down_flr, mkScan]

/-- C5: all tile counts n1 >= 1, n2 >= 1 occur, the range [0, n1*n2) of
linear indices is then not empty, and for a descriptor with these
counts every linear index L in [0, n1*n2) decomposes as index_1 = L / n2,
index_2 = L % n2 with 0 <= index_1 < n1, 0 <= index_2 < n2 and
index_1*n2 + index_2 = L; distinct linear indices give distinct index pairs and
every pair of [0,n1) x [0,n2) is reached. -/
theorem linear_index_round_trip (n1 n2 : Int) (h1 : 1 ≤ n1) (h2 : 1 ≤ n2) :
    (∃ r : ScanIndices, num_iters_1 r = n1 ∧ num_iters_2 r = n2) ∧ 0 < n1 * n2 ∧
    ∀ r : ScanIndices, num_iters_1 r = n1 → num_iters_2 r = n2 →
      (∀ L : Int, 0 ≤ L → L < n1 * n2 →
        index_1 r L = L / n2 ∧ index_2 r L = L % n2 ∧
        0 ≤ index_1 r L ∧ index_1 r L < n1 ∧ 0 ≤ index_2 r L ∧ index_2 r L < n2 ∧
        index_1 r L * n2 + index_2 r L = L) ∧
      (∀ L L' : Int, 0 ≤ L → L < n1 * n2 → 0 ≤ L' → L' < n1 * n2 →
        index_1 r L = index_1 r L' → index_2 r L = index_2 r L' → L = L') ∧
      (∀ i1 i2 : Int, 0 ≤ i1 → i1 < n1 → 0 ≤ i2 → i2 < n2 →
        ∃ L : Int, 0 ≤ L ∧ L < n1 * n2 ∧ index_1 r L = i1 ∧ index_2 r L = i2) := by
  refine ⟨⟨_, num_iters_mkScan_unit n1 n2⟩, mul_pos (by omega) (by omega), ?_⟩
  intro r _ hr2
  refine ⟨?_, ?_, ?_⟩
  · intro L h0 hL
    have h := decompose_pos n1 n2 L h2 h0 hL
    unfold index_1 index_2
    rw [hr2]
    exact ⟨Int.tdiv_eq_ediv h0 (by omega), Int.tmod_eq_emod h0 (by omega),
      h.1.1, h.1.2, h.2.1.1, h.2.1.2, h.2.2⟩
  · intro L L' h0 hL h0' hL' e1 e2
    have h := (decompose_pos n1 n2 L h2 h0 hL).2.2
    have h' := (decompose_pos n1 n2 L' h2 h0' hL').2.2
    unfold index_1 at e1
    unfold index_2 at e2
    rw [hr2] at e1 e2
    rw [← h, ← h', e1, e2]
  · intro i1 i2 hi1 hi1' hi2 hi2'
    have hc := compose_pos n2 i1 i2 hi1 hi2 hi2'
    have hm : 0 ≤ i1 * n2 := mul_nonneg hi1 (by omega)
    have hlt : (i1 + 1) * n2 ≤ n1 * n2 := mul_le_mul_of_nonneg_right (by omega) (by omega)
    refine ⟨i1 * n2 + i2, by omega, by linarith, ?_, ?_⟩
    · unfold index_1
      rw [hr2]
      exact hc.1
    · unfold index_2
      rw [hr2]
      exact hc.2

/-- Witness of C5 at the counts (4, 4) of begin = 0, end = 10, stride = 3 and
begin = 5, end = 20, stride = 4, align = 4, and the linear index 7. -/
theorem linear_index_round_trip_witness :
    index_1 (mkScan 0 10 3 1 0 5 20 4 4 0) 7 = 1 ∧
    index_2 (mkScan 0 10 3 1 0 5 20 4 4 0) 7 = 3 ∧
    index_1 (mkScan 0 10 3 1 0 5 20 4 4 0) 7 * 4 + index_2 (mkScan 0 10 3 1 0 5 20 4 4 0) 7 = 7 :=
  ⟨by decide, by decide,
    (((linear_index_round_trip 4 4 (by decide) (by decide)).2.2 (mkScan 0 10 3 1 0 5 20 4 4 0)
      (by decide) (by decide)).1 7 (by decide) (by decide)).2.2.2.2.2.2⟩

/-- C6: for every linear index L in [0, num_iters_1*num_iters_2) the outer
index the code computes, L / num_iters_2 without a modulo, equals the spec's
(L / num_iters_2) mod num_iters_1, and the inner index equals
(L / 1) mod num_iters_2.  The operators are the kernel's truncating ones; with
both counts at least 1 the same equalities hold for floor division and the
non-negative remainder. -/
theorem index_row_major (r : ScanIndices) (L : Int) (h0 : 0 ≤ L) (hL : L < num_iters_1_2 r) :
    index_1 r L = idx_row_major L [num_iters_2 r] (num_iters_1 r) ∧
    index_2 r L = idx_row_major L [] (num_iters_2 r) ∧
    (1 ≤ num_iters_1 r → 1 ≤ num_iters_2 r →
      index_1 r L = (L / num_iters_2 r) % num_iters_1 r ∧
      index_2 r L = (L / 1) % num_iters_2 r) := by
  unfold num_iters_1_2 at hL
  refine ⟨?_, ?_, ?_⟩
  · unfold index_1 idx_row_major
    rw [List.prod_singleton]
    rcases @lt_trichotomy Int _ (num_iters_2 r) 0 with hn | hn | hn
    · have h := decompose_neg _ _ L (by omega) h0 hL
      rw [h.1, neg_tmod_eq, ← Int.tmod_neg, Int.tmod_eq_of_lt h.2.1 h.2.2]
    · rw [hn, mul_zero] at hL
      omega
    · have h := decompose_pos _ _ L (by omega) h0 hL
      rw [Int.tmod_eq_of_lt h.1.1 h.1.2]
  · unfold index_2 idx_row_major
    rw [List.prod_nil, Int.tdiv_one]
  · intro _ h2
    have h := decompose_pos _ _ L h2 h0 hL
    unfold index_1 index_2
    rw [Int.ediv_one, Int.tdiv_eq_ediv h0 (by omega), Int.tmod_eq_emod h0 (by omega)]
    rw [Int.tdiv_eq_ediv h0 (by omega)] at h
    exact ⟨(Int.emod_eq_of_lt h.1.1 h.1.2).symm, rfl⟩

/-- Witness of C6 at the descriptor with counts (4, 4) and the linear index 7. -/
theorem index_row_major_witness :
    index_1 (mkScan 0 10 3 1 0 5 20 4 4 0) 7 =
      idx_row_major 7 [num_iters_2 (mkScan 0 10 3 1 0 5 20 4 4 0)]
        (num_iters_1 (mkScan 0 10 3 1 0 5 20 4 4 0)) ∧
    idx_row_major 7 [4] 4 = 1 :=
  ⟨(index_row_major (mkScan 0 10 3 1 0 5 20 4 4 0) 7 (by decide) (by decide)).1, by decide⟩

/-- Every dispatched tile carries the clamped span of its own index. -/
theorem tile_fields (r t : ScanIndices) (ht : t ∈ region_loops r) :
    (r.begin 1 ≤ t.start 1 ∧ t.stop 1 ≤ r.end_ 1 ∧
      t.start 1 = max (aligned_begin_1 r + t.index 1 * r.stride 1) (r.begin 1) ∧
      t.stop 1 = min (aligned_begin_1 r + (t.index 1 + 1) * r.stride 1) (r.end_ 1)) ∧
    (r.begin 2 ≤ t.start 2 ∧ t.stop 2 ≤ r.end_ 2 ∧
      t.start 2 = max (aligned_begin_2 r + t.index 2 * r.stride 2) (r.begin 2) ∧
      t.stop 2 = min (aligned_begin_2 r + (t.index 2 + 1) * r.stride 2) (r.end_ 2)) := by
  obtain ⟨L, _, _, rfl⟩ := (mem_region_loops r t).1 ht
  rw [local_indices_start_1, local_indices_stop_1, local_indices_start_2,
    local_indices_stop_2, local_indices_index_1, local_indices_index_2]
  exact ⟨⟨le_max_right _ _, min_le_right _ _, rfl, rfl⟩,
    ⟨le_max_right _ _, min_le_right _ _, rfl, rfl⟩⟩

/-- C7: for every descriptor and every tile the loop dispatches, in each
scanned dimension start >= begin and stop <= end, with
start = max(aligned_begin + index*stride, begin) and
stop = min(aligned_begin + (index+1)*stride, end). -/
theorem clamping (r t : ScanIndices) (ht : t ∈ region_loops r) :
    (r.begin 1 ≤ t.start 1 ∧ t.stop 1 ≤ r.end_ 1 ∧
      t.start 1 = max (aligned_begin_1 r + t.index 1 * r.stride 1) (r.begin 1) ∧
      t.stop 1 = min (aligned_begin_1 r + (t.index 1 + 1) * r.stride 1) (r.end_ 1)) ∧
    (r.begin 2 ≤ t.start 2 ∧ t.stop 2 ≤ r.end_ 2 ∧
      t.start 2 = max (aligned_begin_2 r + t.index 2 * r.stride 2) (r.begin 2) ∧
      t.stop 2 = min (aligned_begin_2 r + (t.index 2 + 1) * r.stride 2) (r.end_ 2)) :=
  tile_fields r t ht

/-- Witness of C7 at the first tile of begin = 5, end = 20, stride = 4,
align = 4 in dimension 1: its raw span starts at 4 and is clamped to 5. -/
theorem clamping_witness :
    (local_indices (mkScan 5 20 4 4 0 0 10 3 1 0) 0).start 1 = 5 ∧
    aligned_begin_1 (mkScan 5 20 4 4 0 0 10 3 1 0) = 4 ∧
    (mkScan 5 20 4 4 0 0 10 3 1 0).begin 1 ≤
      (local_indices (mkScan 5 20 4 4 0 0 10 3 1 0) 0).start 1 :=
  ⟨by decide, by decide,
    (clamping (mkScan 5 20 4 4 0 0 10 3 1 0) (local_indices (mkScan 5 20 4 4 0 0 10 3 1 0) 0)
      ((mem_region_loops _ _).2 ⟨0, by decide, by decide, rfl⟩)).1.1⟩

/-! ## Claims about the partition -/

/-- Contiguity of the clamped tiles of one dimension, on plain integers. -/
theorem dim_contiguity (ab s b e n : Int) (hs : 1 ≤ s) (hab : ab ≤ b) (hb : b < ab + s)
    (hn1 : (n - 1) * s < e - ab) (hn2 : e - ab ≤ n * s) :
    max (ab + 0 * s) b = b ∧ min (ab + (n - 1 + 1) * s) e = e ∧
    (∀ i : Int, 0 ≤ i → i < n - 1 →
      min (ab + (i + 1) * s) e = max (ab + (i + 1) * s) b) ∧
    (∀ x : Int, b ≤ x → x < e →
      ∃! i : Int, (0 ≤ i ∧ i < n) ∧ max (ab + i * s) b ≤ x ∧ x < min (ab + (i + 1) * s) e) := by
  refine ⟨tile_first ab s b hab, tile_last ab s e n hn2, ?_, ?_⟩
  · intro i hi0 hi
    exact tile_chain ab s b e n i hs hb hn1 hi0 hi
  · intro x hx hx'
    have h := slot_exists ab s n b e x hs hab hn2 hx hx'
    refine ⟨(x - ab) / s, ⟨⟨h.1, h.2.1⟩, (tile_mem_iff ab s b e _ x).2 ⟨⟨hx, hx'⟩, h.2.2⟩⟩, ?_⟩
    rintro j ⟨_, hj⟩
    have hj' := ((tile_mem_iff ab s b e j x).1 hj).2
    exact slot_unique ab s j _ x hs hj'.1 hj'.2 h.2.2.1 h.2.2.2

/-- C2: in a scanned dimension with begin < end, stride >= 1 and align >= 1,
writing n for num_iters (which is at least 1), tile 0 starts at begin, tile
n-1 stops at end, the stop of tile i is the start of tile i+1 for
0 <= i < n-1, and every point of [begin,end) lies in exactly one of the tiles
0 .. n-1: no gap and no overlap. -/
theorem contiguity_1d (r : ScanIndices) :
    (r.begin 1 < r.end_ 1 → 1 ≤ r.stride 1 → 1 ≤ r.align 1 →
      1 ≤ num_iters_1 r ∧
      start_1 r 0 = r.begin 1 ∧ stop_1 r (num_iters_1 r - 1) = r.end_ 1 ∧
      (∀ i : Int, 0 ≤ i → i < num_iters_1 r - 1 → stop_1 r i = start_1 r (i + 1)) ∧
      (∀ x : Int, r.begin 1 ≤ x → x < r.end_ 1 →
        ∃! i : Int, (0 ≤ i ∧ i < num_iters_1 r) ∧ start_1 r i ≤ x ∧ x < stop_1 r i)) ∧
    (r.begin 2 < r.end_ 2 → 1 ≤ r.stride 2 → 1 ≤ r.align 2 →
      1 ≤ num_iters_2 r ∧
      start_2 r 0 = r.begin 2 ∧ stop_2 r (num_iters_2 r - 1) = r.end_ 2 ∧
      (∀ i : Int, 0 ≤ i → i < num_iters_2 r - 1 → stop_2 r i = start_2 r (i + 1)) ∧
      (∀ x : Int, r.begin 2 ≤ x → x < r.end_ 2 →
        ∃! i : Int, (0 ≤ i ∧ i < num_iters_2 r) ∧ start_2 r i ≤ x ∧ x < stop_2 r i)) := by
  constructor
  · intro hb hs ha
    have hab := aligned_begin_1_bounds r hs ha
    have hadj := adj_align_1_pos r hs ha
    have hn := num_iters_1_bracket r hs
    have h := dim_contiguity (aligned_begin_1 r) (r.stride 1) (r.begin 1) (r.end_ 1)
      (num_iters_1 r) hs hab.1 (by linarith) hn.1 hn.2
    exact ⟨num_iters_1_pos r hb hs ha, h.1, h.2.1, h.2.2.1, h.2.2.2⟩
  · intro hb hs ha
    have hab := aligned_begin_2_bounds r hs ha
    have hadj := adj_align_2_pos r hs ha
    have hn := num_iters_2_bracket r hs
    have h := dim_contiguity (aligned_begin_2 r) (r.stride 2) (r.begin 2) (r.end_ 2)
      (num_iters_2 r) hs hab.1 (by linarith) hn.1 hn.2
    exact ⟨num_iters_2_pos r hb hs ha, h.1, h.2.1, h.2.2.1, h.2.2.2⟩

/-- Witness of C2 at begin = 5, end = 20, stride = 4, align = 4 in dimension 1
(tiles [5,8), [8,12), [12,16), [16,20)) and begin = 0, end = 10, stride = 3 in
dimension 2. -/
theorem contiguity_1d_witness :
    num_iters_1 (mkScan 5 20 4 4 0 0 10 3 1 0) = 4 ∧
    start_1 (mkScan 5 20 4 4 0 0 10 3 1 0) 0 = 5 ∧
    stop_1 (mkScan 5 20 4 4 0 0 10 3 1 0) 0 = 8 ∧
    stop_1 (mkScan 5 20 4 4 0 0 10 3 1 0) 0 = start_1 (mkScan 5 20 4 4 0 0 10 3 1 0) (0 + 1) ∧
    stop_2 (mkScan 5 20 4 4 0 0 10 3 1 0) (num_iters_2 (mkScan 5 20 4 4 0 0 10 3 1 0) - 1) = 10 :=
  ⟨by decide, by decide, by decide,
    ((contiguity_1d (mkScan 5 20 4 4 0 0 10 3 1 0)).1 (by decide) (by decide)
      (by decide)).2.2.2.1 0 (by decide) (by decide),
    ((contiguity_1d (mkScan 5 20 4 4 0 0 10 3 1 0)).2 (by decide) (by decide)
      (by decide)).2.2.1⟩

theorem inTile_local_indices (r : ScanIndices) (L x y : Int) :
    inTile (local_indices r L) x y ↔
      ((r.begin 1 ≤ x ∧ x < r.end_ 1) ∧
        aligned_begin_1 r + index_1 r L * r.stride 1 ≤ x ∧
        x < aligned_begin_1 r + (index_1 r L + 1) * r.stride 1) ∧
      ((r.begin 2 ≤ y ∧ y < r.end_ 2) ∧
        aligned_begin_2 r + index_2 r L * r.stride 2 ≤ y ∧
        y < aligned_begin_2 r + (index_2 r L + 1) * r.stride 2) := by
  unfold inTile
  rw [local_indices_start_1, local_indices_stop_1, local_indices_start_2, local_indices_stop_2]
  unfold start_1 stop_1 start_2 stop_2
  rw [tile_mem_iff, tile_mem_iff]

/-- C1: for every descriptor with begin < end, stride >= 1 and align >= 1 in
both scanned dimensions, the rectangles [start_1,stop_1) x [start_2,stop_2)
handed to the callback for the linear indices 0 .. num_iters_1*num_iters_2 - 1
(there is at least one) are pairwise disjoint for distinct linear indices, and a point lies in
[begin_1,end_1) x [begin_2,end_2) exactly when it lies in the rectangle of one
of the dispatched tiles. -/
theorem partition_2d (r : ScanIndices)
    (hb1 : r.begin 1 < r.end_ 1) (hs1 : 1 ≤ r.stride 1) (ha1 : 1 ≤ r.align 1)
    (hb2 : r.begin 2 < r.end_ 2) (hs2 : 1 ≤ r.stride 2) (ha2 : 1 ≤ r.align 2) :
    0 < num_iters_1_2 r ∧
    (∀ L L' : Int, 0 ≤ L → L < num_iters_1_2 r → 0 ≤ L' → L' < num_iters_1_2 r → L ≠ L' →
      ∀ x y : Int, ¬ (inTile (local_indices r L) x y ∧ inTile (local_indices r L') x y)) ∧
    (∀ x y : Int,
      ((r.begin 1 ≤ x ∧ x < r.end_ 1) ∧ (r.begin 2 ≤ y ∧ y < r.end_ 2)) ↔
        ∃ t ∈ region_loops r, inTile t x y) := by
  have hn1 := num_iters_1_pos r hb1 hs1 ha1
  have hn2 := num_iters_2_pos r hb2 hs2 ha2
  refine ⟨mul_pos (by linarith) (by linarith), ?_, ?_⟩
  · intro L L' h0 hL h0' hL' hne x y ⟨hin, hin'⟩
    rw [inTile_local_indices] at hin hin'
    have e1 := slot_unique _ _ _ _ x hs1 hin.1.2.1 hin.1.2.2 hin'.1.2.1 hin'.1.2.2
    have e2 := slot_unique _ _ _ _ y hs2 hin.2.2.1 hin.2.2.2 hin'.2.2.1 hin'.2.2.2
    have h := (decompose_pos _ _ L hn2 h0 hL).2.2
    have h' := (decompose_pos _ _ L' hn2 h0' hL').2.2
    unfold index_1 at e1
    unfold index_2 at e2
    apply hne
    rw [← h, ← h', e1, e2]
  · intro x y
    constructor
    · rintro ⟨⟨hx, hx'⟩, ⟨hy, hy'⟩⟩
      have s1 := slot_exists (aligned_begin_1 r) (r.stride 1) (num_iters_1 r) (r.begin 1)
        (r.end_ 1) x hs1 (aligned_begin_1_bounds r hs1 ha1).1 (num_iters_1_bracket r hs1).2 hx hx'
      have s2 := slot_exists (aligned_begin_2 r) (r.stride 2) (num_iters_2 r) (r.begin 2)
        (r.end_ 2) y hs2 (aligned_begin_2_bounds r hs2 ha2).1 (num_iters_2_bracket r hs2).2 hy hy'
      have hc := compose_pos (num_iters_2 r) _ _ s1.1 s2.1 s2.2.1
      have hm : 0 ≤ (x - aligned_begin_1 r) / r.stride 1 * num_iters_2 r :=
        mul_nonneg s1.1 (by omega)
      have hlt : ((x - aligned_begin_1 r) / r.stride 1 + 1) * num_iters_2 r ≤
          num_iters_1 r * num_iters_2 r :=
        mul_le_mul_of_nonneg_right (by omega) (by omega)
      refine ⟨local_indices r ((x - aligned_begin_1 r) / r.stride 1 * num_iters_2 r +
        (y - aligned_begin_2 r) / r.stride 2), ?_, ?_⟩
      · rw [mem_region_loops]
        exact ⟨_, by omega, by unfold num_iters_1_2; linarith, rfl⟩
      · rw [inTile_local_indices]
        unfold index_1 index_2
        rw [hc.1, hc.2]
        exact ⟨⟨⟨hx, hx'⟩, s1.2.2⟩, ⟨⟨hy, hy'⟩, s2.2.2⟩⟩
    · rintro ⟨t, ht, hin⟩
      obtain ⟨L, -, -, rfl⟩ := (mem_region_loops r t).1 ht
      rw [inTile_local_indices] at hin
      exact ⟨hin.1.1, hin.2.1⟩

/-- Witness of C1 at begin = 0, end = 10, stride = 3 in dimension 1 and
begin = 5, end = 20, stride = 4, align = 4 in dimension 2: the tiles of the
linear indices 0 and 5 do not both hold the point (3, 8). -/
theorem partition_2d_witness :
    inTile (local_indices (mkScan 0 10 3 1 0 5 20 4 4 0) 5) 3 8 ∧
    ¬ (inTile (local_indices (mkScan 0 10 3 1 0 5 20 4 4 0) 0) 3 8 ∧
      inTile (local_indices (mkScan 0 10 3 1 0 5 20 4 4 0) 5) 3 8) :=
  ⟨by unfold inTile; decide,
    (partition_2d (mkScan 0 10 3 1 0 5 20 4 4 0) (by decide) (by decide) (by decide)
      (by decide) (by decide) (by decide)).2.1 0 5 (by decide) (by decide) (by decide)
      (by decide) (by decide) 3 8⟩

/-! ## Edge cases -/

/-- Counterexample to C8 as stated: begin = 5, end = 8, stride = 3, align = 4
in dimension 1 has stride >= end - begin, yet aligned_begin is 3, num_iters is
2 and the two tiles are [5,6) and [6,8). -/
theorem single_tile_counterexample :
    (mkScan 5 8 3 4 0 0 1 1 1 0).begin 1 < (mkScan 5 8 3 4 0 0 1 1 1 0).end_ 1 ∧
    (mkScan 5 8 3 4 0 0 1 1 1 0).end_ 1 - (mkScan 5 8 3 4 0 0 1 1 1 0).begin 1 ≤
      (mkScan 5 8 3 4 0 0 1 1 1 0).stride 1 ∧
    1 ≤ (mkScan 5 8 3 4 0 0 1 1 1 0).align 1 ∧
    aligned_begin_1 (mkScan 5 8 3 4 0 0 1 1 1 0) = 3 ∧
    num_iters_1 (mkScan 5 8 3 4 0 0 1 1 1 0) = 2 ∧
    num_iters_1 (mkScan 5 8 3 4 0 0 1 1 1 0) ≠ 1 ∧
    (region_loops (mkScan 5 8 3 4 0 0 1 1 1 0)).map (fun t => (t.start 1, t.stop 1)) =
      [(5, 6), (6, 8)] := by
  decide

/-- The count of a dimension whose span from the aligned begin fits one stride. -/
theorem count_one (n s d : Int) (hs : 1 ≤ s) (hd : 0 < d) (hds : d ≤ s)
    (h1 : (n - 1) * s < d) (h2 : d ≤ n * s) : n = 1 :=
  bracket_unique d s n 1 hs h1 h2 (by linarith) (by linarith)

/-- C8, amended: in a scanned dimension with begin < end, stride >= 1 and
align >= 1 (any align_ofs), if stride >= end - aligned_begin then num_iters is
exactly 1 and every dispatched tile has the clamped range [begin, end) in that
dimension; with only stride >= end - begin, num_iters is 1 or 2. -/
theorem single_tile (r : ScanIndices) :
    (r.begin 1 < r.end_ 1 → 1 ≤ r.stride 1 → 1 ≤ r.align 1 →
      (r.end_ 1 - aligned_begin_1 r ≤ r.stride 1 →
        num_iters_1 r = 1 ∧ start_1 r 0 = r.begin 1 ∧ stop_1 r 0 = r.end_ 1 ∧
        ∀ t ∈ region_loops r, t.index 1 = 0 ∧ t.start 1 = r.begin 1 ∧ t.stop 1 = r.end_ 1) ∧
      (r.end_ 1 - r.begin 1 ≤ r.stride 1 → 1 ≤ num_iters_1 r ∧ num_iters_1 r ≤ 2)) ∧
    (r.begin 2 < r.end_ 2 → 1 ≤ r.stride 2 → 1 ≤ r.align 2 →
      (r.end_ 2 - aligned_begin_2 r ≤ r.stride 2 →
        num_iters_2 r = 1 ∧ start_2 r 0 = r.begin 2 ∧ stop_2 r 0 = r.end_ 2 ∧
        ∀ t ∈ region_loops r, t.index 2 = 0 ∧ t.start 2 = r.begin 2 ∧ t.stop 2 = r.end_ 2) ∧
      (r.end_ 2 - r.begin 2 ≤ r.stride 2 → 1 ≤ num_iters_2 r ∧ num_iters_2 r ≤ 2)) := by
  constructor
  · intro hb hs ha
    have hab := aligned_begin_1_bounds r hs ha
    have hadj := adj_align_1_pos r hs ha
    have hn := num_iters_1_bracket r hs
    constructor
    · intro hfit
      have h1 : num_iters_1 r = 1 := count_one _ _ _ hs (by linarith) hfit hn.1 hn.2
      have hstart : start_1 r 0 = r.begin 1 := tile_first _ _ _ hab.1
      have hstop : stop_1 r 0 = r.end_ 1 := by
        unfold stop_1
        exact min_eq_right (by linarith)
      refine ⟨h1, hstart, hstop, ?_⟩
      intro t ht
      obtain ⟨L, h0, hL, rfl⟩ := (mem_region_loops r t).1 ht
      unfold num_iters_1_2 at hL
      rw [h1, one_mul] at hL
      have hi : index_1 r L = 0 := Int.tdiv_eq_zero_of_lt h0 hL
      rw [local_indices_index_1, local_indices_start_1, local_indices_stop_1, hi]
      exact ⟨rfl, hstart, hstop⟩
    · intro hfit
      refine ⟨num_iters_1_pos r hb hs ha, ?_⟩
      have h := bracket_least (num_iters_1 r) (r.stride 1) _ 2 hs hn.1
        (show r.end_ 1 - aligned_begin_1 r ≤ 2 * r.stride 1 by linarith)
      exact h
  · intro hb hs ha
    have hab := aligned_begin_2_bounds r hs ha
    have hadj := adj_align_2_pos r hs ha
    have hn := num_iters_2_bracket r hs
    constructor
    · intro hfit
      have h1 : num_iters_2 r = 1 := count_one _ _ _ hs (by linarith) hfit hn.1 hn.2
      have hstart : start_2 r 0 = r.begin 2 := tile_first _ _ _ hab.1
      have hstop : stop_2 r 0 = r.end_ 2 := by
        unfold stop_2
        exact min_eq_right (by linarith)
      refine ⟨h1, hstart, hstop, ?_⟩
      intro t ht
      obtain ⟨L, -, -, rfl⟩ := (mem_region_loops r t).1 ht
      have hi : index_2 r L = 0 := by
        unfold index_2
        rw [h1, Int.tmod_one]
      rw [local_indices_index_2, local_indices_start_2, local_indices_stop_2, hi]
      exact ⟨rfl, hstart, hstop⟩
    · intro hfit
      refine ⟨num_iters_2_pos r hb hs ha, ?_⟩
      have h := bracket_least (num_iters_2 r) (r.stride 2) _ 2 hs hn.1
        (show r.end_ 2 - aligned_begin_2 r ≤ 2 * r.stride 2 by linarith)
      exact h

/-- Witness of C8 (amended) at begin = 5, end = 8, stride = 4, align = 4 in
dimension 1: aligned_begin is 4, end - aligned_begin = 4 <= stride, and the
one tile is [5, 8). -/
theorem single_tile_witness :
    aligned_begin_1 (mkScan 5 8 4 4 0 0 1 1 1 0) = 4 ∧
    num_iters_1 (mkScan 5 8 4 4 0 0 1 1 1 0) = 1 ∧
    start_1 (mkScan 5 8 4 4 0 0 1 1 1 0) 0 = (mkScan 5 8 4 4 0 0 1 1 1 0).begin 1 ∧
    (region_loops (mkScan 5 8 4 4 0 0 1 1 1 0)).map (fun t => (t.start 1, t.stop 1)) = [(5, 8)] :=
  ⟨by decide,
    ((((single_tile (mkScan 5 8 4 4 0 0 1 1 1 0)).1 (by decide) (by decide) (by decide)).1
      (by decide)).1),
    ((((single_tile (mkScan 5 8 4 4 0 0 1 1 1 0)).1 (by decide) (by decide) (by decide)).1
      (by decide)).2.1),
    by decide⟩

/-- Counterexample to C9 as stated: begin = end = 5, stride = 4, align = 4 in
dimension 1 (and one unit tile in dimension 2) has end <= begin, yet
aligned_begin is 4, num_iters_1 is 1 and the callback is invoked once, on the
empty range [5, 5). -/
theorem empty_domain_counterexample :
    (mkScan 5 5 4 4 0 0 1 1 1 0).end_ 1 ≤ (mkScan 5 5 4 4 0 0 1 1 1 0).begin 1 ∧
    1 ≤ (mkScan 5 5 4 4 0 0 1 1 1 0).stride 1 ∧ 1 ≤ (mkScan 5 5 4 4 0 0 1 1 1 0).align 1 ∧
    aligned_begin_1 (mkScan 5 5 4 4 0 0 1 1 1 0) = 4 ∧
    num_iters_1 (mkScan 5 5 4 4 0 0 1 1 1 0) = 1 ∧
    num_iters_1 (mkScan 5 5 4 4 0 0 1 1 1 0) ≠ 0 ∧
    (region_loops (mkScan 5 5 4 4 0 0 1 1 1 0)).length = 1 ∧
    (region_loops (mkScan 5 5 4 4 0 0 1 1 1 0)).map (fun t => (t.start 1, t.stop 1)) =
      [(5, 5)] := by
  decide

/-- The sign of a bracketed count, on plain integers. -/
theorem count_nonpos_iff (n s d : Int) (hs : 1 ≤ s) (h1 : (n - 1) * s < d) (h2 : d ≤ n * s) :
    (n ≤ 0 ↔ d ≤ 0) ∧ (n = 0 ↔ (-s < d ∧ d ≤ 0)) := by
  refine ⟨⟨fun hn => ?_, fun hd => ?_⟩, ⟨fun hn => ?_, fun hd => ?_⟩⟩
  · have : n * s ≤ 0 * s := mul_le_mul_of_nonneg_right hn (by omega)
    linarith
  · by_contra hc
    have : 0 * s ≤ (n - 1) * s := mul_le_mul_of_nonneg_right (by omega) (by omega)
    linarith
  · subst hn
    constructor <;> linarith
  · exact bracket_unique d s n 0 hs h1 h2 (by linarith) (by linarith)

theorem region_loops_eq_nil (r : ScanIndices) (h : num_iters_1_2 r ≤ 0) :
    region_loops r = [] := by
  apply List.eq_nil_of_length_eq_zero
  rw [length_region_loops]
  exact Int.toNat_eq_zero.2 h

/-- C9, amended: in a scanned dimension with end <= begin (stride >= 1,
align >= 1), num_iters is <= 0 exactly when end <= aligned_begin and is 0
exactly when aligned_begin - stride < end <= aligned_begin; the callback is
invoked zero times when that num_iters is 0, and more generally when
num_iters_1 * num_iters_2 <= 0; every tile that is dispatched has an empty
clamped range (stop <= start) in that dimension. -/
theorem empty_domain (r : ScanIndices) :
    (r.end_ 1 ≤ r.begin 1 → 1 ≤ r.stride 1 → 1 ≤ r.align 1 →
      (num_iters_1 r ≤ 0 ↔ r.end_ 1 ≤ aligned_begin_1 r) ∧
      (num_iters_1 r = 0 ↔
        (aligned_begin_1 r - r.stride 1 < r.end_ 1 ∧ r.end_ 1 ≤ aligned_begin_1 r)) ∧
      (num_iters_1 r = 0 → region_loops r = []) ∧
      (num_iters_1 r * num_iters_2 r ≤ 0 → region_loops r = []) ∧
      (∀ t ∈ region_loops r, t.stop 1 ≤ t.start 1)) ∧
    (r.end_ 2 ≤ r.begin 2 → 1 ≤ r.stride 2 → 1 ≤ r.align 2 →
      (num_iters_2 r ≤ 0 ↔ r.end_ 2 ≤ aligned_begin_2 r) ∧
      (num_iters_2 r = 0 ↔
        (aligned_begin_2 r - r.stride 2 < r.end_ 2 ∧ r.end_ 2 ≤ aligned_begin_2 r)) ∧
      (num_iters_2 r = 0 → region_loops r = []) ∧
      (num_iters_1 r * num_iters_2 r ≤ 0 → region_loops r = []) ∧
      (∀ t ∈ region_loops r, t.stop 2 ≤ t.start 2)) := by
  constructor
  · intro he hs _
    have hn := num_iters_1_bracket r hs
    have hc := count_nonpos_iff _ _ _ hs hn.1 hn.2
    refine ⟨?_, ?_, ?_, region_loops_eq_nil r, ?_⟩
    · rw [hc.1]
      constructor <;> intro h <;> linarith
    · rw [hc.2]
      constructor <;> intro h <;> constructor <;> linarith [h.1, h.2]
    · intro h0
      apply region_loops_eq_nil
      unfold num_iters_1_2
      rw [h0, zero_mul]
    · intro t ht
      have hcl := (tile_fields r t ht).1
      linarith [hcl.1, hcl.2.1]
  · intro he hs _
    have hn := num_iters_2_bracket r hs
    have hc := count_nonpos_iff _ _ _ hs hn.1 hn.2
    refine ⟨?_, ?_, ?_, region_loops_eq_nil r, ?_⟩
    · rw [hc.1]
      constructor <;> intro h <;> linarith
    · rw [hc.2]
      constructor <;> intro h <;> constructor <;> linarith [h.1, h.2]
    · intro h0
      apply region_loops_eq_nil
      unfold num_iters_1_2
      rw [h0, mul_zero]
    · intro t ht
      have hcl := (tile_fields r t ht).2
      linarith [hcl.1, hcl.2.1]

/-- Witness of C9 (amended): begin = 5, end = 0, stride = 1 in dimension 1 has
num_iters_1 = -5 and no callback; begin = end = 5, stride = align = 4 has one
dispatched tile, which is empty. -/
theorem empty_domain_witness :
    num_iters_1 (mkScan 5 0 1 1 0 0 1 1 1 0) = -5 ∧
    region_loops (mkScan 5 0 1 1 0 0 1 1 1 0) = [] ∧
    (local_indices (mkScan 5 5 4 4 0 0 1 1 1 0) 0).stop 1 ≤
      (local_indices (mkScan 5 5 4 4 0 0 1 1 1 0) 0).start 1 :=
  ⟨by decide,
    ((empty_domain (mkScan 5 0 1 1 0 0 1 1 1 0)).1 (by decide) (by decide)
      (by decide)).2.2.2.1 (by decide),
    ((empty_domain (mkScan 5 5 4 4 0 0 1 1 1 0)).1 (by decide) (by decide)
      (by decide)).2.2.2.2 _ ((mem_region_loops _ _).2 ⟨0, by decide, by decide, rfl⟩)⟩

/-! ## Descriptors with a negative stride -/

/-- Counterexample to C10 as stated: begin = 0, end = -3, stride = -1,
align = 1 in dimension 1 (and one unit tile in dimension 2) has a non-positive
stride, yet the scan computes num_iters_1 = 3 and invokes the callback three
times. -/
theorem negative_stride_counterexample :
    (mkScan 0 (-3) (-1) 1 0 0 1 1 1 0).stride 1 ≤ 0 ∧
    adj_align_1 (mkScan 0 (-3) (-1) 1 0 0 1 1 1 0) = -1 ∧
    num_iters_1 (mkScan 0 (-3) (-1) 1 0 0 1 1 1 0) = 3 ∧
    (region_loops (mkScan 0 (-3) (-1) 1 0 0 1 1 1 0)).length = 3 ∧
    (region_loops (mkScan 0 (-3) (-1) 1 0 0 1 1 1 0)).map
      (fun t => (t.index 1, t.start 1, t.stop 1)) = [(0, 0, -3), (1, 0, -3), (2, 0, -3)] := by
  decide

/-- C10, amended: the scan has no validation step and no error path. For a
descriptor with a negative stride in a scanned dimension (strides and aligns
non-zero, so that every divisor is non-zero) it caps the alignment to the
negative stride, computes the counts by the same formulas and invokes the
callback once per linear index, max(0, num_iters_1*num_iters_2) times, each
tile carrying start = max(aligned_begin + index*stride, begin) and
stop = min(aligned_begin + (index+1)*stride, end). -/
theorem negative_stride_not_rejected (r : ScanIndices)
    (h : r.stride 1 < 0 ∨ r.stride 2 < 0)
    (hs1 : r.stride 1 ≠ 0) (hs2 : r.stride 2 ≠ 0)
    (ha1 : r.align 1 ≠ 0) (ha2 : r.align 2 ≠ 0) :
    (adj_align_1 r ≠ 0 ∧ adj_align_2 r ≠ 0 ∧ (adj_align_1 r < 0 ∨ adj_align_2 r < 0)) ∧
    (region_loops r).length = (num_iters_1_2 r).toNat ∧
    (∀ k : Nat, k < (num_iters_1_2 r).toNat →
      (region_loops r)[k]? = some (local_indices r (Int.ofNat k))) ∧
    (∀ t ∈ region_loops r,
      (t.start 1 = max (aligned_begin_1 r + t.index 1 * r.stride 1) (r.begin 1) ∧
        t.stop 1 = min (aligned_begin_1 r + (t.index 1 + 1) * r.stride 1) (r.end_ 1)) ∧
      (t.start 2 = max (aligned_begin_2 r + t.index 2 * r.stride 2) (r.begin 2) ∧
        t.stop 2 = min (aligned_begin_2 r + (t.index 2 + 1) * r.stride 2) (r.end_ 2))) := by
  refine ⟨⟨?_, ?_, ?_⟩, length_region_loops r, ?_, ?_⟩
  · unfold adj_align_1
    rcases min_choice (r.align 1) (r.stride 1) with e | e <;> rw [e] <;> assumption
  · unfold adj_align_2
    rcases min_choice (r.align 2) (r.stride 2) with e | e <;> rw [e] <;> assumption
  · unfold adj_align_1 adj_align_2
    rcases h with h | h
    · exact Or.inl (lt_of_le_of_lt (min_le_right _ _) h)
    · exact Or.inr (lt_of_le_of_lt (min_le_right _ _) h)
  · intro k hk
    unfold region_loops
    rw [List.getElem?_map, List.getElem?_range hk]
    rfl
  · intro t ht
    have hf := tile_fields r t ht
    exact ⟨⟨hf.1.2.2.1, hf.1.2.2.2⟩, ⟨hf.2.2.2.1, hf.2.2.2.2⟩⟩

/-- Witness of C10 (amended) at begin = 0, end = -3, stride = -1, align = 1 in
dimension 1: three callbacks. -/
theorem negative_stride_not_rejected_witness :
    (mkScan 0 (-3) (-1) 1 0 0 1 1 1 0).stride 1 < 0 ∧
    (num_iters_1_2 (mkScan 0 (-3) (-1) 1 0 0 1 1 1 0)).toNat = 3 ∧
    (region_loops (mkScan 0 (-3) (-1) 1 0 0 1 1 1 0)).length =
      (num_iters_1_2 (mkScan 0 (-3) (-1) 1 0 0 1 1 1 0)).toNat :=
  ⟨by decide, by decide,
    (negative_stride_not_rejected (mkScan 0 (-3) (-1) 1 0 0 1 1 1 0) (Or.inl (by decide))
      (by decide) (by decide) (by decide) (by decide)).2.1⟩

/-! ## Frame of the scan and the worked examples -/

theorem getElem?_region_loops (r : ScanIndices) (k : Nat) (t : ScanIndices)
    (ht : (region_loops r)[k]? = some t) :
    Int.ofNat k < num_iters_1_2 r ∧ t = local_indices r (Int.ofNat k) := by
  unfold region_loops at ht
  rw [List.getElem?_map] at ht
  by_cases hk : k < (num_iters_1_2 r).toNat
  · rw [List.getElem?_range hk] at ht
    simp only [Option.map_some', Option.some.injEq] at ht
    refine ⟨?_, ht.symm⟩
    have : (k : Int) < num_iters_1_2 r := by omega
    exact this
  · rw [List.getElem?_eq_none (by rw [List.length_range]; omega)] at ht
    simp at ht

/-- C11: for the tile dispatched at position k of the loop, the descriptor
handed to the callback equals the input descriptor in begin, end, stride,
align and align_ofs (every dimension) and in start, stop, index and
num_indices for every dimension other than 1 and 2; num_indices[1] and
num_indices[2] are num_iters_1 and num_iters_2, linear_indices is
num_iters_1*num_iters_2 and linear_index is the loop index k. -/
theorem frame (r : ScanIndices) (k : Nat) (t : ScanIndices)
    (ht : (region_loops r)[k]? = some t) :
    (t.begin = r.begin ∧ t.end_ = r.end_ ∧ t.stride = r.stride ∧ t.align = r.align ∧
      t.align_ofs = r.align_ofs) ∧
    (∀ d : Nat, d ≠ 1 → d ≠ 2 →
      t.start d = r.start d ∧ t.stop d = r.stop d ∧ t.index d = r.index d ∧
      t.num_indices d = r.num_indices d) ∧
    (t.num_indices 1 = num_iters_1 r ∧ t.num_indices 2 = num_iters_2 r) ∧
    t.linear_indices = num_iters_1 r * num_iters_2 r ∧
    t.linear_index = (k : Int) := by
  obtain ⟨-, rfl⟩ := getElem?_region_loops r k t ht
  refine ⟨⟨rfl, rfl, rfl, rfl, rfl⟩, ?_, ⟨rfl, rfl⟩, rfl, rfl⟩
  intro d h1 h2
  simp [local_indices, Indices.set, h1, h2]

/-- Witness of C11 at the second tile (k = 1) of begin = 0, end = 10,
stride = 3 in dimension 1 and begin = 5, end = 20, stride = 4, align = 4 in
dimension 2. -/
theorem frame_witness :
    (local_indices (mkScan 0 10 3 1 0 5 20 4 4 0) 1).linear_index = 1 ∧
    (local_indices (mkScan 0 10 3 1 0 5 20 4 4 0) 1).linear_indices = 16 ∧
    (local_indices (mkScan 0 10 3 1 0 5 20 4 4 0) 1).stride =
      (mkScan 0 10 3 1 0 5 20 4 4 0).stride :=
  ⟨by decide, by decide,
    (frame (mkScan 0 10 3 1 0 5 20 4 4 0) 1 (local_indices (mkScan 0 10 3 1 0 5 20 4 4 0) 1)
      rfl).1.2.2.1⟩

/-- C12: with begin = 0, end = 10, stride = 3, align = 1, align_ofs = 0 in a
scanned dimension (dimension 1, and likewise dimension 2) the scan computes
num_iters = 4 and the clamped ranges of tiles 0..3 are [0,3), [3,6), [6,9),
[9,10). -/
theorem worked_partition :
    (num_iters_1 (mkScan 0 10 3 1 0 0 10 3 1 0) = 4 ∧
      (List.range 4).map (fun i => (start_1 (mkScan 0 10 3 1 0 0 10 3 1 0) (Int.ofNat i),
        stop_1 (mkScan 0 10 3 1 0 0 10 3 1 0) (Int.ofNat i))) =
        [(0, 3), (3, 6), (6, 9), (9, 10)]) ∧
    (num_iters_2 (mkScan 0 10 3 1 0 0 10 3 1 0) = 4 ∧
      (List.range 4).map (fun i => (start_2 (mkScan 0 10 3 1 0 0 10 3 1 0) (Int.ofNat i),
        stop_2 (mkScan 0 10 3 1 0 0 10 3 1 0) (Int.ofNat i))) =
        [(0, 3), (3, 6), (6, 9), (9, 10)]) ∧
    (region_loops (mkScan 0 10 3 1 0 0 1 1 1 0)).map
      (fun t => (t.index 1, t.num_indices 1, t.start 1, t.stop 1)) =
      [(0, 4, 0, 3), (1, 4, 3, 6), (2, 4, 6, 9), (3, 4, 9, 10)] := by
  decide

/-- C13: with begin = 5, end = 20, stride = 4, align = 4, align_ofs = 0 in a
scanned dimension (dimension 1, and likewise dimension 2) the scan computes
aligned_begin = 4, the unclamped span of tile 0 is [4,8) and its clamped range
is [5,8). -/
theorem worked_alignment :
    (aligned_begin_1 (mkScan 5 20 4 4 0 5 20 4 4 0) = 4 ∧
      aligned_begin_1 (mkScan 5 20 4 4 0 5 20 4 4 0) +
        0 * (mkScan 5 20 4 4 0 5 20 4 4 0).stride 1 = 4 ∧
      aligned_begin_1 (mkScan 5 20 4 4 0 5 20 4 4 0) +
        (0 + 1) * (mkScan 5 20 4 4 0 5 20 4 4 0).stride 1 = 8 ∧
      start_1 (mkScan 5 20 4 4 0 5 20 4 4 0) 0 = 5 ∧
      stop_1 (mkScan 5 20 4 4 0 5 20 4 4 0) 0 = 8) ∧
    (aligned_begin_2 (mkScan 5 20 4 4 0 5 20 4 4 0) = 4 ∧
      aligned_begin_2 (mkScan 5 20 4 4 0 5 20 4 4 0) +
        0 * (mkScan 5 20 4 4 0 5 20 4 4 0).stride 2 = 4 ∧
      aligned_begin_2 (mkScan 5 20 4 4 0 5 20 4 4 0) +
        (0 + 1) * (mkScan 5 20 4 4 0 5 20 4 4 0).stride 2 = 8 ∧
      start_2 (mkScan 5 20 4 4 0 5 20 4 4 0) 0 = 5 ∧
      stop_2 (mkScan 5 20 4 4 0 5 20 4 4 0) 0 = 8) ∧
    ((region_loops (mkScan 5 20 4 4 0 0 1 1 1 0)).map
      (fun t => (t.index 1, t.start 1, t.stop 1))).head? = some (0, 5, 8) := by
  decide

/-! ## Structural equality of expression nodes -/

/-- C14, the code at the failing input: `UnaryExpr::isSame` on a `NegExpr`
accepts a `SubExpr` whose right operand is the same, because `SubExpr` derives
from `UnaryNumExpr` and has the same operator string "-": the negation of 1
is reported the same as 2 - 1 (and as lhs - 1 for every lhs), while the
comparison the other way round is false. -/
theorem neg_isSame_sub :
    (NumExpr.NegExpr (.ConstExpr 1)).isSame
      (.BIN_NUM_EXPR .SubExpr (.ConstExpr 2) (.ConstExpr 1)) = true ∧
    (NumExpr.BIN_NUM_EXPR .SubExpr (.ConstExpr 2) (.ConstExpr 1)).isSame
      (.NegExpr (.ConstExpr 1)) = false ∧
    (∀ lhs : NumExpr, (NumExpr.NegExpr (.ConstExpr 1)).isSame
      (.BIN_NUM_EXPR .SubExpr lhs (.ConstExpr 1)) = true) ∧
    (Expr.num (.NegExpr (.ConstExpr 1))).isSame
      (.num (.BIN_NUM_EXPR .SubExpr (.ConstExpr 2) (.ConstExpr 1))) = true := by
  refine ⟨by decide, by decide, ?_, by decide⟩
  intro lhs
  simp [NumExpr.isSame, NumExpr.asUnaryNumExpr, NegExpr.opStr, BinNumType.opStr]

/-! ## Constant sub-trees and evaluation -/

mutual
theorem isConstVal_iff (e : NumExpr) :
    e.isConstVal = true ↔ ∀ l ∈ e.leaves, l.isConstExpr = true := by
  cases e with
  | ConstExpr f => simp [NumExpr.isConstVal, NumExpr.leaves, NumExpr.isConstExpr]
  | IndexExpr dimName type => simp [NumExpr.isConstVal, NumExpr.leaves, NumExpr.isConstExpr]
  | CodeExpr code => simp [NumExpr.isConstVal, NumExpr.leaves, NumExpr.isConstExpr]
  | NegExpr rhs =>
    simp only [NumExpr.isConstVal, NumExpr.leaves]
    exact isConstVal_iff rhs
  | BIN_NUM_EXPR type lhs rhs =>
    simp only [NumExpr.isConstVal, NumExpr.leaves, Bool.and_eq_true, List.mem_append]
    rw [isConstVal_iff lhs, isConstVal_iff rhs]
    constructor
    · rintro ⟨h1, h2⟩ l (hl | hl)
      · exact h1 l hl
      · exact h2 l hl
    · intro h
      exact ⟨fun l hl => h l (Or.inl hl), fun l hl => h l (Or.inr hl)⟩
  | COMM_EXPR type ops =>
    simp only [NumExpr.isConstVal, NumExpr.leaves]
    exact isConstValOps_iff ops
  | FuncExpr opStr ops =>
    simp only [NumExpr.isConstVal, NumExpr.leaves]
    exact isConstValOps_iff ops
  | VarPoint var args defStr => simp [NumExpr.isConstVal, NumExpr.leaves, NumExpr.isConstExpr]
theorem isConstValOps_iff (ops : List NumExpr) :
    NumExpr.isConstValOps ops = true ↔ ∀ l ∈ NumExpr.leavesOps ops, l.isConstExpr = true := by
  cases ops with
  | nil => simp [NumExpr.isConstValOps, NumExpr.leavesOps]
  | cons op ops =>
    simp only [NumExpr.isConstValOps, NumExpr.leavesOps, List.mem_append]
    have h1 := isConstVal_iff op
    have h2 := isConstValOps_iff ops
    cases hc : op.isConstVal with
    | false =>
      rw [hc] at h1
      simp only [Bool.not_false, if_true]
      constructor
      · intro h
        exact absurd h (by decide)
      · intro h
        exact absurd (h1.2 (fun l hl => h l (Or.inl hl))) (by decide)
    | true =>
      rw [hc] at h1
      simp only [Bool.not_true, Bool.false_eq_true, if_false]
      rw [h2]
      constructor
      · rintro h l (hl | hl)
        · exact h1.1 rfl l hl
        · exact h l hl
      · intro h l hl
        exact h l (Or.inr hl)
end

/-- C16: for every numeric node e (built from Constant, DimensionRef,
OpaqueCode and VarPoint leaves with negation, subtract/divide/modulo, n-ary
add/multiply and function calls), isConstVal(e) is true if and only if every
leaf under e is a Constant. -/
theorem isConstVal_characterisation (e : NumExpr) :
    e.isConstVal = true ↔ ∀ l ∈ e.leaves, l.isConstExpr = true :=
  isConstVal_iff e

mutual
theorem getNumValRnd_id (e : NumExpr) : e.getNumValRnd id = e.getNumVal := by
  cases e with
  | ConstExpr f => simp only [NumExpr.getNumValRnd, NumExpr.getNumVal]
  | IndexExpr dimName type => simp only [NumExpr.getNumValRnd, NumExpr.getNumVal]
  | CodeExpr code => simp only [NumExpr.getNumValRnd, NumExpr.getNumVal]
  | NegExpr rhs => simp only [NumExpr.getNumValRnd, NumExpr.getNumVal, getNumValRnd_id rhs]
  | BIN_NUM_EXPR type lhs rhs =>
    simp only [NumExpr.getNumValRnd, NumExpr.getNumVal, getNumValRnd_id lhs,
      getNumValRnd_id rhs, id]
  | COMM_EXPR type ops =>
    simp only [NumExpr.getNumValRnd, NumExpr.getNumVal]
    exact getNumValOpsRnd_id type type.baseVal ops
  | FuncExpr opStr ops => simp only [NumExpr.getNumValRnd, NumExpr.getNumVal]
  | VarPoint var args defStr => simp only [NumExpr.getNumValRnd, NumExpr.getNumVal]
theorem getNumValOpsRnd_id (type : CommType) (val : ℚ) (ops : List NumExpr) :
    NumExpr.getNumValOpsRnd id type val ops = NumExpr.getNumValOps type val ops := by
  cases ops with
  | nil => simp only [NumExpr.getNumValOpsRnd, NumExpr.getNumValOps]
  | cons op ops =>
    simp only [NumExpr.getNumValOpsRnd, NumExpr.getNumValOps, getNumValRnd_id op, id]
    cases op.getNumVal with
    | error err => rfl
    | ok rhs => exact getNumValOpsRnd_id type _ ops
end

theorem oper_of_defined (type : BinNumType) (lhs rhs : ℚ) (h : type.defined lhs rhs = true) :
    ∃ val, type.oper lhs rhs = some val := by
  cases type with
  | SubExpr => exact ⟨_, rfl⟩
  | DivExpr => exact ⟨_, rfl⟩
  | ModExpr =>
    simp only [BinNumType.defined, decide_eq_true_eq] at h
    refine ⟨((Int.fmod (trunc_double lhs) (trunc_double rhs) : Int) : ℚ), ?_⟩
    simp only [BinNumType.oper, imod_flr, if_neg h.2.2.2.2, Option.map_some']

mutual
theorem getNumValRnd_ok_iff (rnd : ℚ → ℚ) (e : NumExpr) (hd : e.operDefined rnd = true) :
    (∃ v, e.getNumValRnd rnd = .ok v) ↔ (e.isConstVal = true ∧ e.hasFuncExpr = false) := by
  cases e with
  | ConstExpr f => simp [NumExpr.getNumValRnd, NumExpr.isConstVal, NumExpr.hasFuncExpr]
  | IndexExpr dimName type => simp [NumExpr.getNumValRnd, NumExpr.isConstVal]
  | CodeExpr code => simp [NumExpr.getNumValRnd, NumExpr.isConstVal]
  | NegExpr rhs =>
    simp only [NumExpr.operDefined] at hd
    have h := getNumValRnd_ok_iff rnd rhs hd
    simp only [NumExpr.getNumValRnd, NumExpr.isConstVal, NumExpr.hasFuncExpr]
    rw [← h]
    cases hr : rhs.getNumValRnd rnd <;> simp
  | BIN_NUM_EXPR type lhs rhs =>
    simp only [NumExpr.operDefined, Bool.and_eq_true] at hd
    have h1 := getNumValRnd_ok_iff rnd lhs hd.1.1
    have h2 := getNumValRnd_ok_iff rnd rhs hd.1.2
    simp only [NumExpr.getNumValRnd, NumExpr.isConstVal, NumExpr.hasFuncExpr, Bool.and_eq_true,
      Bool.or_eq_false_iff]
    have h3 : ((lhs.isConstVal = true ∧ rhs.isConstVal = true) ∧
        lhs.hasFuncExpr = false ∧ rhs.hasFuncExpr = false) ↔
        ((∃ v, lhs.getNumValRnd rnd = .ok v) ∧ (∃ v, rhs.getNumValRnd rnd = .ok v)) := by
      rw [h1, h2]
      tauto
    rw [h3]
    cases hl : lhs.getNumValRnd rnd with
    | error err => simp
    | ok lhsVal =>
      cases hr : rhs.getNumValRnd rnd with
      | error err => simp
      | ok rhsVal =>
        have hdef := hd.2
        simp only [hl, hr] at hdef
        obtain ⟨val, hval⟩ := oper_of_defined type lhsVal rhsVal hdef
        simp [hval]
  | COMM_EXPR type ops =>
    simp only [NumExpr.operDefined] at hd
    simp only [NumExpr.getNumValRnd, NumExpr.isConstVal, NumExpr.hasFuncExpr]
    exact getNumValOpsRnd_ok_iff rnd type type.baseVal ops hd
  | FuncExpr opStr ops => simp [NumExpr.getNumValRnd, NumExpr.hasFuncExpr]
  | VarPoint var args defStr => simp [NumExpr.getNumValRnd, NumExpr.isConstVal]
theorem getNumValOpsRnd_ok_iff (rnd : ℚ → ℚ) (type : CommType) (val : ℚ) (ops : List NumExpr)
    (hd : NumExpr.operDefinedOps rnd ops = true) :
    (∃ v, NumExpr.getNumValOpsRnd rnd type val ops = .ok v) ↔
      (NumExpr.isConstValOps ops = true ∧ NumExpr.hasFuncExprOps ops = false) := by
  cases ops with
  | nil => simp [NumExpr.getNumValOpsRnd, NumExpr.isConstValOps, NumExpr.hasFuncExprOps]
  | cons op ops =>
    simp only [NumExpr.operDefinedOps, Bool.and_eq_true] at hd
    have h1 := getNumValRnd_ok_iff rnd op hd.1
    simp only [NumExpr.getNumValOpsRnd, NumExpr.isConstValOps, NumExpr.hasFuncExprOps,
      Bool.or_eq_false_iff]
    cases hr : op.getNumValRnd rnd with
    | error err =>
      rw [hr] at h1
      have hne : ¬ (op.isConstVal = true ∧ op.hasFuncExpr = false) := by
        rw [← h1]
        simp
      cases hc : op.isConstVal <;> simp_all
    | ok rhs =>
      rw [hr] at h1
      have hok : op.isConstVal = true ∧ op.hasFuncExpr = false := h1.1 ⟨rhs, rfl⟩
      have h2 := getNumValOpsRnd_ok_iff rnd type (rnd (type.oper val rhs)) ops hd.2
      simp only [hok.1, hok.2, Bool.not_true, Bool.false_eq_true, if_false, true_and]
      exact h2
end

mutual
theorem getNumValRnd_error (rnd : ℚ → ℚ) (e : NumExpr) (hd : e.operDefined rnd = true)
    (err : YaskError) (h : e.getNumValRnd rnd = .error err) : ∃ n, err = .cannot_evaluate n := by
  cases e with
  | ConstExpr f => simp [NumExpr.getNumValRnd] at h
  | IndexExpr dimName type =>
    simp only [NumExpr.getNumValRnd, Except.error.injEq] at h
    exact ⟨_, h.symm⟩
  | CodeExpr code =>
    simp only [NumExpr.getNumValRnd, Except.error.injEq] at h
    exact ⟨_, h.symm⟩
  | NegExpr rhs =>
    simp only [NumExpr.operDefined] at hd
    simp only [NumExpr.getNumValRnd] at h
    cases hr : rhs.getNumValRnd rnd with
    | error err2 =>
      rw [hr] at h
      simp only [Except.error.injEq] at h
      subst h
      exact getNumValRnd_error rnd rhs hd err2 hr
    | ok v =>
      rw [hr] at h
      simp at h
  | BIN_NUM_EXPR type lhs rhs =>
    simp only [NumExpr.operDefined, Bool.and_eq_true] at hd
    simp only [NumExpr.getNumValRnd] at h
    cases hl : lhs.getNumValRnd rnd with
    | error err2 =>
      rw [hl] at h
      simp only [Except.error.injEq] at h
      subst h
      exact getNumValRnd_error rnd lhs hd.1.1 err2 hl
    | ok v =>
      rw [hl] at h
      cases hr : rhs.getNumValRnd rnd with
      | error err2 =>
        rw [hr] at h
        simp only [Except.error.injEq] at h
        subst h
        exact getNumValRnd_error rnd rhs hd.1.2 err2 hr
      | ok w =>
        rw [hr] at h
        have hdef := hd.2
        simp only [hl, hr] at hdef
        obtain ⟨val, hval⟩ := oper_of_defined type v w hdef
        simp only [hval] at h
        simp at h
  | COMM_EXPR type ops =>
    simp only [NumExpr.operDefined] at hd
    simp only [NumExpr.getNumValRnd] at h
    exact getNumValOpsRnd_error rnd type type.baseVal ops hd err h
  | FuncExpr opStr ops =>
    simp only [NumExpr.getNumValRnd, Except.error.injEq] at h
    exact ⟨_, h.symm⟩
  | VarPoint var args defStr =>
    simp only [NumExpr.getNumValRnd, Except.error.injEq] at h
    exact ⟨_, h.symm⟩
theorem getNumValOpsRnd_error (rnd : ℚ → ℚ) (type : CommType) (val : ℚ) (ops : List NumExpr)
    (hd : NumExpr.operDefinedOps rnd ops = true) (err : YaskError)
    (h : NumExpr.getNumValOpsRnd rnd type val ops = .error err) :
    ∃ n, err = .cannot_evaluate n := by
  cases ops with
  | nil => simp [NumExpr.getNumValOpsRnd] at h
  | cons op ops =>
    simp only [NumExpr.operDefinedOps, Bool.and_eq_true] at hd
    simp only [NumExpr.getNumValOpsRnd] at h
    cases hr : op.getNumValRnd rnd with
    | error err2 =>
      rw [hr] at h
      simp only [Except.error.injEq] at h
      subst h
      exact getNumValRnd_error rnd op hd.1 err2 hr
    | ok v =>
      rw [hr] at h
      exact getNumValOpsRnd_error rnd type _ ops hd.2 err h
end

theorem trunc_double_intCast (i : Int) : trunc_double (i : ℚ) = i := by
  unfold trunc_double
  simp

theorem int_log_two (r : ℚ) (k : Int) (h1 : (2 : ℚ) ^ k ≤ r) (h2 : r < (2 : ℚ) ^ (k + 1)) :
    Int.log 2 r = k := by
  have h0 : 0 < r := lt_of_lt_of_le (by positivity) h1
  have a1 : k ≤ Int.log 2 r := by
    rw [← Int.zpow_le_iff_le_log (by norm_num) h0]
    simpa using h1
  have a2 : Int.log 2 r < k + 1 := by
    rw [← Int.lt_zpow_iff_log_lt (by norm_num) h0]
    simpa using h2
  omega

theorem round_double_of_floor (x : ℚ) (e n : Int) (h1 : (2 : ℚ) ^ (e + 52) ≤ |x|)
    (h2 : |x| < (2 : ℚ) ^ (e + 52 + 1)) (hn : (n : ℚ) ≤ x / 2 ^ e)
    (hfrac : x / 2 ^ e - n < 1 / 2) : round_double x = n * 2 ^ e := by
  have h0 : 0 < |x| := lt_of_lt_of_le (by positivity) h1
  have hlog : Int.log 2 |x| - 52 = e := by
    rw [int_log_two |x| (e + 52) h1 h2]
    omega
  have hfl : ⌊x / 2 ^ e⌋ = n := by
    rw [Int.floor_eq_iff]
    constructor
    · exact hn
    · linarith
  unfold round_double
  rw [if_neg (abs_pos.1 h0)]
  simp only [hlog, hfl]
  rw [if_pos hfrac]

theorem round_double_zero : round_double 0 = 0 := by
  unfold round_double
  rw [if_pos rfl]

theorem round_double_one : round_double 1 = 1 := by
  rw [round_double_of_floor 1 (-52) (2 ^ 52) (by norm_num) (by norm_num) (by norm_num)
    (by norm_num)]
  norm_num

theorem round_double_1e17 : round_double (10 ^ 17) = 10 ^ 17 := by
  rw [round_double_of_floor (10 ^ 17) 4 6250000000000000 (by norm_num) (by norm_num)
    (by norm_num) (by norm_num)]
  norm_num

theorem round_double_neg_1e17 : round_double (-10 ^ 17) = -10 ^ 17 := by
  rw [round_double_of_floor (-10 ^ 17) 4 (-6250000000000000) (by norm_num) (by norm_num)
    (by norm_num) (by norm_num)]
  norm_num

theorem round_double_1e17_succ : round_double (10 ^ 17 + 1) = 10 ^ 17 := by
  rw [round_double_of_floor (10 ^ 17 + 1) 4 6250000000000000 (by norm_num) (by norm_num)
    (by norm_num) (by norm_num)]
  norm_num

/-- C19: for every numeric node e, if e evaluates to a value v then getIntVal
returns i whenever v equals the integer i (within int range), fails with the
"does not evaluate to an integer" error on e whenever v equals no integer, and
whatever it returns equals v; if e is not evaluable, getIntVal fails with the
evaluation error. -/
theorem getIntVal_exact (e : NumExpr) :
    (∀ v : ℚ, e.getNumVal = .ok v →
      (∀ i : Int, v = (i : ℚ) → -2 ^ 31 ≤ i → i < 2 ^ 31 → e.getIntVal = .ok i) ∧
      ((∀ i : Int, v ≠ (i : ℚ)) → e.getIntVal = .error (.not_an_integer e)) ∧
      (∀ i : Int, e.getIntVal = .ok i → (i : ℚ) = v)) ∧
    (∀ err, e.getNumVal = .error err → e.getIntVal = .error err) := by
  constructor
  · intro v hv
    refine ⟨?_, ?_, ?_⟩
    · intro i hi _ _
      subst hi
      simp [NumExpr.getIntVal, hv, trunc_double_intCast]
    · intro hne
      simp only [NumExpr.getIntVal, hv]
      rw [if_pos (hne _)]
    · intro i hi
      simp only [NumExpr.getIntVal, hv] at hi
      by_cases hc : v ≠ (trunc_double v : ℚ)
      · rw [if_pos hc] at hi
        simp at hi
      · rw [if_neg hc] at hi
        simp only [Except.ok.injEq] at hi
        rw [← hi]
        exact (not_not.1 hc).symm
  · intro err he
    simp only [NumExpr.getIntVal, he]

/-- Witness of C19: 3 - 1 has the integer value 2, the Constant 7.5 has none. -/
theorem getIntVal_exact_witness :
    (NumExpr.BIN_NUM_EXPR .SubExpr (.ConstExpr 3) (.ConstExpr 1)).getIntVal = .ok 2 ∧
    (NumExpr.ConstExpr (15 / 2)).getIntVal =
      .error (.not_an_integer (.ConstExpr (15 / 2))) :=
  ⟨((getIntVal_exact (.BIN_NUM_EXPR .SubExpr (.ConstExpr 3) (.ConstExpr 1))).1 (3 - 1) rfl).1 2
      (by norm_num) (by norm_num) (by norm_num),
    ((getIntVal_exact (.ConstExpr (15 / 2))).1 (15 / 2) rfl).2.1 (by
      intro i h
      have h2 : (15 : ℚ) = ((2 * i : Int) : ℚ) := by
        push_cast
        linarith
      have h3 : (15 : Int) = 2 * i := by exact_mod_cast h2
      omega)⟩

/-! ## The commutative fold -/

theorem getNumValOps_fold (type : CommType) (ops : List NumExpr) (vals : List ℚ)
    (h : List.Forall₂ (fun (o : NumExpr) (v : ℚ) => o.getNumVal = .ok v) ops vals) :
    ∀ val : ℚ, NumExpr.getNumValOps type val ops = .ok (vals.foldl type.oper val) := by
  induction h with
  | nil =>
    intro val
    rfl
  | cons hov _ ih =>
    intro val
    simp only [NumExpr.getNumValOps, hov, List.foldl_cons]
    exact ih _

mutual
theorem numExpr_clone_eq (e : NumExpr) : e.clone = e := by
  cases e with
  | ConstExpr f => rfl
  | IndexExpr dimName type => rfl
  | CodeExpr code => rfl
  | NegExpr rhs => simp only [NumExpr.clone, numExpr_clone_eq rhs]
  | BIN_NUM_EXPR type lhs rhs =>
    simp only [NumExpr.clone, numExpr_clone_eq lhs, numExpr_clone_eq rhs]
  | COMM_EXPR type ops => simp only [NumExpr.clone, numExpr_cloneOps_eq ops]
  | FuncExpr opStr ops => simp only [NumExpr.clone, numExpr_cloneOps_eq ops]
  | VarPoint var args defStr => rfl
theorem numExpr_cloneOps_eq (ops : List NumExpr) : NumExpr.cloneOps ops = ops := by
  cases ops with
  | nil => rfl
  | cons op ops => simp only [NumExpr.cloneOps, numExpr_clone_eq op, numExpr_cloneOps_eq ops]
end

theorem boolExpr_clone_eq (e : BoolExpr) : e.clone = e := by
  induction e with
  | NotExpr rhs ih => simp only [BoolExpr.clone, ih]
  | BIN_NUM2BOOL_EXPR type lhs rhs => simp only [BoolExpr.clone, numExpr_clone_eq]
  | BIN_BOOL_EXPR type lhs rhs ih1 ih2 => simp only [BoolExpr.clone, ih1, ih2]

theorem numExpr_isSame_self (e : NumExpr) (hb : e.basic = true) :
    e.isSame e = true := by
  cases e with
  | ConstExpr f => simp [NumExpr.isSame]
  | IndexExpr dimName type => simp [NumExpr.isSame]
  | CodeExpr code => simp [NumExpr.isSame]
  | NegExpr rhs =>
    simp only [NumExpr.basic] at hb
    simp [NumExpr.isSame, NumExpr.asUnaryNumExpr, numExpr_isSame_self rhs hb]
  | BIN_NUM_EXPR type lhs rhs =>
    simp only [NumExpr.basic, Bool.and_eq_true] at hb
    simp [NumExpr.isSame, NumExpr.asBinaryNumExpr, numExpr_isSame_self lhs hb.1,
      numExpr_isSame_self rhs hb.2]
  | COMM_EXPR type ops => simp [NumExpr.basic] at hb
  | FuncExpr opStr ops => simp [NumExpr.basic] at hb
  | VarPoint var args defStr => simp [NumExpr.basic] at hb

theorem boolExpr_isSame_self (e : BoolExpr) (hb : e.basic = true) :
    e.isSame e = true := by
  induction e with
  | NotExpr rhs ih =>
    simp only [BoolExpr.basic] at hb
    simp [BoolExpr.isSame, BoolExpr.asUnaryBoolExpr, ih hb]
  | BIN_NUM2BOOL_EXPR type lhs rhs =>
    simp only [BoolExpr.basic, Bool.and_eq_true] at hb
    simp [BoolExpr.isSame, numExpr_isSame_self lhs hb.1,
      numExpr_isSame_self rhs hb.2]
  | BIN_BOOL_EXPR type lhs rhs ih1 ih2 =>
    simp only [BoolExpr.basic, Bool.and_eq_true] at hb
    simp [BoolExpr.isSame, ih1 hb.1, ih2 hb.2]

/-- Counterexample to C20 as stated: a Constant that holds NaN is not isSame
to its clone, in either direction, because `ConstExpr::isSame` compares the
two values with `==`. -/
theorem nan_clone_counterexample :
    (ConstExpr.mk .nan).isSame (ConstExpr.mk .nan).clone = false ∧
    (ConstExpr.mk .nan).clone.isSame (ConstExpr.mk .nan) = false ∧
    (ConstExpr.mk .nan).clone = ConstExpr.mk .nan := by
  refine ⟨rfl, rfl, rfl⟩

/-- C20, amended: for every node a that is a tree of Constant, DimensionRef,
OpaqueCode, negation, boolean-not and binary numeric/comparison/boolean
nodes, and whose Constants hold numbers, a.isSame(a.clone()) and
a.clone().isSame(a) both hold; a Constant is isSame to its clone, in either
direction, exactly when its value is not NaN, and on two Constants that hold
numbers `ConstExpr::isSame` is the comparison of the tree embedding. -/
theorem clone_isSame (a : Expr) (hb : a.basic = true) :
    (a.isSame a.clone = true ∧ a.clone.isSame a = true) ∧
    (∀ c : ConstExpr, (c.isSame c.clone = true ↔ c.f ≠ .nan) ∧
      (c.clone.isSame c = true ↔ c.f ≠ .nan)) ∧
    (∀ p q : ℚ, (ConstExpr.mk (.num p)).isSame (ConstExpr.mk (.num q)) =
      (NumExpr.ConstExpr p).isSame (.ConstExpr q)) := by
  refine ⟨?_, ?_, ?_⟩
  · cases a with
    | num e =>
      simp only [Expr.clone, Expr.isSame, numExpr_clone_eq]
      exact ⟨numExpr_isSame_self e hb, numExpr_isSame_self e hb⟩
    | bool e =>
      simp only [Expr.clone, Expr.isSame, boolExpr_clone_eq]
      exact ⟨boolExpr_isSame_self e hb, boolExpr_isSame_self e hb⟩
  · intro c
    obtain ⟨f⟩ := c
    cases f with
    | num q => simp [ConstExpr.isSame, ConstExpr.clone, double.eq]
    | inf s => simp [ConstExpr.isSame, ConstExpr.clone, double.eq]
    | nan => simp [ConstExpr.isSame, ConstExpr.clone, double.eq]
  · intro p q
    simp [ConstExpr.isSame, double.eq, NumExpr.isSame]

/-- Witness of C20 (amended) at the node !(x - 1 < -(2)). -/
theorem clone_isSame_witness :
    (Expr.bool (.NotExpr (.BIN_NUM2BOOL_EXPR .IsLessExpr
      (.BIN_NUM_EXPR .SubExpr (.IndexExpr "x" .DOMAIN_INDEX) (.ConstExpr 1))
      (.NegExpr (.ConstExpr 2))))).isSame
    (Expr.bool (.NotExpr (.BIN_NUM2BOOL_EXPR .IsLessExpr
      (.BIN_NUM_EXPR .SubExpr (.IndexExpr "x" .DOMAIN_INDEX) (.ConstExpr 1))
      (.NegExpr (.ConstExpr 2))))).clone = true :=
  (clone_isSame _ (by decide)).1.1

/-! ## Clones and object identity -/

/-- C21, the code at the failing input: the clone of a `VarPoint` holds the
same index-expression objects as the original (for every `VarPoint`), so for
the point u(3), whose index expression is the Constant at address 0, calling
set_value(5) on that Constant after the clone changes the clone's index
expression from 3 to 5. -/
theorem varPoint_clone_shares_args :
    (∀ p : VarPointObj, p.clone.args = p.args) ∧
    (VarPointObj.new "u" [0] "u(3)").clone.args = [0] ∧
    (VarPointObj.new "u" [0] "u(3)").clone.getArgs [.ConstExpr 3] = [some (.ConstExpr 3)] ∧
    (VarPointObj.new "u" [0] "u(3)").clone.getArgs
      (NodeStore.set_value [.ConstExpr 3] 0 5) = [some (.ConstExpr 5)] ∧
    ((VarPointObj.new "u" [0] "u(3)").clone.getArgs
      (NodeStore.set_value [.ConstExpr 3] 0 5)).map (Option.map NumExpr.getNumVal) =
      [some (.ok 5)] :=
  ⟨fun _ => rfl, rfl, rfl, rfl, rfl⟩

theorem getElem?_append_new (h : FuncHeap) (o : FuncObj) :
    (h ++ [o])[h.length]? = some o := by
  simp

theorem getElem?_append_old (h : FuncHeap) (o : FuncObj) (x : Nat) (hx : x < h.length) :
    (h ++ [o])[x]? = h[x]? := by
  rw [List.getElem?_append_left hx]

/-- C22: for every FunctionCall object f, paired or not, clone() returns a new
object whose getPair() is null, with the name of f; f's own pair link, and
every other object, is as before. -/
theorem clone_unpaired (h : FuncHeap) (f : Ptr) (src : FuncObj) (hf : h[f]? = some src) :
    ∃ h2 f2, h.clone f = some (h2, f2) ∧
      h2.getPair f2 = none ∧ h2.getPair f = h.getPair f ∧
      (∀ x : Ptr, x < h.length → h2[x]? = h[x]?) ∧
      f2 = h.length ∧ h2[f2]? = some src.copy ∧ src.copy.opStr = src.opStr := by
  have hlt : f < h.length := by
    by_contra hc
    rw [List.getElem?_eq_none (Nat.le_of_not_lt hc)] at hf
    simp at hf
  refine ⟨h ++ [src.copy], h.length, ?_, ?_, ?_, ?_, rfl, getElem?_append_new h _, rfl⟩
  · simp only [FuncHeap.clone, hf]
  · simp only [FuncHeap.getPair, getElem?_append_new]
    rfl
  · simp only [FuncHeap.getPair, getElem?_append_old h _ f hlt]
  · intro x hx
    exact getElem?_append_old h _ x hx

/-- Witness of C22 at sin(x) paired with the object at address 1: the clone
sits at address 2 and has no partner, address 0 still points to 1. -/
theorem clone_unpaired_witness :
    ∃ h2 f2, FuncHeap.clone
      [⟨"sin", [.IndexExpr "x" .DOMAIN_INDEX], some 1⟩,
        ⟨"cos", [.IndexExpr "x" .DOMAIN_INDEX], some 0⟩] 0 = some (h2, f2) ∧
      h2.getPair f2 = none ∧
      h2.getPair 0 = FuncHeap.getPair
        [⟨"sin", [.IndexExpr "x" .DOMAIN_INDEX], some 1⟩,
          ⟨"cos", [.IndexExpr "x" .DOMAIN_INDEX], some 0⟩] 0 := by
  obtain ⟨h2, f2, h1, h3, h4, -⟩ := clone_unpaired
    [⟨"sin", [.IndexExpr "x" .DOMAIN_INDEX], some 1⟩,
      ⟨"cos", [.IndexExpr "x" .DOMAIN_INDEX], some 0⟩] 0
    ⟨"sin", [.IndexExpr "x" .DOMAIN_INDEX], some 1⟩ rfl
  exact ⟨h2, f2, h1, h3, h4⟩

theorem cloneOps_eq_map (ops : List NumExpr) :
    NumExpr.cloneOps ops = ops.map NumExpr.clone := by
  induction ops with
  | nil => rfl
  | cons op ops ih => simp only [NumExpr.cloneOps, List.map_cons, ih]

theorem equalsExpr_clone_eq (e : EqualsExpr) : e.clone = e := by
  cases e with
  | mk lhs rhs cond step_cond =>
    cases cond <;> cases step_cond <;>
      simp [EqualsExpr.clone, numExpr_clone_eq, boolExpr_clone_eq]

/-- C23: clone() returns a node of the same variant with the same literal
value (Constant), dimension name and index type (DimensionRef), code string
(OpaqueCode), the same operator string and the clones of the operands in the
same number and order (unary, binary, commutative, function call), so the
clone is the same tree; the clone of an Equation has a domain condition iff
the source has one and a step condition iff the source has one. -/
theorem clone_preserves_fields :
    (∀ f, (NumExpr.ConstExpr f).clone = .ConstExpr f) ∧
    (∀ dimName type, (NumExpr.IndexExpr dimName type).clone = .IndexExpr dimName type) ∧
    (∀ code, (NumExpr.CodeExpr code).clone = .CodeExpr code) ∧
    (∀ rhs, (NumExpr.NegExpr rhs).clone = .NegExpr rhs.clone) ∧
    (∀ type lhs rhs,
      (NumExpr.BIN_NUM_EXPR type lhs rhs).clone = .BIN_NUM_EXPR type lhs.clone rhs.clone) ∧
    (∀ type ops, (NumExpr.COMM_EXPR type ops).clone = .COMM_EXPR type (ops.map NumExpr.clone) ∧
      (ops.map NumExpr.clone).length = ops.length) ∧
    (∀ opStr ops, (NumExpr.FuncExpr opStr ops).clone = .FuncExpr opStr (ops.map NumExpr.clone) ∧
      (ops.map NumExpr.clone).length = ops.length) ∧
    (∀ rhs, (BoolExpr.NotExpr rhs).clone = .NotExpr rhs.clone) ∧
    (∀ type lhs rhs,
      (BoolExpr.BIN_NUM2BOOL_EXPR type lhs rhs).clone =
        .BIN_NUM2BOOL_EXPR type lhs.clone rhs.clone) ∧
    (∀ type lhs rhs,
      (BoolExpr.BIN_BOOL_EXPR type lhs rhs).clone = .BIN_BOOL_EXPR type lhs.clone rhs.clone) ∧
    (∀ e : NumExpr, e.clone = e) ∧ (∀ e : BoolExpr, e.clone = e) ∧
    (∀ e : EqualsExpr, (e.clone.cond.isSome = e.cond.isSome ∧
      e.clone.step_cond.isSome = e.step_cond.isSome) ∧ e.clone = e) := by
  refine ⟨fun _ => rfl, fun _ _ => rfl, fun _ => rfl, fun _ => ?_, fun _ _ _ => ?_,
    fun _ ops => ⟨?_, List.length_map _ _⟩, fun _ ops => ⟨?_, List.length_map _ _⟩,
    fun _ => ?_, fun _ _ _ => ?_, fun _ _ _ => ?_,
    numExpr_clone_eq, boolExpr_clone_eq, fun e => ?_⟩
  · simp only [NumExpr.clone]
  · simp only [NumExpr.clone]
  · simp only [NumExpr.clone, cloneOps_eq_map]
  · simp only [NumExpr.clone, cloneOps_eq_map]
  · simp only [BoolExpr.clone]
  · simp only [BoolExpr.clone]
  · simp only [BoolExpr.clone]
  · rw [equalsExpr_clone_eq]
    exact ⟨⟨rfl, rfl⟩, rfl⟩

/-! ## Merging into a commutative node -/

theorem foldl_appendOp (ops2 ops : List NumExpr) :
    ops2.foldl CommutativeExpr.appendOp ops = ops ++ ops2.map NumExpr.clone := by
  induction ops2 generalizing ops with
  | nil => simp
  | cons op ops2 ih =>
    rw [List.foldl_cons, ih]
    simp [CommutativeExpr.appendOp]

/-- C24: for a CommutativeExpr c of class type with operand list ops and a
numeric node op that is not c itself, after c.mergeExpr(op) the operand list
is ops followed by the clones of op's operands in order when op is a
CommutativeExpr with the same operator string, and ops followed by one clone
of op otherwise; the clones are the same trees as the nodes cloned. -/
theorem mergeExpr_splices (type : CommType) (ops : List NumExpr) (op : NumExpr) :
    (∀ type2 ops2, op = .COMM_EXPR type2 ops2 → type2.opStr = type.opStr →
      CommutativeExpr.mergeExpr type ops op = ops ++ ops2.map NumExpr.clone ∧
      CommutativeExpr.mergeExpr type ops op = ops ++ ops2) ∧
    (∀ type2 ops2, op = .COMM_EXPR type2 ops2 → type2.opStr ≠ type.opStr →
      CommutativeExpr.mergeExpr type ops op = ops ++ [op.clone] ∧
      CommutativeExpr.mergeExpr type ops op = ops ++ [op]) ∧
    ((∀ type2 ops2, op ≠ .COMM_EXPR type2 ops2) →
      CommutativeExpr.mergeExpr type ops op = ops ++ [op.clone] ∧
      CommutativeExpr.mergeExpr type ops op = ops ++ [op]) := by
  refine ⟨?_, ?_, ?_⟩
  · rintro type2 ops2 rfl hstr
    have h : CommutativeExpr.mergeExpr type ops (.COMM_EXPR type2 ops2) =
        ops ++ ops2.map NumExpr.clone := by
      simp only [CommutativeExpr.mergeExpr, NumExpr.asCommutativeExpr, hstr, beq_self_eq_true,
        if_true]
      exact foldl_appendOp ops2 ops
    refine ⟨h, ?_⟩
    rw [h, ← cloneOps_eq_map, numExpr_cloneOps_eq]
  · rintro type2 ops2 rfl hstr
    have h : CommutativeExpr.mergeExpr type ops (.COMM_EXPR type2 ops2) =
        ops ++ [(NumExpr.COMM_EXPR type2 ops2).clone] := by
      simp [CommutativeExpr.mergeExpr, NumExpr.asCommutativeExpr, hstr,
        CommutativeExpr.appendOp]
    refine ⟨h, ?_⟩
    rw [h, numExpr_clone_eq]
  · intro hne
    have h : CommutativeExpr.mergeExpr type ops op = ops ++ [op.clone] := by
      cases op with
      | COMM_EXPR type2 ops2 => exact absurd rfl (hne type2 ops2)
      | _ => rfl
    refine ⟨h, ?_⟩
    rw [h, numExpr_clone_eq]

/-- Witness of C24: merging C+D into A+B gives A+B+C+D, and merging E*F into
A+B gives A+B+(E*F). -/
theorem mergeExpr_splices_witness :
    CommutativeExpr.mergeExpr .AddExpr [.CodeExpr "A", .CodeExpr "B"]
      (.COMM_EXPR .AddExpr [.CodeExpr "C", .CodeExpr "D"]) =
      [.CodeExpr "A", .CodeExpr "B"] ++ [.CodeExpr "C", .CodeExpr "D"] ∧
    CommutativeExpr.mergeExpr .AddExpr [.CodeExpr "A", .CodeExpr "B"]
      (.COMM_EXPR .MultExpr [.CodeExpr "E", .CodeExpr "F"]) =
      [.CodeExpr "A", .CodeExpr "B"] ++ [.COMM_EXPR .MultExpr [.CodeExpr "E", .CodeExpr "F"]] :=
  ⟨((mergeExpr_splices .AddExpr [.CodeExpr "A", .CodeExpr "B"]
      (.COMM_EXPR .AddExpr [.CodeExpr "C", .CodeExpr "D"])).1 _ _ rfl rfl).2,
    ((mergeExpr_splices .AddExpr [.CodeExpr "A", .CodeExpr "B"]
      (.COMM_EXPR .MultExpr [.CodeExpr "E", .CodeExpr "F"])).2.1 _ _ rfl (by decide)).2⟩

/-! ## The analysis tags of a VarPoint -/

/-- C29: on a VarPoint, getVecType (resp. getLoopType) fails its assertion
exactly when the tag is VEC_UNSET (resp. LOOP_UNSET) and returns the tag
otherwise; a newly constructed VarPoint has both tags unset; after
setVecType(v) with v != VEC_UNSET getVecType returns v, likewise for the loop
tag; setting one tag does not change the other. -/
theorem tags_set_before_read (p : VarPointObj) :
    ((p.getVecType = none ↔ p.vecType = .VEC_UNSET) ∧
      (p.vecType ≠ .VEC_UNSET → p.getVecType = some p.vecType)) ∧
    ((p.getLoopType = none ↔ p.loopType = .LOOP_UNSET) ∧
      (p.loopType ≠ .LOOP_UNSET → p.getLoopType = some p.loopType)) ∧
    (∀ var args defStr,
      (VarPointObj.new var args defStr).vecType = .VEC_UNSET ∧
      (VarPointObj.new var args defStr).loopType = .LOOP_UNSET ∧
      (VarPointObj.new var args defStr).getVecType = none ∧
      (VarPointObj.new var args defStr).getLoopType = none) ∧
    (∀ v : VecType, v ≠ .VEC_UNSET → (p.setVecType v).getVecType = some v) ∧
    (∀ v : LoopType, v ≠ .LOOP_UNSET → (p.setLoopType v).getLoopType = some v) ∧
    (∀ v : VecType, (p.setVecType v).loopType = p.loopType ∧
      (p.setVecType v).getLoopType = p.getLoopType) ∧
    (∀ v : LoopType, (p.setLoopType v).vecType = p.vecType ∧
      (p.setLoopType v).getVecType = p.getVecType) := by
  refine ⟨⟨?_, ?_⟩, ⟨?_, ?_⟩, fun _ _ _ => ⟨rfl, rfl, rfl, rfl⟩, ?_, ?_,
    fun _ => ⟨rfl, rfl⟩, fun _ => ⟨rfl, rfl⟩⟩
  · unfold VarPointObj.getVecType
    by_cases h : p.vecType = .VEC_UNSET <;> simp [h]
  · intro h
    unfold VarPointObj.getVecType
    rw [if_pos h]
  · unfold VarPointObj.getLoopType
    by_cases h : p.loopType = .LOOP_UNSET <;> simp [h]
  · intro h
    unfold VarPointObj.getLoopType
    rw [if_pos h]
  · intro v hv
    unfold VarPointObj.getVecType VarPointObj.setVecType
    rw [if_pos hv]
  · intro v hv
    unfold VarPointObj.getLoopType VarPointObj.setLoopType
    rw [if_pos hv]

/-- Witness of C29 on a new VarPoint u(x): reading the vector tag fails, and
after setVecType(VEC_FULL) it returns VEC_FULL while the loop tag still
fails. -/
theorem tags_set_before_read_witness :
    (VarPointObj.new "u" [0] "u(x)").getVecType = none ∧
    ((VarPointObj.new "u" [0] "u(x)").setVecType .VEC_FULL).getVecType = some .VEC_FULL ∧
    ((VarPointObj.new "u" [0] "u(x)").setVecType .VEC_FULL).getLoopType = none :=
  ⟨by decide,
    (tags_set_before_read (VarPointObj.new "u" [0] "u(x)")).2.2.2.1 .VEC_FULL (by decide),
    by decide⟩

/-! ## Order of the operands of a commutative node -/

theorem forall₂_numValD (ops : List NumExpr) (hev : ∀ o ∈ ops, ∃ v, o.getNumVal = .ok v) :
    List.Forall₂ (fun (o : NumExpr) (v : ℚ) => o.getNumVal = .ok v) ops
      (ops.map NumExpr.numValD) := by
  induction ops with
  | nil => exact .nil
  | cons op ops ih =>
    rw [List.map_cons]
    refine .cons ?_ (ih (fun o ho => hev o (List.mem_cons_of_mem _ ho)))
    obtain ⟨v, hv⟩ := hev op (List.mem_cons_self _ _)
    simp only [NumExpr.numValD, hv]

theorem oper_right_comm (type : CommType) (b a1 a2 : ℚ) :
    type.oper (type.oper b a1) a2 = type.oper (type.oper b a2) a1 := by
  cases type <;> simp only [CommType.oper] <;> ring

theorem comm_pair_rnd (rnd : ℚ → ℚ) (type : CommType) (a b : NumExpr) (u v : ℚ)
    (ha : a.getNumValRnd rnd = .ok u) (hb : b.getNumValRnd rnd = .ok v)
    (hu : rnd u = u) (hv : rnd v = v) :
    (NumExpr.COMM_EXPR type [a, b]).getNumValRnd rnd = .ok (rnd (type.oper u v)) ∧
    (NumExpr.COMM_EXPR type [b, a]).getNumValRnd rnd = .ok (rnd (type.oper u v)) := by
  cases type with
  | MultExpr =>
    simp only [NumExpr.getNumValRnd, NumExpr.getNumValOpsRnd, ha, hb, CommType.baseVal,
      CommType.oper, one_mul, hu, hv, mul_comm v u, and_self]
  | AddExpr =>
    simp only [NumExpr.getNumValRnd, NumExpr.getNumValOpsRnd, ha, hb, CommType.baseVal,
      CommType.oper, zero_add, hu, hv, add_comm v u, and_self]

/-- Counterexample to C30 as stated: in double arithmetic the AddExpr over
the operands 1e17, 1, -1e17 evaluates to 0, and over the same operands in the
order 1e17, -1e17, 1 it evaluates to 1 (1e17 + 1 rounds to 1e17); the three
operands are doubles, and over exact arithmetic both orders give 1. -/
theorem fold_order_counterexample :
    List.Perm [NumExpr.ConstExpr (10 ^ 17), .ConstExpr 1, .ConstExpr (-10 ^ 17)]
      [NumExpr.ConstExpr (10 ^ 17), .ConstExpr (-10 ^ 17), .ConstExpr 1] ∧
    (round_double (10 ^ 17) = 10 ^ 17 ∧ round_double 1 = 1 ∧
      round_double (-10 ^ 17) = -10 ^ 17) ∧
    (NumExpr.COMM_EXPR .AddExpr
      [.ConstExpr (10 ^ 17), .ConstExpr 1, .ConstExpr (-10 ^ 17)]).getNumValRnd round_double =
      .ok 0 ∧
    (NumExpr.COMM_EXPR .AddExpr
      [.ConstExpr (10 ^ 17), .ConstExpr (-10 ^ 17), .ConstExpr 1]).getNumValRnd round_double =
      .ok 1 ∧
    (NumExpr.COMM_EXPR .AddExpr
      [.ConstExpr (10 ^ 17), .ConstExpr 1, .ConstExpr (-10 ^ 17)]).getNumVal = .ok 1 ∧
    (NumExpr.COMM_EXPR .AddExpr
      [.ConstExpr (10 ^ 17), .ConstExpr (-10 ^ 17), .ConstExpr 1]).getNumVal = .ok 1 := by
  refine ⟨?_, ⟨round_double_1e17, round_double_one, round_double_neg_1e17⟩, ?_, ?_, ?_, ?_⟩
  · exact List.Perm.cons _ (List.Perm.swap _ _ _)
  · simp only [NumExpr.getNumValRnd, NumExpr.getNumValOpsRnd, CommType.baseVal, CommType.oper,
      zero_add, round_double_1e17, round_double_1e17_succ, add_neg_cancel, round_double_zero]
  · simp only [NumExpr.getNumValRnd, NumExpr.getNumValOpsRnd, CommType.baseVal, CommType.oper,
      zero_add, round_double_1e17, add_neg_cancel, round_double_zero, round_double_one]
  · simp only [NumExpr.getNumVal, NumExpr.getNumValOps, CommType.baseVal, CommType.oper]
    norm_num
  · simp only [NumExpr.getNumVal, NumExpr.getNumValOps, CommType.baseVal, CommType.oper]
    norm_num

/-- C30, amended: over exact rational arithmetic (the evaluation without
rounding), for an AddExpr or MultExpr whose operands all evaluate, every
permutation of the operand list evaluates, and to the same number; getNumVal
is a function of the tree, and a constant sub-tree without function calls,
divisions by zero and undefined modulos has exactly one value; in double
arithmetic a node with two operands evaluates to the same number in both
orders. -/
theorem fold_order_independent (type : CommType) (ops ops2 : List NumExpr)
    (hp : ops.Perm ops2) (hev : ∀ o ∈ ops, ∃ v, o.getNumVal = .ok v) :
    (∃ v, (NumExpr.COMM_EXPR type ops).getNumVal = .ok v ∧
      (NumExpr.COMM_EXPR type ops2).getNumVal = .ok v) ∧
    (∀ e : NumExpr, e.getNumValRnd id = e.getNumVal) ∧
    (∀ e : NumExpr, e.operDefined id = true → e.isConstVal = true → e.hasFuncExpr = false →
      ∃! v, e.getNumVal = .ok v) ∧
    (∀ (a b : NumExpr) (u v : ℚ), a.getNumValRnd round_double = .ok u →
      b.getNumValRnd round_double = .ok v → round_double u = u → round_double v = v →
      ∃ w, (NumExpr.COMM_EXPR type [a, b]).getNumValRnd round_double = .ok w ∧
        (NumExpr.COMM_EXPR type [b, a]).getNumValRnd round_double = .ok w) := by
  refine ⟨?_, getNumValRnd_id, ?_, ?_⟩
  · have hev2 : ∀ o ∈ ops2, ∃ v, o.getNumVal = .ok v := fun o ho => hev o (hp.mem_iff.2 ho)
    have h1 := getNumValOps_fold type ops _ (forall₂_numValD ops hev) type.baseVal
    have h2 := getNumValOps_fold type ops2 _ (forall₂_numValD ops2 hev2) type.baseVal
    have hperm : (ops.map NumExpr.numValD).Perm (ops2.map NumExpr.numValD) := hp.map _
    have hfold : (ops.map NumExpr.numValD).foldl type.oper type.baseVal =
        (ops2.map NumExpr.numValD).foldl type.oper type.baseVal :=
      List.Perm.foldl_eq' hperm (fun x _ y _ z => oper_right_comm type z x y) _
    refine ⟨(ops.map NumExpr.numValD).foldl type.oper type.baseVal, ?_, ?_⟩
    · simp only [NumExpr.getNumVal]
      exact h1
    · simp only [NumExpr.getNumVal]
      rw [h2, hfold]
  · intro e hd hc hf
    obtain ⟨v, hv⟩ := (getNumValRnd_ok_iff id e hd).2 ⟨hc, hf⟩
    rw [getNumValRnd_id] at hv
    refine ⟨v, hv, ?_⟩
    intro w hw
    rw [hv] at hw
    simp only [Except.ok.injEq] at hw
    exact hw.symm
  · intro a b u v ha hb hu hv
    exact ⟨_, comm_pair_rnd round_double type a b u v ha hb hu hv⟩

/-- Witness of C30 (amended): 2 + -(3) + (4 - 1) and (4 - 1) + 2 + -(3) have
the same value over exact arithmetic. -/
theorem fold_order_independent_witness :
    ∃ v, (NumExpr.COMM_EXPR .AddExpr [.ConstExpr 2, .NegExpr (.ConstExpr 3),
        .BIN_NUM_EXPR .SubExpr (.ConstExpr 4) (.ConstExpr 1)]).getNumVal = .ok v ∧
      (NumExpr.COMM_EXPR .AddExpr [.BIN_NUM_EXPR .SubExpr (.ConstExpr 4) (.ConstExpr 1),
        .ConstExpr 2, .NegExpr (.ConstExpr 3)]).getNumVal = .ok v :=
  (fold_order_independent .AddExpr
    [.ConstExpr 2, .NegExpr (.ConstExpr 3), .BIN_NUM_EXPR .SubExpr (.ConstExpr 4) (.ConstExpr 1)]
    [.BIN_NUM_EXPR .SubExpr (.ConstExpr 4) (.ConstExpr 1), .ConstExpr 2, .NegExpr (.ConstExpr 3)]
    (@List.perm_append_comm NumExpr [.ConstExpr 2, .NegExpr (.ConstExpr 3)]
      [.BIN_NUM_EXPR .SubExpr (.ConstExpr 4) (.ConstExpr 1)])
    (by
      intro o ho
      simp only [List.mem_cons, List.mem_singleton, List.not_mem_nil, or_false] at ho
      rcases ho with rfl | rfl | rfl
      · exact ⟨_, rfl⟩
      · exact ⟨_, rfl⟩
      · exact ⟨_, rfl⟩)).1

/-! ## Offsets from a dimension -/

theorem getIntVal_const_intCast (i : Int) : (NumExpr.ConstExpr (i : ℚ)).getIntVal = .ok i := by
  simp [NumExpr.getIntVal, NumExpr.getNumVal, trunc_double_intCast]

/-- C26: isOffsetFrom("x", o) returns true with o = 0 for DimensionRef("x"),
true with o = -1 for x-1, true with o = 2 for x+2 (and 2+x), and returns
false, leaving o as it was, for x*2 and for y-1. -/
theorem offset_examples (o : Int) :
    (NumExpr.IndexExpr "x" .DOMAIN_INDEX).isOffsetFrom "x" o = .ok (true, 0) ∧
    (NumExpr.BIN_NUM_EXPR .SubExpr (.IndexExpr "x" .DOMAIN_INDEX) (.ConstExpr 1)).isOffsetFrom
      "x" o = .ok (true, -1) ∧
    (NumExpr.COMM_EXPR .AddExpr [.IndexExpr "x" .DOMAIN_INDEX, .ConstExpr 2]).isOffsetFrom
      "x" o = .ok (true, 2) ∧
    (NumExpr.COMM_EXPR .AddExpr [.ConstExpr 2, .IndexExpr "x" .DOMAIN_INDEX]).isOffsetFrom
      "x" o = .ok (true, 2) ∧
    (NumExpr.COMM_EXPR .MultExpr [.IndexExpr "x" .DOMAIN_INDEX, .ConstExpr 2]).isOffsetFrom
      "x" o = .ok (false, o) ∧
    (NumExpr.BIN_NUM_EXPR .SubExpr (.IndexExpr "y" .DOMAIN_INDEX) (.ConstExpr 1)).isOffsetFrom
      "x" o = .ok (false, o) := by
  have h1 : (NumExpr.ConstExpr 1).getIntVal = .ok 1 := by
    have := getIntVal_const_intCast 1
    simpa using this
  have h2 : (NumExpr.ConstExpr 2).getIntVal = .ok 2 := by
    have := getIntVal_const_intCast 2
    simpa using this
  refine ⟨?_, ?_, ?_, ?_, ?_, ?_⟩
  · simp [NumExpr.isOffsetFrom, IndexExpr.isOffsetFrom]
  · simp [NumExpr.isOffsetFrom, BinNumType.isOffsetFrom, h1]
  · simp [NumExpr.isOffsetFrom, CommType.isOffsetFrom, h2]
  · simp [NumExpr.isOffsetFrom, CommType.isOffsetFrom, h2]
  · simp [NumExpr.isOffsetFrom, CommType.isOffsetFrom]
  · simp [NumExpr.isOffsetFrom, BinNumType.isOffsetFrom]

/-- C27: for every node that is a Constant, an OpaqueCode fragment, a unary
negation, a FunctionCall or a VarPoint, and every dimension name dim,
isOffsetFrom(dim, offset) returns false and leaves offset unchanged. -/
theorem offset_default (dim : String) (offset : Int) :
    (∀ f, (NumExpr.ConstExpr f).isOffsetFrom dim offset = .ok (false, offset)) ∧
    (∀ code, (NumExpr.CodeExpr code).isOffsetFrom dim offset = .ok (false, offset)) ∧
    (∀ rhs, (NumExpr.NegExpr rhs).isOffsetFrom dim offset = .ok (false, offset)) ∧
    (∀ opStr ops, (NumExpr.FuncExpr opStr ops).isOffsetFrom dim offset = .ok (false, offset)) ∧
    (∀ var args defStr,
      (NumExpr.VarPoint var args defStr).isOffsetFrom dim offset = .ok (false, offset)) :=
  ⟨fun _ => rfl, fun _ => rfl, fun _ => rfl, fun _ _ => rfl, fun _ _ _ => rfl⟩

/-! ## Renderings of nodes that are the same -/

/-- C25, the code at the failing input, with what does hold: two VarPoints
that are isSame have the same makeStr() and the same hash, two DimensionRefs
that are isSame have the same format() and makeStr(); but the negation of 1
is isSame to 2 - 1 (the defect of C14) and the two render differently,
whatever the number format. -/
theorem isSame_rendering (fmt : ℚ → String) (hashString : String → Nat) :
    (∀ var args defStr var2 args2 defStr2,
      (NumExpr.VarPoint var args defStr).isSame (.VarPoint var2 args2 defStr2) = true →
      (NumExpr.VarPoint var args defStr).makeStr fmt =
        (NumExpr.VarPoint var2 args2 defStr2).makeStr fmt ∧
      VarPoint.hash hashString fmt (.VarPoint var args defStr) =
        VarPoint.hash hashString fmt (.VarPoint var2 args2 defStr2)) ∧
    (∀ dimName type dimName2 type2,
      (NumExpr.IndexExpr dimName type).isSame (.IndexExpr dimName2 type2) = true →
      IndexExpr.format dimName type = IndexExpr.format dimName2 type2 ∧
      (NumExpr.IndexExpr dimName type).makeStr fmt =
        (NumExpr.IndexExpr dimName2 type2).makeStr fmt) ∧
    ((NumExpr.NegExpr (.ConstExpr 1)).isSame
        (.BIN_NUM_EXPR .SubExpr (.ConstExpr 2) (.ConstExpr 1)) = true ∧
      (NumExpr.NegExpr (.ConstExpr 1)).makeStr fmt ≠
        (NumExpr.BIN_NUM_EXPR .SubExpr (.ConstExpr 2) (.ConstExpr 1)).makeStr fmt) := by
  refine ⟨?_, ?_, ?_, ?_⟩
  · intro var args defStr var2 args2 defStr2 h
    simp only [NumExpr.isSame, beq_iff_eq] at h
    simp only [VarPoint.hash, NumExpr.makeStr, h, and_self]
  · intro dimName type dimName2 type2 h
    simp only [NumExpr.isSame, Bool.and_eq_true, beq_iff_eq] at h
    simp only [NumExpr.makeStr, h.1, h.2, and_self]
  · decide
  · intro h
    have hd := congrArg String.data h
    simp [NumExpr.makeStr, NegExpr.opStr] at hd

/-! ## Pair links -/

theorem tile_size (ab s b e n i : Int) (hs : 1 ≤ s) (hb : b < ab + s) (hbe : b < e)
    (hn1 : (n - 1) * s < e - ab) (hi0 : 0 ≤ i) (hi : i < n) :
    max (ab + i * s) b < min (ab + (i + 1) * s) e ∧
    min (ab + (i + 1) * s) e - max (ab + i * s) b ≤ s ∧
    (0 < i → i < n - 1 → min (ab + (i + 1) * s) e - max (ab + i * s) b = s) := by
  have h1 : i * s ≤ (n - 1) * s := mul_le_mul_of_nonneg_right (by omega) (by omega)
  have h2 : 0 ≤ i * s := mul_nonneg hi0 (by omega)
  refine ⟨?_, ?_, ?_⟩
  · rw [max_lt_iff, lt_min_iff, lt_min_iff]
    refine ⟨⟨by linarith, by linarith⟩, by linarith, hbe⟩
  · have h3 := min_le_left (ab + (i + 1) * s) e
    have h4 := le_max_left (ab + i * s) b
    linarith
  · intro hpos hlast
    have h5 : (i + 1) * s ≤ (n - 1) * s := mul_le_mul_of_nonneg_right (by omega) (by omega)
    have h6 : 1 * s ≤ i * s := mul_le_mul_of_nonneg_right (by omega) (by omega)
    rw [min_eq_left (by linarith), max_eq_left (by linarith)]
    ring

/-- C31: in a scanned dimension with begin < end, stride >= 1 and align >= 1,
every tile index i in [0, num_iters) has start < stop and
stop - start <= stride, and every tile other than the first and the last has
stop - start = stride. -/
theorem no_empty_tiles (r : ScanIndices) :
    (r.begin 1 < r.end_ 1 → 1 ≤ r.stride 1 → 1 ≤ r.align 1 →
      ∀ i : Int, 0 ≤ i → i < num_iters_1 r →
        start_1 r i < stop_1 r i ∧ stop_1 r i - start_1 r i ≤ r.stride 1 ∧
        (0 < i → i < num_iters_1 r - 1 → stop_1 r i - start_1 r i = r.stride 1)) ∧
    (r.begin 2 < r.end_ 2 → 1 ≤ r.stride 2 → 1 ≤ r.align 2 →
      ∀ i : Int, 0 ≤ i → i < num_iters_2 r →
        start_2 r i < stop_2 r i ∧ stop_2 r i - start_2 r i ≤ r.stride 2 ∧
        (0 < i → i < num_iters_2 r - 1 → stop_2 r i - start_2 r i = r.stride 2)) := by
  constructor
  · intro hb hs ha i hi0 hi
    have hab := aligned_begin_1_bounds r hs ha
    have hadj := adj_align_1_pos r hs ha
    exact tile_size (aligned_begin_1 r) (r.stride 1) (r.begin 1) (r.end_ 1) (num_iters_1 r) i
      hs (by linarith) hb (num_iters_1_bracket r hs).1 hi0 hi
  · intro hb hs ha i hi0 hi
    have hab := aligned_begin_2_bounds r hs ha
    have hadj := adj_align_2_pos r hs ha
    exact tile_size (aligned_begin_2 r) (r.stride 2) (r.begin 2) (r.end_ 2) (num_iters_2 r) i
      hs (by linarith) hb (num_iters_2_bracket r hs).1 hi0 hi

/-- Witness of C31 at begin = 5, end = 20, stride = 4, align = 4: tile 1 is
[8, 12), a full stride, and tile 0 is [5, 8). -/
theorem no_empty_tiles_witness :
    stop_1 (mkScan 5 20 4 4 0 0 10 3 1 0) 1 - start_1 (mkScan 5 20 4 4 0 0 10 3 1 0) 1 = 4 ∧
    start_1 (mkScan 5 20 4 4 0 0 10 3 1 0) 0 < stop_1 (mkScan 5 20 4 4 0 0 10 3 1 0) 0 ∧
    stop_1 (mkScan 5 20 4 4 0 0 10 3 1 0) 0 - start_1 (mkScan 5 20 4 4 0 0 10 3 1 0) 0 = 3 :=
  ⟨((no_empty_tiles (mkScan 5 20 4 4 0 0 10 3 1 0)).1 (by decide) (by decide) (by decide) 1
      (by decide) (by decide)).2.2 (by decide) (by decide),
    ((no_empty_tiles (mkScan 5 20 4 4 0 0 10 3 1 0)).1 (by decide) (by decide) (by decide) 0
      (by decide) (by decide)).1,
    by decide⟩

theorem later_tile_start (ab s b i : Int) (hs : 1 ≤ s) (hb : b < ab + s) (hi : 1 ≤ i) :
    max (ab + i * s) b = ab + i * s := by
  have h : 1 * s ≤ i * s := mul_le_mul_of_nonneg_right hi (by omega)
  exact max_eq_left (by linarith)

/-- C32: in a scanned dimension with begin < end, stride >= 1, align >= 1 and
adj_align = min(align, stride) dividing stride, every tile with index i >= 1
has start - align_ofs divisible by adj_align, while tile 0 starts at begin;
when adj_align does not divide stride the later starts need not be aligned:
with begin = 0, stride = 3, align = 2, align_ofs = 0, tile 1 starts at 3. -/
theorem aligned_tile_starts (r : ScanIndices) :
    (r.begin 1 < r.end_ 1 → 1 ≤ r.stride 1 → 1 ≤ r.align 1 →
      start_1 r 0 = r.begin 1 ∧
      (adj_align_1 r ∣ r.stride 1 →
        ∀ i : Int, 1 ≤ i → adj_align_1 r ∣ start_1 r i - r.align_ofs 1)) ∧
    (r.begin 2 < r.end_ 2 → 1 ≤ r.stride 2 → 1 ≤ r.align 2 →
      start_2 r 0 = r.begin 2 ∧
      (adj_align_2 r ∣ r.stride 2 →
        ∀ i : Int, 1 ≤ i → adj_align_2 r ∣ start_2 r i - r.align_ofs 2)) ∧
    (adj_align_1 (mkScan 0 10 3 2 0 0 10 3 2 0) = 2 ∧
      ¬ (adj_align_1 (mkScan 0 10 3 2 0 0 10 3 2 0) ∣ (mkScan 0 10 3 2 0 0 10 3 2 0).stride 1) ∧
      start_1 (mkScan 0 10 3 2 0 0 10 3 2 0) 1 = 3 ∧
      ¬ (adj_align_1 (mkScan 0 10 3 2 0 0 10 3 2 0) ∣
        start_1 (mkScan 0 10 3 2 0 0 10 3 2 0) 1 - (mkScan 0 10 3 2 0 0 10 3 2 0).align_ofs 1)) := by
  refine ⟨?_, ?_, by decide⟩
  · intro _ hs ha
    have hab := aligned_begin_1_bounds r hs ha
    have hadj := adj_align_1_pos r hs ha
    refine ⟨tile_first _ _ _ hab.1, ?_⟩
    intro hdvd i hi
    have hst : start_1 r i = aligned_begin_1 r + i * r.stride 1 :=
      later_tile_start _ _ _ i hs (by linarith) hi
    have h1 : adj_align_1 r ∣ aligned_begin_1 r - r.align_ofs 1 := by
      unfold aligned_begin_1
      rw [add_sub_cancel_right]
      exact dvd_round_down_flr _ _
    have h2 : start_1 r i - r.align_ofs 1 =
        (aligned_begin_1 r - r.align_ofs 1) + i * r.stride 1 := by
      rw [hst]
      ring
    rw [h2]
    exact dvd_add h1 (Dvd.dvd.mul_left hdvd i)
  · intro _ hs ha
    have hab := aligned_begin_2_bounds r hs ha
    have hadj := adj_align_2_pos r hs ha
    refine ⟨tile_first _ _ _ hab.1, ?_⟩
    intro hdvd i hi
    have hst : start_2 r i = aligned_begin_2 r + i * r.stride 2 :=
      later_tile_start _ _ _ i hs (by linarith) hi
    have h1 : adj_align_2 r ∣ aligned_begin_2 r - r.align_ofs 2 := by
      unfold aligned_begin_2
      rw [add_sub_cancel_right]
      exact dvd_round_down_flr _ _
    have h2 : start_2 r i - r.align_ofs 2 =
        (aligned_begin_2 r - r.align_ofs 2) + i * r.stride 2 := by
      rw [hst]
      ring
    rw [h2]
    exact dvd_add h1 (Dvd.dvd.mul_left hdvd i)

/-- Witness of C32 at begin = 5, end = 20, stride = 4, align = 2,
align_ofs = 1: tile 1 starts at 9, and 9 - 1 is a multiple of 2. -/
theorem aligned_tile_starts_witness :
    start_1 (mkScan 5 20 4 2 1 0 10 3 1 0) 1 = 9 ∧
    adj_align_1 (mkScan 5 20 4 2 1 0 10 3 1 0) ∣
      start_1 (mkScan 5 20 4 2 1 0 10 3 1 0) 1 - (mkScan 5 20 4 2 1 0 10 3 1 0).align_ofs 1 :=
  ⟨by decide,
    ((aligned_tile_starts (mkScan 5 20 4 2 1 0 10 3 1 0)).1 (by decide) (by decide)
      (by decide)).2 (by decide) 1 (by decide)⟩

/-! ## Symmetry of isSame -/

/-- C33, the code at the failing input: for a = -(1) and b = 2 - 1,
a.isSame(b) is true and b.isSame(a) is false, because `UnaryExpr::isSame`
accepts every node derived from `UnaryNumExpr` while `BinaryExpr::isSame`
accepts binary nodes only; the same holds with any node x in place of 1
that is isSame to itself and any lhs in place of 2. -/
theorem isSame_not_symmetric :
    (Expr.num (.NegExpr (.ConstExpr 1))).isSame
      (.num (.BIN_NUM_EXPR .SubExpr (.ConstExpr 2) (.ConstExpr 1))) = true ∧
    (Expr.num (.BIN_NUM_EXPR .SubExpr (.ConstExpr 2) (.ConstExpr 1))).isSame
      (.num (.NegExpr (.ConstExpr 1))) = false ∧
    (∀ x lhs : NumExpr, x.isSame x = true →
      (NumExpr.NegExpr x).isSame (.BIN_NUM_EXPR .SubExpr lhs x) = true ∧
      (NumExpr.BIN_NUM_EXPR .SubExpr lhs x).isSame (.NegExpr x) = false) := by
  refine ⟨by decide, by decide, ?_⟩
  intro x lhs hx
  constructor
  · simp [NumExpr.isSame, NumExpr.asUnaryNumExpr, NegExpr.opStr, BinNumType.opStr, hx]
  · simp [NumExpr.isSame, NumExpr.asBinaryNumExpr]

/-! ## Values after merging -/

theorem getNumValOps_evaluable (type : CommType) (ops : List NumExpr) :
    ∀ (val r : ℚ), NumExpr.getNumValOps type val ops = .ok r →
      ∀ o ∈ ops, ∃ v, o.getNumVal = .ok v := by
  induction ops with
  | nil =>
    intro _ _ _ o ho
    simp at ho
  | cons op ops ih =>
    intro val r h o ho
    simp only [NumExpr.getNumValOps] at h
    cases hr : op.getNumVal with
    | error err =>
      rw [hr] at h
      simp at h
    | ok w =>
      rw [hr] at h
      rcases List.mem_cons.1 ho with rfl | hmem
      · exact ⟨w, hr⟩
      · exact ih _ r h o hmem

theorem getNumValOps_eq_fold (type : CommType) (ops : List NumExpr) (val r : ℚ)
    (h : NumExpr.getNumValOps type val ops = .ok r) :
    r = (ops.map NumExpr.numValD).foldl type.oper val := by
  have hev := getNumValOps_evaluable type ops val r h
  have h2 := getNumValOps_fold type ops _ (forall₂_numValD ops hev) val
  rw [h2] at h
  simp only [Except.ok.injEq] at h
  exact h.symm

theorem foldl_oper_base (type : CommType) (vals : List ℚ) (val : ℚ) :
    vals.foldl type.oper val = type.oper val (vals.foldl type.oper type.baseVal) := by
  induction vals using List.reverseRecOn with
  | nil => cases type <;> simp [CommType.oper, CommType.baseVal]
  | append_singleton vals v ih =>
    rw [List.foldl_append, List.foldl_append, List.foldl_cons, List.foldl_cons, List.foldl_nil,
      List.foldl_nil, ih]
    cases type <;> simp only [CommType.oper] <;> ring

theorem opStr_injective (type type2 : CommType) (h : type2.opStr = type.opStr) :
    type2 = type := by
  cases type <;> cases type2 <;> first | rfl | exact absurd h (by decide)

theorem mergeExpr_same (type : CommType) (ops ops2 : List NumExpr) :
    CommutativeExpr.mergeExpr type ops (.COMM_EXPR type ops2) = ops ++ ops2 := by
  simp only [CommutativeExpr.mergeExpr, NumExpr.asCommutativeExpr, beq_self_eq_true, if_true]
  rw [foldl_appendOp, ← cloneOps_eq_map, numExpr_cloneOps_eq]

theorem mergeExpr_whole (type : CommType) (ops : List NumExpr) (op : NumExpr)
    (h : CommutativeExpr.sameOp type op = false) :
    CommutativeExpr.mergeExpr type ops op = ops ++ [op] := by
  cases op with
  | COMM_EXPR type2 ops2 =>
    simp only [CommutativeExpr.sameOp, NumExpr.asCommutativeExpr] at h
    simp only [CommutativeExpr.mergeExpr, NumExpr.asCommutativeExpr, h, Bool.false_eq_true,
      if_false, CommutativeExpr.appendOp, numExpr_clone_eq]
  | _ => simp only [CommutativeExpr.mergeExpr, NumExpr.asCommutativeExpr,
      CommutativeExpr.appendOp, numExpr_clone_eq]

theorem sameOp_cases (type : CommType) (op : NumExpr) :
    CommutativeExpr.sameOp type op = false ∨ ∃ ops2, op = .COMM_EXPR type ops2 := by
  cases op with
  | COMM_EXPR type2 ops2 =>
    by_cases h : type2.opStr = type.opStr
    · exact Or.inr ⟨ops2, by rw [opStr_injective type type2 h]⟩
    · left
      simp [CommutativeExpr.sameOp, NumExpr.asCommutativeExpr, h]
  | _ => exact Or.inl rfl

theorem getNumVal_comm_fold (type : CommType) (ops : List NumExpr) (v : ℚ)
    (h : (NumExpr.COMM_EXPR type ops).getNumVal = .ok v) :
    (∀ o ∈ ops, ∃ w, o.getNumVal = .ok w) ∧
      v = (ops.map NumExpr.numValD).foldl type.oper type.baseVal := by
  simp only [NumExpr.getNumVal] at h
  exact ⟨getNumValOps_evaluable type ops _ v h, getNumValOps_eq_fold type ops _ v h⟩

theorem merged_value (type : CommType) (ops : List NumExpr) (op : NumExpr) (vc vo : ℚ)
    (hc : (NumExpr.COMM_EXPR type ops).getNumVal = .ok vc) (ho : op.getNumVal = .ok vo) :
    (NumExpr.COMM_EXPR type (CommutativeExpr.mergeExpr type ops op)).getNumVal =
      .ok (type.oper vc vo) := by
  obtain ⟨hev, hvc⟩ := getNumVal_comm_fold type ops vc hc
  rcases sameOp_cases type op with hs | ⟨ops2, rfl⟩
  · rw [mergeExpr_whole type ops op hs]
    have hev2 : ∀ o ∈ ops ++ [op], ∃ w, o.getNumVal = .ok w := by
      intro o hmem
      rcases List.mem_append.1 hmem with h1 | h1
      · exact hev o h1
      · rw [List.mem_singleton.1 h1]
        exact ⟨vo, ho⟩
    have h2 := getNumValOps_fold type _ _ (forall₂_numValD _ hev2) type.baseVal
    simp only [NumExpr.getNumVal]
    rw [h2, List.map_append, List.foldl_append, ← hvc]
    simp only [List.map_cons, List.map_nil, List.foldl_cons, List.foldl_nil, NumExpr.numValD, ho]
  · obtain ⟨hevo, hvo⟩ := getNumVal_comm_fold type ops2 vo ho
    rw [mergeExpr_same]
    have hev2 : ∀ o ∈ ops ++ ops2, ∃ w, o.getNumVal = .ok w := by
      intro o hmem
      rcases List.mem_append.1 hmem with h1 | h1
      · exact hev o h1
      · exact hevo o h1
    have h2 := getNumValOps_fold type _ _ (forall₂_numValD _ hev2) type.baseVal
    simp only [NumExpr.getNumVal]
    rw [h2, List.map_append, List.foldl_append, ← hvc, foldl_oper_base, ← hvo]

/-- C34: over exact arithmetic, for an AddExpr (resp. MultExpr) c that
evaluates to vc and a numeric node op, not c itself, that evaluates to vo, c
evaluates after c.mergeExpr(op) to vc + vo (resp. vc * vo), whether op was
spliced in or appended whole. -/
theorem merge_preserves_value (ops : List NumExpr) (op : NumExpr) (vc vo : ℚ)
    (ho : op.getNumVal = .ok vo) :
    ((NumExpr.COMM_EXPR .AddExpr ops).getNumVal = .ok vc →
      (NumExpr.COMM_EXPR .AddExpr (CommutativeExpr.mergeExpr .AddExpr ops op)).getNumVal =
        .ok (vc + vo)) ∧
    ((NumExpr.COMM_EXPR .MultExpr ops).getNumVal = .ok vc →
      (NumExpr.COMM_EXPR .MultExpr (CommutativeExpr.mergeExpr .MultExpr ops op)).getNumVal =
        .ok (vc * vo)) :=
  ⟨fun hc => merged_value .AddExpr ops op vc vo hc ho,
    fun hc => merged_value .MultExpr ops op vc vo hc ho⟩

/-- Witness of C34: merging 3 + 4 (spliced) into 1 + 2 gives the value
3 + 7, and merging 3 * 4 (appended whole) gives 3 + 12. -/
theorem merge_preserves_value_witness :
    (NumExpr.COMM_EXPR .AddExpr (CommutativeExpr.mergeExpr .AddExpr [.ConstExpr 1, .ConstExpr 2]
      (.COMM_EXPR .AddExpr [.ConstExpr 3, .ConstExpr 4]))).getNumVal = .ok (0 + 1 + 2 + (0 + 3 + 4)) ∧
    (NumExpr.COMM_EXPR .AddExpr (CommutativeExpr.mergeExpr .AddExpr [.ConstExpr 1, .ConstExpr 2]
      (.COMM_EXPR .MultExpr [.ConstExpr 3, .ConstExpr 4]))).getNumVal = .ok (0 + 1 + 2 + 1 * 3 * 4) :=
  ⟨(merge_preserves_value [.ConstExpr 1, .ConstExpr 2]
      (.COMM_EXPR .AddExpr [.ConstExpr 3, .ConstExpr 4]) (0 + 1 + 2) (0 + 3 + 4) rfl).1 rfl,
    (merge_preserves_value [.ConstExpr 1, .ConstExpr 2]
      (.COMM_EXPR .MultExpr [.ConstExpr 3, .ConstExpr 4]) (0 + 1 + 2) (1 * 3 * 4) rfl).1 rfl⟩

/-! ## Flatness of commutative nodes -/

theorem flat_append (type : CommType) (ops ops2 : List NumExpr) :
    CommutativeExpr.flat type (ops ++ ops2) =
      (CommutativeExpr.flat type ops && CommutativeExpr.flat type ops2) := by
  unfold CommutativeExpr.flat
  rw [List.all_append]

theorem sameOp_comm_self (type : CommType) (ops2 : List NumExpr) :
    CommutativeExpr.sameOp type (.COMM_EXPR type ops2) = true := by
  simp [CommutativeExpr.sameOp, NumExpr.asCommutativeExpr]

theorem flat_mergeExpr (type : CommType) (ops : List NumExpr) (op : NumExpr)
    (hc : CommutativeExpr.flat type ops = true)
    (hop : (∃ type2 ops2, op = .COMM_EXPR type2 ops2 ∧ CommutativeExpr.flat type2 ops2 = true) ∨
      CommutativeExpr.sameOp type op = false) :
    CommutativeExpr.flat type (CommutativeExpr.mergeExpr type ops op) = true := by
  rcases sameOp_cases type op with hs | ⟨ops2, rfl⟩
  · rw [mergeExpr_whole type ops op hs, flat_append, hc]
    simp [CommutativeExpr.flat, hs]
  · rw [mergeExpr_same, flat_append, hc]
    rcases hop with ⟨type2, ops3, heq, hflat⟩ | hs
    · injection heq with h1 h2
      subst h1
      subst h2
      rw [hflat]
      rfl
    · rw [sameOp_comm_self] at hs
      exact absurd hs (by decide)

/-- C35: call a CommutativeExpr flat when none of its direct operands is a
CommutativeExpr with the same operator string. If c is flat and op is either
a flat CommutativeExpr or not a same-operator CommutativeExpr, c is still
flat after c.mergeExpr(op); a node built by the empty constructor followed by
mergeExpr calls with such operands is flat; appendOp does not keep flatness:
appending C+D to the flat A+B gives a node that is not flat. -/
theorem flatness_invariant (type : CommType) :
    (∀ (ops : List NumExpr) (op : NumExpr), CommutativeExpr.flat type ops = true →
      ((∃ type2 ops2, op = .COMM_EXPR type2 ops2 ∧ CommutativeExpr.flat type2 ops2 = true) ∨
        CommutativeExpr.sameOp type op = false) →
      CommutativeExpr.flat type (CommutativeExpr.mergeExpr type ops op) = true) ∧
    (CommutativeExpr.flat type [] = true ∧
      ∀ merged : List NumExpr,
        (∀ op ∈ merged,
          (∃ type2 ops2, op = .COMM_EXPR type2 ops2 ∧ CommutativeExpr.flat type2 ops2 = true) ∨
            CommutativeExpr.sameOp type op = false) →
        CommutativeExpr.flat type (merged.foldl (CommutativeExpr.mergeExpr type) []) = true) ∧
    (CommutativeExpr.flat .AddExpr [.CodeExpr "A", .CodeExpr "B"] = true ∧
      CommutativeExpr.flat .AddExpr (CommutativeExpr.appendOp [.CodeExpr "A", .CodeExpr "B"]
        (.COMM_EXPR .AddExpr [.CodeExpr "C", .CodeExpr "D"])) = false) := by
  refine ⟨flat_mergeExpr type, ⟨rfl, ?_⟩, ⟨by decide, by decide⟩⟩
  have hgen : ∀ (merged ops : List NumExpr), CommutativeExpr.flat type ops = true →
      (∀ op ∈ merged,
        (∃ type2 ops2, op = .COMM_EXPR type2 ops2 ∧ CommutativeExpr.flat type2 ops2 = true) ∨
          CommutativeExpr.sameOp type op = false) →
      CommutativeExpr.flat type (merged.foldl (CommutativeExpr.mergeExpr type) ops) = true := by
    intro merged
    induction merged with
    | nil =>
      intro ops hc _
      exact hc
    | cons op merged ih =>
      intro ops hc hall
      rw [List.foldl_cons]
      exact ih _ (flat_mergeExpr type ops op hc (hall op (List.mem_cons_self _ _)))
        (fun o ho => hall o (List.mem_cons_of_mem _ ho))
  intro merged hall
  exact hgen merged [] rfl hall

/-- Witness of C35: merging the flat C+D and then E*F into an empty AddExpr
gives the flat operand list C, D, E*F. -/
theorem flatness_invariant_witness :
    CommutativeExpr.flat .AddExpr
      ([NumExpr.COMM_EXPR .AddExpr [.CodeExpr "C", .CodeExpr "D"],
        .COMM_EXPR .MultExpr [.CodeExpr "E", .CodeExpr "F"]].foldl
        (CommutativeExpr.mergeExpr .AddExpr) []) = true ∧
    [NumExpr.COMM_EXPR .AddExpr [.CodeExpr "C", .CodeExpr "D"],
        .COMM_EXPR .MultExpr [.CodeExpr "E", .CodeExpr "F"]].foldl
        (CommutativeExpr.mergeExpr .AddExpr) [] =
      [.CodeExpr "C", .CodeExpr "D", .COMM_EXPR .MultExpr [.CodeExpr "E", .CodeExpr "F"]] :=
  ⟨(flatness_invariant .AddExpr).2.1.2 _ (by
      intro op hop
      simp only [List.mem_cons, List.mem_singleton, List.not_mem_nil, or_false] at hop
      rcases hop with rfl | rfl
      · exact Or.inl ⟨_, _, rfl, by decide⟩
      · exact Or.inr (by decide)),
    rfl⟩

/-! ## Strict boolean evaluation -/

theorem getBoolVal_bin_bool_ok (type : BinBoolType) (l r : BoolExpr) (a b : Bool)
    (hl : l.getBoolVal = .ok a) (hr : r.getBoolVal = .ok b) :
    (BoolExpr.BIN_BOOL_EXPR type l r).getBoolVal = .ok (type.oper a b) := by
  rw [BoolExpr.getBoolVal, hl, hr]

theorem getBoolVal_bin_bool_left (type : BinBoolType) (l r : BoolExpr) (err : YaskError)
    (hl : l.getBoolVal = .error err) :
    (BoolExpr.BIN_BOOL_EXPR type l r).getBoolVal = .error err := by
  rw [BoolExpr.getBoolVal, hl]

theorem getBoolVal_bin_bool_right (type : BinBoolType) (l r : BoolExpr) (a : Bool)
    (err : YaskError) (hl : l.getBoolVal = .ok a) (hr : r.getBoolVal = .error err) :
    (BoolExpr.BIN_BOOL_EXPR type l r).getBoolVal = .error err := by
  rw [BoolExpr.getBoolVal, hl, hr]

theorem getBoolVal_num2bool_ok (type : Num2BoolType) (x y : NumExpr) (u v : ℚ)
    (hx : x.getNumVal = .ok u) (hy : y.getNumVal = .ok v) :
    (BoolExpr.BIN_NUM2BOOL_EXPR type x y).getBoolVal = .ok (type.oper u v) := by
  rw [BoolExpr.getBoolVal, hx, hy]

theorem getBoolVal_num2bool_left (type : Num2BoolType) (x y : NumExpr) (err : YaskError)
    (hx : x.getNumVal = .error err) :
    (BoolExpr.BIN_NUM2BOOL_EXPR type x y).getBoolVal = .error err := by
  rw [BoolExpr.getBoolVal, hx]

theorem getBoolVal_num2bool_right (type : Num2BoolType) (x y : NumExpr) (u : ℚ)
    (err : YaskError) (hx : x.getNumVal = .ok u) (hy : y.getNumVal = .error err) :
    (BoolExpr.BIN_NUM2BOOL_EXPR type x y).getBoolVal = .error err := by
  rw [BoolExpr.getBoolVal, hx, hy]

/-- C36: boolean evaluation is strict. For an AndExpr or OrExpr over l and r,
getBoolVal returns a value exactly when both operands evaluate, and then it
is their logical and, resp. or; when l fails the node fails with the error of
l, and when l evaluates and r fails the node fails with the error of r, also
for false && r and true || r. A comparison node over x and y returns the
comparison of the two operand values when both evaluate, and fails with the
error of the first operand that does not. -/
theorem strict_bool_eval (l r : BoolExpr) (x y : NumExpr) :
    (∀ a b, l.getBoolVal = .ok a → r.getBoolVal = .ok b →
      (BoolExpr.BIN_BOOL_EXPR .AndExpr l r).getBoolVal = .ok (a && b) ∧
      (BoolExpr.BIN_BOOL_EXPR .OrExpr l r).getBoolVal = .ok (a || b)) ∧
    (∀ err, l.getBoolVal = .error err →
      ∀ type, (BoolExpr.BIN_BOOL_EXPR type l r).getBoolVal = .error err) ∧
    (∀ a err, l.getBoolVal = .ok a → r.getBoolVal = .error err →
      ∀ type, (BoolExpr.BIN_BOOL_EXPR type l r).getBoolVal = .error err) ∧
    (∀ err, l.getBoolVal = .ok false → r.getBoolVal = .error err →
      (BoolExpr.BIN_BOOL_EXPR .AndExpr l r).getBoolVal = .error err) ∧
    (∀ err, l.getBoolVal = .ok true → r.getBoolVal = .error err →
      (BoolExpr.BIN_BOOL_EXPR .OrExpr l r).getBoolVal = .error err) ∧
    (∀ type c, (BoolExpr.BIN_BOOL_EXPR type l r).getBoolVal = .ok c →
      ∃ a b, l.getBoolVal = .ok a ∧ r.getBoolVal = .ok b) ∧
    (∀ u v, x.getNumVal = .ok u → y.getNumVal = .ok v →
      (BoolExpr.BIN_NUM2BOOL_EXPR .IsEqualExpr x y).getBoolVal = .ok (decide (u = v)) ∧
      (BoolExpr.BIN_NUM2BOOL_EXPR .NotEqualExpr x y).getBoolVal = .ok (decide (u ≠ v)) ∧
      (BoolExpr.BIN_NUM2BOOL_EXPR .IsLessExpr x y).getBoolVal = .ok (decide (u < v)) ∧
      (BoolExpr.BIN_NUM2BOOL_EXPR .NotLessExpr x y).getBoolVal = .ok (decide (u ≥ v)) ∧
      (BoolExpr.BIN_NUM2BOOL_EXPR .IsGreaterExpr x y).getBoolVal = .ok (decide (u > v)) ∧
      (BoolExpr.BIN_NUM2BOOL_EXPR .NotGreaterExpr x y).getBoolVal = .ok (decide (u ≤ v))) ∧
    (∀ err, x.getNumVal = .error err →
      ∀ type, (BoolExpr.BIN_NUM2BOOL_EXPR type x y).getBoolVal = .error err) ∧
    (∀ u err, x.getNumVal = .ok u → y.getNumVal = .error err →
      ∀ type, (BoolExpr.BIN_NUM2BOOL_EXPR type x y).getBoolVal = .error err) ∧
    (∀ type c, (BoolExpr.BIN_NUM2BOOL_EXPR type x y).getBoolVal = .ok c →
      ∃ u v, x.getNumVal = .ok u ∧ y.getNumVal = .ok v) := by
  refine ⟨?_, ?_, ?_, ?_, ?_, ?_, ?_, ?_, ?_, ?_⟩
  · intro a b hl hr
    exact ⟨getBoolVal_bin_bool_ok .AndExpr l r a b hl hr,
      getBoolVal_bin_bool_ok .OrExpr l r a b hl hr⟩
  · intro err hl type
    exact getBoolVal_bin_bool_left type l r err hl
  · intro a err hl hr type
    exact getBoolVal_bin_bool_right type l r a err hl hr
  · intro err hl hr
    exact getBoolVal_bin_bool_right .AndExpr l r false err hl hr
  · intro err hl hr
    exact getBoolVal_bin_bool_right .OrExpr l r true err hl hr
  · intro type c h
    cases hl : l.getBoolVal with
    | error err =>
      rw [getBoolVal_bin_bool_left type l r err hl] at h
      cases h
    | ok a =>
      cases hr : r.getBoolVal with
      | error err =>
        rw [getBoolVal_bin_bool_right type l r a err hl hr] at h
        cases h
      | ok b => exact ⟨a, b, rfl, rfl⟩
  · intro u v hx hy
    exact ⟨getBoolVal_num2bool_ok .IsEqualExpr x y u v hx hy,
      getBoolVal_num2bool_ok .NotEqualExpr x y u v hx hy,
      getBoolVal_num2bool_ok .IsLessExpr x y u v hx hy,
      getBoolVal_num2bool_ok .NotLessExpr x y u v hx hy,
      getBoolVal_num2bool_ok .IsGreaterExpr x y u v hx hy,
      getBoolVal_num2bool_ok .NotGreaterExpr x y u v hx hy⟩
  · intro err hx type
    exact getBoolVal_num2bool_left type x y err hx
  · intro u err hx hy type
    exact getBoolVal_num2bool_right type x y u err hx hy
  · intro type c h
    cases hx : x.getNumVal with
    | error err =>
      rw [getBoolVal_num2bool_left type x y err hx] at h
      cases h
    | ok u =>
      cases hy : y.getNumVal with
      | error err =>
        rw [getBoolVal_num2bool_right type x y u err hx hy] at h
        cases h
      | ok v => exact ⟨u, v, rfl, rfl⟩

/-- Witness of C36: in (1 < 0) && (x < 1) the left operand evaluates to false
and the right one cannot be evaluated, and the conjunction fails with the
error of the right operand. -/
theorem strict_bool_eval_witness :
    (BoolExpr.BIN_NUM2BOOL_EXPR .IsLessExpr (.ConstExpr 1) (.ConstExpr 0)).getBoolVal =
      .ok false ∧
    (BoolExpr.BIN_BOOL_EXPR .AndExpr
      (.BIN_NUM2BOOL_EXPR .IsLessExpr (.ConstExpr 1) (.ConstExpr 0))
      (.BIN_NUM2BOOL_EXPR .IsLessExpr (.IndexExpr "x" .DOMAIN_INDEX) (.ConstExpr 1))).getBoolVal =
      .error (.cannot_evaluate (.IndexExpr "x" .DOMAIN_INDEX)) :=
  have hl : (BoolExpr.BIN_NUM2BOOL_EXPR .IsLessExpr (.ConstExpr 1) (.ConstExpr 0)).getBoolVal =
      .ok false := by
    simp [BoolExpr.getBoolVal, NumExpr.getNumVal, Num2BoolType.oper]
  ⟨hl, (strict_bool_eval
      (.BIN_NUM2BOOL_EXPR .IsLessExpr (.ConstExpr 1) (.ConstExpr 0))
      (.BIN_NUM2BOOL_EXPR .IsLessExpr (.IndexExpr "x" .DOMAIN_INDEX) (.ConstExpr 1))
      (.ConstExpr 0) (.ConstExpr 0)).2.2.2.1 _ hl (by
        simp [BoolExpr.getBoolVal, NumExpr.getNumVal])⟩

/-! ## Filling a generic var -/

theorem foldl_store_elem (f : Nat → ℚ) (l : List Nat) (mem : Nat → ℚ) :
    l.foldl (fun m k => store_elem m (Int.ofNat k) (f k)) mem =
      fun i => if i ∈ l then f i else mem i := by
  induction l generalizing mem with
  | nil =>
    funext i
    simp
  | cons k l ih =>
    rw [List.foldl_cons, ih]
    funext i
    by_cases hl : i ∈ l
    · simp [hl]
    · by_cases hk : i = k
      · subst hk
        simp [hl, store_elem]
      · simp [hl, hk, store_elem]

theorem yask_parallel_for_store (g : idx_t → ℚ) (count : Nat) (mem : Nat → ℚ) :
    yask_parallel_for 0 count (fun start _ m => store_elem m start (g start)) mem =
      fun i => if i < count then g (Int.ofNat i) else mem i := by
  unfold yask_parallel_for
  simp only [Nat.zero_add]
  rw [foldl_store_elem (fun k => g (Int.ofNat k))]
  funext i
  simp [List.mem_range]

theorem tmod_wrap (i : Nat) : Int.tmod (Int.ofNat i) 71 + 1 = ((i % 71 + 1 : Nat) : Int) := by
  show Int.tmod (i : Int) 71 + 1 = _
  rw [Int.tmod_eq_emod (Int.ofNat_nonneg i) (by decide)]
  omega

/-- C37: for a generic var whose storage is allocated, with n = get_num_elems()
elements, after set_elems_in_seq(seed) every element i in [0, n) equals
seed * (i mod 71 + 1) and after set_elems_same(val) every element i in [0, n)
equals val; memory past the n elements and the element count are unchanged;
when storage is not allocated both operations leave the var as it is. -/
theorem sequence_fill (v : GenericVarTyped) (seed val : ℚ) :
    (∀ mem, v.elems = some mem →
      ∃ mem2, (v.set_elems_in_seq seed).elems = some mem2 ∧
        (v.set_elems_in_seq seed).num_elems = v.num_elems ∧
        (∀ i, i < v.num_elems → mem2 i = seed * ((i % 71 + 1 : Nat) : ℚ)) ∧
        (∀ i, v.num_elems ≤ i → mem2 i = mem i)) ∧
    (∀ mem, v.elems = some mem →
      ∃ mem2, (v.set_elems_same val).elems = some mem2 ∧
        (v.set_elems_same val).num_elems = v.num_elems ∧
        (∀ i, i < v.num_elems → mem2 i = val) ∧
        (∀ i, v.num_elems ≤ i → mem2 i = mem i)) ∧
    (v.elems = none → v.set_elems_in_seq seed = v ∧ v.set_elems_same val = v) := by
  refine ⟨?_, ?_, ?_⟩
  · intro mem hmem
    refine ⟨yask_parallel_for 0 v.num_elems
      (fun start _ m => store_elem m start (seed * ((Int.tmod start 71 + 1 : Int) : ℚ))) mem,
      ?_, ?_, ?_, ?_⟩
    · unfold GenericVarTyped.set_elems_in_seq
      rw [hmem]
    · unfold GenericVarTyped.set_elems_in_seq
      rw [hmem]
    · intro i hi
      rw [yask_parallel_for_store (fun start => seed * ((Int.tmod start 71 + 1 : Int) : ℚ))]
      simp only [hi, if_true]
      rw [tmod_wrap]
      norm_cast
    · intro i hi
      rw [yask_parallel_for_store (fun start => seed * ((Int.tmod start 71 + 1 : Int) : ℚ))]
      simp only [Nat.not_lt.mpr hi, if_false]
  · intro mem hmem
    refine ⟨yask_parallel_for 0 v.num_elems (fun start _ m => store_elem m start val) mem,
      ?_, ?_, ?_, ?_⟩
    · unfold GenericVarTyped.set_elems_same
      rw [hmem]
    · unfold GenericVarTyped.set_elems_same
      rw [hmem]
    · intro i hi
      rw [yask_parallel_for_store (fun _ => val)]
      simp only [hi, if_true]
    · intro i hi
      rw [yask_parallel_for_store (fun _ => val)]
      simp only [Nat.not_lt.mpr hi, if_false]
  · intro hnone
    unfold GenericVarTyped.set_elems_in_seq GenericVarTyped.set_elems_same
    rw [hnone]
    exact ⟨rfl, rfl⟩

/-- Witness of C37: a var of 73 elements, all 0, filled from the seed 2 holds
2 at index 0, 142 at index 70 and 2 again at index 71, and the memory at
index 73, past the var, still holds 0. -/
theorem sequence_fill_witness :
    ∃ mem2, (GenericVarTyped.set_elems_in_seq ⟨73, some (fun _ => 0)⟩ 2).elems = some mem2 ∧
      mem2 0 = 2 ∧ mem2 70 = 142 ∧ mem2 71 = 2 ∧ mem2 73 = 0 := by
  obtain ⟨mem2, h1, _, h3, h4⟩ := (sequence_fill ⟨73, some (fun _ => 0)⟩ 2 0).1 _ rfl
  refine ⟨mem2, h1, ?_, ?_, ?_, ?_⟩
  · rw [h3 0 (by decide)]
    norm_num
  · rw [h3 70 (by decide)]
    norm_num
  · rw [h3 71 (by decide)]
    norm_num
  · rw [h4 73 (by decide)]

end Yask
